import Mathlib

/-!
# Verification of the tonal-sync-ai pitch-correction core

A shallow embedding, over exact rationals (and reals where the source uses
transcendental functions), of the signal-processing core found in
`src/frontend/src/hooks/useAudioProcessor.ts`.  That file holds two variants
of the hook: the first variant (lines 1-788) defines `findNearestNoteInScale`,
`detectPitchYIN` and the worklet `PitchShifterProcessor`; the second variant
(lines 789-1548) defines `findNearestNote`, `detectPitch` and the worklet
`NaturalPitchShifterProcessor`.  Both are embedded here.

Floating-point numbers of the source are modelled by `ℚ`; the comparison
`Math.abs(1200*log2 x) < Math.abs(1200*log2 y)` is modelled by the
order-isomorphic comparison of `maxRatio` values (theorem `centsAbs_lt_iff`
below proves the two orders agree), and `Math.round(1200*Math.log2 (f/g))`
is modelled by `roundCents f g`, an exact integer computation whose value is
pinned against the real logarithm by `roundCents_char` and
`roundCents_close_to_cents`.
-/

set_option maxRecDepth 10000
set_option exponentiation.threshold 100000

namespace TonalSync

/-- `NOTES` of the source: the 12 pitch-class names. -/
def NOTES : List String :=
  ["C", "C#", "D", "D#", "E", "F", "F\x23", "G", "G#", "A", "A#", "B"]

/-- `NOTE_FREQUENCIES` of the source: octave-4 frequencies in Hz (A4 = 440). -/
def NOTE_FREQUENCIES : List (String × ℚ) :=
  [("C", 261.63), ("C#", 277.18), ("D", 293.66), ("D#", 311.13),
   ("E", 329.63), ("F", 349.23), ("F#", 369.99), ("G", 392.00),
   ("G#", 415.30), ("A", 440.00), ("A#", 466.16), ("B", 493.88)]

/-- `SCALE_PATTERNS` of the source: semitone offsets from the root. -/
def SCALE_PATTERNS : List (String × List ℕ) :=
  [("Major", [0, 2, 4, 5, 7, 9, 11]),
   ("Minor", [0, 2, 3, 5, 7, 8, 10]),
   ("Chromatic", [0, 1, 2, 3, 4, 5, 6, 7, 8, 9, 10, 11]),
   ("Pentatonic", [0, 2, 4, 7, 9]),
   ("Blues", [0, 3, 5, 6, 7, 10]),
   ("Dorian", [0, 2, 3, 5, 7, 9, 10]),
   ("Mixolydian", [0, 2, 4, 5, 7, 9, 10])]

/-- JavaScript `Array.prototype.indexOf`: index of the first occurrence,
`-1` when the element is absent. -/
def indexOfJS : List String → String → ℤ
  | [], _ => -1
  | a :: l, s =>
    if a = s then 0 else if indexOfJS l s = -1 then -1 else indexOfJS l s + 1

/-- JavaScript indexing `l[i]` on a string array: `undefined` (here `none`)
for an index outside the array, as happens at `NOTES[-1]`. -/
def jsGetNote (l : List String) (i : ℤ) : Option String :=
  if i < 0 then none else l.get? i.toNat

/-- `getScaleNotes` of the source (both variants are identical):
`pattern.map(s => NOTES[(keyIndex + s) % 12])` with
`keyIndex = NOTES.indexOf(key)` and `pattern` the selected scale's pattern,
falling back to the `"Chromatic"` pattern when the scale name is unknown.
JavaScript `%` is a truncating remainder (`Int.tmod`), so an invalid key
(`keyIndex = -1`) sends the root offset `0` to index `-1`, i.e. `none`. -/
def getScaleNotes (key scale : String) : List (Option String) :=
  ((SCALE_PATTERNS.lookup scale).getD [0, 1, 2, 3, 4, 5, 6, 7, 8, 9, 10, 11]).map
    (fun (s : ℕ) => jsGetNote NOTES ((indexOfJS NOTES key + (s : ℤ)).tmod 12))

/-- One element of the frequency table built by `getScaleFrequencies`:
`{ note, freq, octave }`.  `freq` is `none` when the note name was
`undefined` (the JavaScript value would be `NaN`). -/
structure ScaleEntry where
  note : Option String
  freq : Option ℚ
  octave : ℕ
deriving DecidableEq

/-- The sort key used to model `sort((a, b) => a.freq - b.freq)`: entries
whose `freq` is `none` (JavaScript `NaN`, for which the comparator returns
`NaN`, coerced to `0` by the sort) are given key `0`.  No claim below
depends on where such entries land in the order. -/
def freqKey (e : ScaleEntry) : ℚ := e.freq.getD 0

/-- The comparator relation for the frequency sort. -/
def entLE (a b : ScaleEntry) : Prop := freqKey a ≤ freqKey b

instance : DecidableRel entLE := fun a b =>
  inferInstanceAs (Decidable (freqKey a ≤ freqKey b))

instance : IsTotal ScaleEntry entLE := ⟨fun a b => le_total (freqKey a) (freqKey b)⟩

instance : IsTrans ScaleEntry entLE := ⟨fun _ _ _ h h' => le_trans h h'⟩

/-- The unsorted table built by `getScaleFrequencies`: for each octave
1..7 and each scale note, `freq = NOTE_FREQUENCIES[note] * 2^(octave-4)`. -/
def buildScaleFrequencies (key scale : String) : List ScaleEntry :=
  ((List.range 7).map (· + 1)).flatMap (fun (oct : ℕ) =>
    (getScaleNotes key scale).map (fun n =>
      { note := n
        freq := (n.bind (NOTE_FREQUENCIES.lookup ·)).map
          (· * (2 : ℚ) ^ ((oct : ℤ) - 4))
        octave := oct }))

/-- `getScaleFrequencies` of the source (both variants are identical): the
table above sorted ascending by frequency (a stable sort, as JavaScript's). -/
def getScaleFrequencies (key scale : String) : List ScaleEntry :=
  List.insertionSort entLE (buildScaleFrequencies key scale)

/-- The in-scale frequencies of the table (dropping entries whose frequency
is undefined). -/
def scaleFreqs (key scale : String) : List ℚ :=
  (getScaleFrequencies key scale).filterMap (·.freq)

/-- `max (f/g) (g/f)`: for positive `f`, `g` this is `2 ^ (|cents| / 1200)`
where `cents = 1200 * log2 (f/g)`, so comparing `maxRatio` values compares
absolute cents deviations (theorem `centsAbs_lt_iff`). -/
def maxRatio (f g : ℚ) : ℚ := max (f / g) (g / f)

/-- `(Int.log 2 (r ^ 2400 * 2)) / 2` = `round (1200 * log2 r)` for `1 ≤ r`:
`round x = ⌊x + 1/2⌋`, `1200*log2 r + 1/2 = log2 (r^2400 * 2) / 2`, and the
floor passes through the halving of the integer floor logarithm. -/
def halfCents (r : ℚ) : ℤ := Int.log 2 (r ^ 2400 * 2) / 2

/-- `Math.round(1200 * Math.log2 (f / g))` computed exactly: the rounded
signed cents deviation of `f` against `g`.  (For rational arguments the
rounded quantity is never an exact half-integer - `(f/g)^2400 = 2^odd` has
no rational solution - so rounding the absolute value and restoring the
sign agrees with JavaScript's round-half-up on both signs.) -/
def roundCents (f g : ℚ) : ℤ :=
  if g ≤ f then halfCents (f / g) else - halfCents (g / f)

/-- The record returned by the nearest-note search of either variant:
`{ note, freq, cents, octave, pitchRatio }`. -/
structure NearNote where
  note : Option String
  freq : ℚ
  cents : ℤ
  octave : ℕ
  pitchRatio : ℚ
deriving DecidableEq

/-- The running `nearest` record of the second variant's `findNearestNote`:
`cents = none` models the initial `Infinity`; once updated, `cents` holds
the *rounded* integer `Math.round(cents)` that the source stores. -/
structure NearestState where
  note : Option String
  freq : ℚ
  cents : Option ℤ
  octave : ℕ
deriving DecidableEq

/-- One loop iteration of the second variant's `findNearestNote`: compare
the candidate's *raw* absolute cents against the *stored rounded* value
(`Math.abs(cents) < Math.abs(nearest.cents)`), modelled exactly by
`maxRatio f g ^ 1200 < 2 ^ |n|`; an entry with undefined frequency gives
`cents = NaN`, for which the comparison is false. -/
def stepNearest (f : ℚ) (st : NearestState) (e : ScaleEntry) : NearestState :=
  match e.freq with
  | none => st
  | some g =>
    match st.cents with
    | none => ⟨e.note, g, some (roundCents f g), e.octave⟩
    | some n =>
      if maxRatio f g ^ 1200 < (2 : ℚ) ^ n.natAbs then
        ⟨e.note, g, some (roundCents f g), e.octave⟩
      else st

/-- `findNearestNote` of the second variant (lines 1194-1210): guard
`freq <= 0 || freq < 60 || freq > 1500`, then the linear scan above, then
`pitchRatio = nearest.freq / freq`. -/
def findNearestNote (key scale : String) (freq : ℚ) : NearNote :=
  if freq ≤ 0 ∨ freq < 60 ∨ freq > 1500 then ⟨some "-", 0, 0, 0, 1⟩
  else
    let st := (getScaleFrequencies key scale).foldl (stepNearest freq)
      ⟨none, 0, none, 0⟩
    ⟨st.note, st.freq, st.cents.getD 0, st.octave, st.freq / freq⟩

/-- The running minimum of the first variant's `findNearestNoteInScale`:
`none` models the initial `minCentsDiff = Infinity`; otherwise the current
best `(note, freq, octave)` is kept (the stored raw `minCentsDiff` is a
function of the stored frequency, so it needs no separate field). -/
def stepNearest1 (f : ℚ) (st : Option (Option String × ℚ × ℕ))
    (e : ScaleEntry) : Option (Option String × ℚ × ℕ) :=
  match e.freq with
  | none => st
  | some g =>
    match st with
    | none => some (e.note, g, e.octave)
    | some (_, g0, _) =>
      if maxRatio f g < maxRatio f g0 then some (e.note, g, e.octave) else st

/-- `findNearestNoteInScale` of the first variant (lines 301-340): guard
`frequency <= 0 || frequency < 50 || frequency > 2000` (wider than the
second variant's!), an exact raw-cents comparison in the scan
(`Math.abs(centsDiff) < Math.abs(minCentsDiff)`, modelled by the
order-isomorphic `maxRatio` comparison), and `Math.round` applied only to
the returned cents.  The `none` branch after the fold is unreachable for
the nonempty tables this file evaluates it on. -/
def findNearestNoteInScale (key scale : String) (frequency : ℚ) : NearNote :=
  if frequency ≤ 0 ∨ frequency < 50 ∨ frequency > 2000 then ⟨some "-", 0, 0, 0, 1⟩
  else
    match (getScaleFrequencies key scale).foldl (stepNearest1 frequency) none with
    | none => ⟨none, 0, 0, 0, 0⟩
    | some (n, g, o) => ⟨n, g, roundCents frequency g, o, g / frequency⟩

/-! ## The YIN pitch detectors

Both variants' estimators share, token for token, the squared-difference
loop, the cumulative-mean normalization (with the `runningSum === 0 ? 1`
clamp) and the descend-to-local-minimum loop; they differ in the control
flow of the threshold scan and in the first variant's extra probability
check.  The shared pieces are embedded once; the scans separately. -/

/-- `d(t)`: the squared-difference function over half the analysis window,
`Σ_{j < ⌊n/2⌋} (x[j] - x[j+t])²` (lines 353-358 and 1222-1226). -/
def yinDiff (buf : List ℚ) (t : ℕ) : ℚ :=
  ∑ j ∈ Finset.range (buf.length / 2), (buf.getD j 0 - buf.getD (j + t) 0) ^ 2

/-- The running sum `Σ_{k = 1..t} d(k)` held by `runningSum` / `sum` when
lag `t` is normalized. -/
def yinRunSum (buf : List ℚ) (t : ℕ) : ℚ :=
  ∑ k ∈ Finset.Icc 1 t, yinDiff buf k

/-- `d'(t)`: the cumulative-mean-normalized difference, with `d'(0) = 1`
and the division-by-zero clamp `runningSum === 0 ? 1` (lines 361-362 and
1227-1228). -/
def yinVal (buf : List ℚ) (t : ℕ) : ℚ :=
  if t = 0 then 1
  else if yinRunSum buf t = 0 then 1 else yinDiff buf t * t / yinRunSum buf t

/-- The descend-to-local-minimum loop, identical in both variants
(`while (t+1 < len && yin[t+1] < yin[t]) t++`, lines 369-371 and 1234). -/
def descendMin (buf : List ℚ) (t : ℕ) : ℕ :=
  if t + 1 < buf.length / 2 ∧ yinVal buf (t + 1) < yinVal buf t then
    descendMin buf (t + 1)
  else t
termination_by buf.length / 2 - t

/-- The first variant's threshold scan (lines 367-376): a `for` loop from
`t = 2` with a `break`; `none` models the `tau = -1` sentinel. -/
def scanTau (buf : List ℚ) (t : ℕ) : Option ℕ :=
  if t < buf.length / 2 then
    if yinVal buf t < 1 / 10 then some (descendMin buf t) else scanTau buf (t + 1)
  else none
termination_by buf.length / 2 - t

/-- The second variant's threshold scan (lines 1231-1238): a `while` loop
whose exhausted exit leaves `tau` at its final value (`buf.length / 2`
when entered, the initial `2` when never entered). -/
def scanTau2 (buf : List ℚ) (t : ℕ) : ℕ :=
  if t < buf.length / 2 then
    if yinVal buf t < 1 / 10 then descendMin buf t else scanTau2 buf (t + 1)
  else t
termination_by buf.length / 2 - t

/-- The parabolic-interpolation refinement shared by both variants:
`tau + (s2 - s0) / (2*(2*s1 - s2 - s0))` under the guard
`tau > 0 && tau < len - 1` (lines 381-387 and 1242-1245).  Division by an
exact zero denominator yields `0` in `ℚ`; both embeddings use the same
convention, and no claim below evaluates that case. -/
def refineTau (buf : List ℚ) (tau : ℕ) : ℚ :=
  if 0 < tau ∧ tau < buf.length / 2 - 1 then
    (tau : ℚ) + (yinVal buf (tau + 1) - yinVal buf (tau - 1)) /
      (2 * (2 * yinVal buf tau - yinVal buf (tau + 1) - yinVal buf (tau - 1)))
  else (tau : ℚ)

/-- `detectPitchYIN` of the first variant (lines 343-390), including the
`probability < 0.7` confidence check of line 378. -/
def detectPitchYIN (buf : List ℚ) (sampleRate : ℚ) : ℚ :=
  match scanTau buf 2 with
  | none => 0
  | some tau =>
    if 1 - yinVal buf tau < 7 / 10 then 0 else sampleRate / refineTau buf tau

/-- The second variant's post-loop rejection test
`tau === halfSize || yinBuffer[tau] >= 0.1` (line 1240): when `tau` is out
of the array's bounds the read is `undefined` and the `>=` comparison on
`NaN` is *false* (this makes the two variants differ on windows shorter
than 4 samples - see the C10 theorems). -/
def rejectTau2 (buf : List ℚ) (tau : ℕ) : Prop :=
  tau = buf.length / 2 ∨ (tau < buf.length / 2 ∧ 1 / 10 ≤ yinVal buf tau)

instance (buf : List ℚ) (tau : ℕ) : Decidable (rejectTau2 buf tau) :=
  inferInstanceAs (Decidable (_ ∨ _))

/-- `detectPitch` of the second variant (lines 1213-1248). -/
def detectPitch (buf : List ℚ) (sampleRate : ℚ) : ℚ :=
  let tau := scanTau2 buf 2
  if rejectTau2 buf tau then 0 else sampleRate / refineTau buf tau

/-! ## The correction controller

`processAudio` of each variant turns the quantizer's `(cents, pitchRatio)`
into a smoothed pitch ratio.  The guard of both variants is
`detectedPitch > 0 && targetFreq > 0 && !isBypassed`; inside it the two
differ in every constant.  `Math.random()` is modelled by an explicit
`rand ∈ [0, 1]` argument. -/

/-- The correction-mode tag (`"modern" | "classic"`). -/
inductive CorrectionMode where
  | modern : CorrectionMode
  | classic : CorrectionMode
deriving DecidableEq

/-- `retuneSpeedNormalized = retuneSpeed / 100` (lines 427 and 1295). -/
def retuneNorm (retuneSpeed : ℚ) : ℚ := retuneSpeed / 100

/-- Second variant, classic branch, line 1299:
`strength = 1.0 - retuneNorm * 0.1`. -/
def classicStrength2 (retuneSpeed : ℚ) : ℚ := 1 - retuneNorm retuneSpeed * 0.1

/-- Second variant, classic branch, line 1300:
`finalRatio = 1.0 + (pitchRatio - 1.0) * strength`. -/
def classicFinal2 (retuneSpeed pitchRatio : ℚ) : ℚ :=
  1 + (pitchRatio - 1) * classicStrength2 retuneSpeed

/-- Second variant, modern branch, line 1305:
`threshold = 8 + retuneNorm * 35`. -/
def modernThreshold2 (retuneSpeed : ℚ) : ℚ := 8 + retuneNorm retuneSpeed * 35

/-- Second variant, modern branch, lines 1306-1311: correct (with strength
`1 - retuneNorm * 0.4`) only when `|cents|` exceeds the threshold. -/
def modernFinal2 (retuneSpeed : ℚ) (cents : ℤ) (pitchRatio : ℚ) : ℚ :=
  if modernThreshold2 retuneSpeed < |(cents : ℚ)| then
    1 + (pitchRatio - 1) * (1 - retuneNorm retuneSpeed * 0.4)
  else 1

/-- Second variant: the target ratio fed to the smoothing step. -/
def finalRatio2 (mode : CorrectionMode) (retuneSpeed : ℚ) (cents : ℤ)
    (pitchRatio : ℚ) : ℚ :=
  match mode with
  | .classic => classicFinal2 retuneSpeed pitchRatio
  | .modern => modernFinal2 retuneSpeed cents pitchRatio

/-- Second variant: the smoothing coefficient (lines 1301 and 1312). -/
def smooth2 (mode : CorrectionMode) (retuneSpeed : ℚ) : ℚ :=
  match mode with
  | .classic => 0.08 + retuneNorm retuneSpeed * 0.08
  | .modern => 0.3 + retuneNorm retuneSpeed * 0.3

/-- Second variant: one full update of `currentPitchRatioRef` (lines
1293-1318): inside the guard, the exponential-moving-average step followed
by the humanize jitter `(Math.random() - 0.5) * 0.004 * humanize`;
otherwise the ref is left untouched. -/
def currentStep2 (mode : CorrectionMode) (retuneSpeed humanize : ℚ)
    (bypassed : Bool) (detectedPitch targetFreq : ℚ) (cents : ℤ)
    (pitchRatio rand current : ℚ) : ℚ :=
  if 0 < detectedPitch ∧ 0 < targetFreq ∧ bypassed = false then
    let f := finalRatio2 mode retuneSpeed cents pitchRatio
    let c1 := current + (f - current) * (1 - smooth2 mode retuneSpeed)
    c1 + (rand - 0.5) * 0.004 * (humanize / 100)
  else current

/-- First variant, classic branch, line 432:
`correctionAmount = 1.0 - retuneNorm * 0.3` (70-100%). -/
def classicCorrection1 (retuneSpeed : ℚ) : ℚ := 1 - retuneNorm retuneSpeed * 0.3

/-- First variant, modern branch, line 443:
`correctionAmount = 1.0 - retuneNorm * 0.8` (20-100%). -/
def modernCorrection1 (retuneSpeed : ℚ) : ℚ := 1 - retuneNorm retuneSpeed * 0.8

/-- First variant, modern branch, lines 446-453: the deadband threshold is
the *fixed* constant 15 cents (`if (pitchDeviation > 15)`), independent of
the retune speed. -/
def modernTarget1 (cents : ℤ) (pitchRatio : ℚ) : ℚ :=
  if 15 < |(cents : ℚ)| then pitchRatio else 1

/-- First variant: the target ratio stored in `targetPitchRatioRef`
(classic snaps to the raw `pitchRatio`, line 435). -/
def target1 (mode : CorrectionMode) (cents : ℤ) (pitchRatio : ℚ) : ℚ :=
  match mode with
  | .classic => pitchRatio
  | .modern => modernTarget1 cents pitchRatio

/-- First variant: the smoothing factor (lines 438 and 456). -/
def smooth1 (mode : CorrectionMode) (retuneSpeed : ℚ) : ℚ :=
  match mode with
  | .classic => 0.3 + retuneNorm retuneSpeed * 0.2
  | .modern => 0.7 + retuneNorm retuneSpeed * 0.25

/-- First variant: one full update of `currentPitchRatioRef` (lines
422-458): the exponential-moving-average step alone - the first variant's
humanize jitter is applied to the *output* ratio, not to the persistent
state. -/
def currentStep1 (mode : CorrectionMode) (retuneSpeed : ℚ) (bypassed : Bool)
    (detectedPitch targetFreq : ℚ) (cents : ℤ) (pitchRatio current : ℚ) : ℚ :=
  if 0 < detectedPitch ∧ 0 < targetFreq ∧ bypassed = false then
    current + (target1 mode cents pitchRatio - current) *
      (1 - smooth1 mode retuneSpeed)
  else current

/-- First variant, lines 460-465: the ratio actually sent to the worklet,
`1 + (current - 1) * correctionAmount + humanizeOffset` - the strength is
applied to the *smoothed* ratio, not to the quantizer's raw ratio. -/
def finalPitchRatio1 (mode : CorrectionMode) (retuneSpeed humanize : ℚ)
    (rand current : ℚ) : ℚ :=
  let corr := match mode with
    | .classic => classicCorrection1 retuneSpeed
    | .modern => modernCorrection1 retuneSpeed
  1 + (current - 1) * corr + (rand - 0.5) * 0.02 * (humanize / 100)

/-! ## The first variant's worklet: `PitchShifterProcessor` (lines 61-117)

A time-domain resampler over a 512-sample circular buffer (the
`Float32Array(1024)` holds a duplicated copy; only indices below 512 are
ever read).  Its `port.onmessage` (lines 73-77) stores the received ratio
*without any clamping*.  The unused `outputBuffer`/`outputIndex` fields are
omitted.  Array indices are reduced with `Int.emod`, which agrees with the
JavaScript access for the nonnegative phases arising in every claim. -/

structure PitchShifterState where
  pitchRatio : ℚ
  buffer : ℕ → ℚ
  bufferIndex : ℕ
  phase : ℚ

/-- The constructor's state (lines 62-71). -/
def psInit : PitchShifterState :=
  { pitchRatio := 1, buffer := fun _ => 0, bufferIndex := 0, phase := 0 }

/-- `port.onmessage` of the first worklet: `this.pitchRatio = event.data.pitchRatio`
- no clamp, no validation. -/
def psOnMessage (st : PitchShifterState) (r : ℚ) : PitchShifterState :=
  { st with pitchRatio := r }

/-- One iteration of the first worklet's sample loop (lines 89-111). -/
def psSample (st : PitchShifterState) (x : ℚ) : PitchShifterState × ℚ :=
  let buf1 : ℕ → ℚ := fun i =>
    if i = st.bufferIndex ∨ i = st.bufferIndex + 512 then x else st.buffer i
  let intIndex : ℕ := ((⌊st.phase⌋ : ℤ).emod 512).toNat
  let frac : ℚ := st.phase - ⌊st.phase⌋
  let s1 := buf1 intIndex
  let s2 := buf1 ((intIndex + 1) % 512)
  let out := s1 + frac * (s2 - s1)
  let ph1 := st.phase + st.pitchRatio
  ({ st with
      buffer := buf1
      bufferIndex := (st.bufferIndex + 1) % 512
      phase := if 512 ≤ ph1 then ph1 - 512 else ph1 }, out)

/-- The first worklet's `process` over one input block. -/
def psProcess : PitchShifterState → List ℚ → PitchShifterState × List ℚ
  | st, [] => (st, [])
  | st, x :: xs =>
    let p := psSample st x
    let q := psProcess p.1 xs
    (q.1, p.2 :: q.2)

/-! ## The second variant's worklet: `NaturalPitchShifterProcessor`
(lines 863-1038)

A four-grain granular resampler over an 8192-sample circular buffer with a
Hann window, vibrato LFO, wet/dry mix, a `+6 dB` output gain and a
soft clip.  The window, LFO and soft clip use transcendental functions, so
this state is over `ℝ`.  The dead `smoothingCoef` field and the
`hopSize`/`numGrains` constants are inlined. -/

structure NaturalShifterState where
  pitchRatio : ℝ
  targetRatio : ℝ
  wetMix : ℝ
  vibratoDepth : ℝ
  vibratoRate : ℝ
  vibratoPhase : ℝ
  vibratoDelay : ℝ
  vibratoOnset : ℝ
  noteStartTime : ℝ
  currentTime : ℝ
  inputBuffer : ℕ → ℝ
  inputWritePos : ℕ
  grainReadPos : Fin 4 → ℝ
  grainPhase : Fin 4 → ℝ
  outputGain : ℝ

/-- The constructor's state (lines 864-909): grains start at phases
`i / 4` and read position 0; `outputGain = 2.0` (the "+6dB boost"). -/
noncomputable def nsInit : NaturalShifterState :=
  { pitchRatio := 1, targetRatio := 1, wetMix := 1
    vibratoDepth := 0, vibratoRate := 5.5, vibratoPhase := 0
    vibratoDelay := 0.3, vibratoOnset := 0.1
    noteStartTime := 0, currentTime := 0
    inputBuffer := fun _ => 0, inputWritePos := 0
    grainReadPos := fun _ => 0
    grainPhase := fun i => (i : ℝ) / 4
    outputGain := 2 }

/-- The Hann window `0.5 * (1 - cos (2*pi*i / 2048))` (lines 900-903). -/
noncomputable def nsWindow (i : ℕ) : ℝ :=
  0.5 * (1 - Real.cos (2 * Real.pi * i / 2048))

/-- The second worklet's `pitchRatio` message handler (line 913):
`targetRatio = Math.max(0.5, Math.min(2.0, v))` - this is the clamp to
`[0.5, 2.0]`. -/
noncomputable def nsSetPitchRatio (st : NaturalShifterState) (r : ℝ) :
    NaturalShifterState :=
  { st with targetRatio := max 0.5 (min 2.0 r) }

/-- The `wetMix` message handler (line 916): clamped to `[0, 1]`. -/
noncomputable def nsSetWetMix (st : NaturalShifterState) (w : ℝ) :
    NaturalShifterState :=
  { st with wetMix := max 0 (min 1 w) }

/-- The per-block ratio smoothing at the top of `process` (line 950):
`pitchRatio += (targetRatio - pitchRatio) * 0.05`. -/
noncomputable def nsSmooth (st : NaturalShifterState) : NaturalShifterState :=
  { st with pitchRatio := st.pitchRatio + (st.targetRatio - st.pitchRatio) * 0.05 }

/-- `Math.sign`. -/
noncomputable def jsSign (x : ℝ) : ℝ := if 0 < x then 1 else if x < 0 then -1 else 0

/-- One grain of the synthesis loop (lines 984-1012), threading the
per-sample accumulators `(outputSample, totalWeight)`:
window lookup at `⌊phase * 2048⌋`, linear interpolation at the fractional
read position, then the phase/read-position advance (grain restart at
`inputWritePos - 2048` when the phase wraps, then `+= effectiveRatio` with
circular wraparound). -/
noncomputable def nsGrain (buf : ℕ → ℝ) (wp : ℕ) (effectiveRatio : ℝ)
    (s : (ℝ × ℝ) × ℝ × ℝ) : (ℝ × ℝ) × ℝ × ℝ :=
  let phase := s.1.1
  let readPos := s.1.2
  let windowVal := nsWindow (⌊phase * 2048⌋).toNat
  let readIdx : ℕ := ((⌊readPos⌋ : ℤ).emod 8192).toNat
  let readFrac : ℝ := readPos - ⌊readPos⌋
  let s0 := buf readIdx
  let s1 := buf ((readIdx + 1) % 8192)
  let sample := s0 + readFrac * (s1 - s0)
  let acc := s.2.1 + sample * windowVal
  let tw := s.2.2 + windowVal
  let ph1 := phase + 1 / 2048
  let phase2 := if (1 : ℝ) ≤ ph1 then 0 else ph1
  let rp1 := if (1 : ℝ) ≤ ph1 then
      (if (wp : ℝ) - 2048 < 0 then (wp : ℝ) - 2048 + 8192 else (wp : ℝ) - 2048)
    else readPos
  let rp2 := rp1 + effectiveRatio
  let rp3 := if 8192 ≤ rp2 then rp2 - 8192 else rp2
  let rp4 := if rp3 < 0 then rp3 + 8192 else rp3
  ((phase2, rp4), acc, tw)

/-- One iteration of the second worklet's sample loop (lines 955-1030):
write the input sample, compute the vibrato modulation (the LFO phase
advances only when `vibratoDepth > 0` and the delay has elapsed), run the
four grains in order, normalize by the total window weight, mix
`processed*wetMix + dry*(1-wetMix)`, apply `outputGain`, and soft-clip
`sign(x) * (1 - exp (-|x|))` when `|x| > 1`. -/
noncomputable def nsSample (sampleRate : ℝ) (st : NaturalShifterState) (x : ℝ) :
    NaturalShifterState × ℝ :=
  let buf1 : ℕ → ℝ := fun i => if i = st.inputWritePos then x else st.inputBuffer i
  let wp1 := (st.inputWritePos + 1) % 8192
  let vib : ℝ × ℝ :=
    if 0 < st.vibratoDepth then
      if st.vibratoDelay < st.currentTime - st.noteStartTime then
        let fadeIn := min 1 ((st.currentTime - st.noteStartTime - st.vibratoDelay) /
          st.vibratoOnset)
        let p1 := st.vibratoPhase + st.vibratoRate / sampleRate
        let p2 := if 1 < p1 then p1 - 1 else p1
        (p2, fadeIn * st.vibratoDepth * Real.sin (2 * Real.pi * p2) * 0.0006)
      else (st.vibratoPhase, 0)
    else (st.vibratoPhase, 0)
  let effectiveRatio := st.pitchRatio * (1 + vib.2)
  let g0 := nsGrain buf1 wp1 effectiveRatio
    ((st.grainPhase 0, st.grainReadPos 0), 0, 0)
  let g1 := nsGrain buf1 wp1 effectiveRatio
    ((st.grainPhase 1, st.grainReadPos 1), g0.2)
  let g2 := nsGrain buf1 wp1 effectiveRatio
    ((st.grainPhase 2, st.grainReadPos 2), g1.2)
  let g3 := nsGrain buf1 wp1 effectiveRatio
    ((st.grainPhase 3, st.grainReadPos 3), g2.2)
  let outputSample := if 0 < g3.2.2 then g3.2.1 / g3.2.2 else g3.2.1
  let mixed := (outputSample * st.wetMix + x * (1 - st.wetMix)) * st.outputGain
  let final := if 1 < |mixed| then jsSign mixed * (1 - Real.exp (-|mixed|)) else mixed
  ({ st with
      inputBuffer := buf1
      inputWritePos := wp1
      vibratoPhase := vib.1
      grainPhase := fun i =>
        if i = 0 then (g0.1).1 else if i = 1 then (g1.1).1
        else if i = 2 then (g2.1).1 else (g3.1).1
      grainReadPos := fun i =>
        if i = 0 then (g0.1).2 else if i = 1 then (g1.1).2
        else if i = 2 then (g2.1).2 else (g3.1).2 }, final)

/-- The per-sample loop of the second worklet's `process`. -/
noncomputable def nsRun (sampleRate : ℝ) :
    NaturalShifterState → List ℝ → NaturalShifterState × List ℝ
  | st, [] => (st, [])
  | st, x :: xs =>
    let p := nsSample sampleRate st x
    let q := nsRun sampleRate p.1 xs
    (q.1, p.2 :: q.2)

/-- The second worklet's `process` over one block (lines 939-1034): the
ratio smoothing, the `currentTime` update, then the sample loop. -/
noncomputable def nsProcess (sampleRate : ℝ) (st : NaturalShifterState)
    (input : List ℝ) : NaturalShifterState × List ℝ :=
  let st1 := nsSmooth st
  let st2 := { st1 with
    currentTime := st1.currentTime + (input.length : ℝ) / sampleRate }
  nsRun sampleRate st2 input

/-! ## Cents deviations over the reals

The source compares `Math.abs(1200 * Math.log2 (f / g))` values; here the
comparison is carried out on `maxRatio` values instead, and this section
proves the two orders agree, pinning the embedding's comparisons and its
`roundCents` to the real logarithm. -/

/-- `1200 * log2 (f / g)`: the signed cents deviation of `f` against `g`,
as the source computes it (lines 320 and 1203). -/
noncomputable def cents (f g : ℚ) : ℝ := 1200 * Real.logb 2 ((f : ℝ) / g)

/-- The absolute cents deviation. -/
noncomputable def centsAbs (f g : ℚ) : ℝ := |cents f g|

/-- Entry-wise frequency order (on entries whose frequency is defined). -/
def entFreqLE (a b : ScaleEntry) : Prop :=
  ∀ ga, a.freq = some ga → ∀ gb, b.freq = some gb → ga ≤ gb

/-- The state invariant of the second variant's scan: a recorded `cents`
value is the rounded cents of the recorded frequency, which is positive. -/
def StInv2 (f : ℚ) (st : NearestState) : Prop :=
  ∀ n, st.cents = some n → 0 < st.freq ∧ n = roundCents f st.freq

theorem maxRatio_pos {f g : ℚ} (hf : 0 < f) (hg : 0 < g) : 0 < maxRatio f g :=
  lt_max_of_lt_left (div_pos hf hg)

theorem one_le_maxRatio {f g : ℚ} (hf : 0 < f) (hg : 0 < g) : 1 ≤ maxRatio f g := by
  rcases le_total g f with h | h
  · exact le_max_of_le_left ((one_le_div hg).mpr h)
  · exact le_max_of_le_right ((one_le_div hf).mpr h)

theorem maxRatio_comm (f g : ℚ) : maxRatio f g = maxRatio g f := max_comm _ _

/-- Over the reals, `maxRatio` is `max x x⁻¹` of the frequency ratio. -/
theorem maxRatio_cast (f g : ℚ) :
    ((maxRatio f g : ℚ) : ℝ) = max ((f : ℝ) / g) (((f : ℝ) / g)⁻¹) := by
  rw [maxRatio, Rat.cast_max]
  push_cast
  rw [inv_div]

/-- `|log2 x| = log2 (max x x⁻¹)` for positive `x`. -/
theorem abs_logb_two (x : ℝ) (hx : 0 < x) :
    |Real.logb 2 x| = Real.logb 2 (max x x⁻¹) := by
  rcases le_total 1 x with h | h
  · rw [abs_of_nonneg (Real.logb_nonneg one_lt_two h),
      max_eq_left (le_trans (inv_le_one_of_one_le₀ h) h)]
  · rw [abs_of_nonpos (Real.logb_nonpos one_lt_two (le_of_lt hx) h), max_eq_right
      (le_trans h (one_le_inv_iff₀.mpr ⟨hx, h⟩)), Real.logb_inv]

/-- The absolute cents deviation, written through `maxRatio`. -/
theorem centsAbs_eq {f g : ℚ} (hf : 0 < f) (hg : 0 < g) :
    centsAbs f g = 1200 * Real.logb 2 ((maxRatio f g : ℚ) : ℝ) := by
  have hx : (0 : ℝ) < (f : ℝ) / g := by positivity
  rw [centsAbs, cents, abs_mul, abs_of_nonneg (by norm_num : (0:ℝ) ≤ 1200),
    abs_logb_two _ hx, maxRatio_cast f g]

/-- Comparing absolute cents deviations is comparing `maxRatio` values:
the order the source's float comparison realizes is the order this
embedding computes. -/
theorem centsAbs_lt_iff {f g g' : ℚ} (hf : 0 < f) (hg : 0 < g) (hg' : 0 < g') :
    centsAbs f g < centsAbs f g' ↔ maxRatio f g < maxRatio f g' := by
  rw [centsAbs_eq hf hg, centsAbs_eq hf hg',
    mul_lt_mul_left (by norm_num : (0:ℝ) < 1200),
    Real.logb_lt_logb_iff one_lt_two
      (by exact_mod_cast maxRatio_pos hf hg)
      (by exact_mod_cast maxRatio_pos hf hg'),
    Rat.cast_lt]

theorem centsAbs_le_iff {f g g' : ℚ} (hf : 0 < f) (hg : 0 < g) (hg' : 0 < g') :
    centsAbs f g ≤ centsAbs f g' ↔ maxRatio f g ≤ maxRatio f g' := by
  rw [← not_lt, centsAbs_lt_iff hf hg' hg, not_lt]

theorem centsAbs_eq_iff {f g g' : ℚ} (hf : 0 < f) (hg : 0 < g) (hg' : 0 < g') :
    centsAbs f g = centsAbs f g' ↔ maxRatio f g = maxRatio f g' := by
  constructor
  · intro h
    exact le_antisymm ((centsAbs_le_iff hf hg hg').mp h.le)
      ((centsAbs_le_iff hf hg' hg).mp h.ge)
  · intro h
    rw [centsAbs_eq hf hg, centsAbs_eq hf hg', h]

/-! ### The characterization of `halfCents` and `roundCents` -/

/-- The defining bounds of `halfCents`: for `1 ≤ r` it is the unique `k`
with `2 ^ (2k-1) ≤ r ^ 2400 < 2 ^ (2k+1)`, i.e. the nearest integer to
`1200 * log2 r`. -/
theorem halfCents_bounds (r : ℚ) (hr : 1 ≤ r) :
    (2 : ℚ) ^ (2 * halfCents r - 1) ≤ r ^ 2400 ∧
      r ^ 2400 < (2 : ℚ) ^ (2 * halfCents r + 1) := by
  have hz : (0 : ℚ) < r ^ 2400 * 2 := by positivity
  have h1 : ((2 : ℕ) : ℚ) ^ Int.log 2 (r ^ 2400 * 2) ≤ r ^ 2400 * 2 :=
    Int.zpow_log_le_self (by norm_num) hz
  have h2 : r ^ 2400 * 2 < ((2 : ℕ) : ℚ) ^ (Int.log 2 (r ^ 2400 * 2) + 1) :=
    Int.lt_zpow_succ_log_self (by norm_num) _
  set m := Int.log 2 (r ^ 2400 * 2) with hm
  push_cast at h1 h2
  have hr2400 : (1 : ℚ) ≤ r ^ 2400 := one_le_pow₀ hr
  have hmpos : 1 ≤ m := by
    have h3 : (2 : ℚ) ^ (1 : ℤ) < 2 ^ (m + 1) :=
      lt_of_le_of_lt (by rw [zpow_one]; linarith) h2
    have := (zpow_lt_zpow_iff_right₀ (by norm_num : (1:ℚ) < 2)).mp h3
    omega
  have hk : halfCents r = m / 2 := by
    rw [halfCents, ← hm]
  have hlow : (2 : ℚ) ^ (m - 1) ≤ r ^ 2400 := by
    have he : (2 : ℚ) ^ (m - 1) = 2 ^ m * 2⁻¹ := zpow_sub_one₀ two_ne_zero m
    rw [he]
    linarith
  have hhigh : r ^ 2400 < (2 : ℚ) ^ m := by
    have he : (2 : ℚ) ^ (m + 1) = 2 ^ m * 2 := zpow_add_one₀ two_ne_zero m
    rw [he] at h2
    linarith
  have hcase : m = 2 * (m / 2) ∨ m = 2 * (m / 2) + 1 := by omega
  have hmono : ∀ a b : ℤ, a ≤ b → (2 : ℚ) ^ a ≤ 2 ^ b := fun a b hab =>
    (zpow_le_zpow_iff_right₀ (by norm_num : (1:ℚ) < 2)).mpr hab
  rw [hk]
  rcases hcase with h | h
  · constructor
    · exact le_trans (hmono _ _ (by omega)) hlow
    · exact lt_of_lt_of_le hhigh (hmono _ _ (by omega))
  · constructor
    · exact le_trans (hmono _ _ (by omega)) hlow
    · exact lt_of_lt_of_le hhigh (hmono _ _ (by omega))

/-- `halfCents` is determined by its bounds. -/
theorem halfCents_eq_of_bounds {r : ℚ} (hr : 1 ≤ r) {n : ℤ}
    (h1 : (2 : ℚ) ^ (2 * n - 1) ≤ r ^ 2400)
    (h2 : r ^ 2400 < (2 : ℚ) ^ (2 * n + 1)) : halfCents r = n := by
  obtain ⟨b1, b2⟩ := halfCents_bounds r hr
  have hx : (2 : ℚ) ^ (2 * halfCents r - 1) < 2 ^ (2 * n + 1) :=
    lt_of_le_of_lt b1 h2
  have hy : (2 : ℚ) ^ (2 * n - 1) < 2 ^ (2 * halfCents r + 1) :=
    lt_of_le_of_lt h1 b2
  have hx' := (zpow_lt_zpow_iff_right₀ (by norm_num : (1:ℚ) < 2)).mp hx
  have hy' := (zpow_lt_zpow_iff_right₀ (by norm_num : (1:ℚ) < 2)).mp hy
  omega

theorem halfCents_nonneg (r : ℚ) (hr : 1 ≤ r) : 0 ≤ halfCents r := by
  obtain ⟨_, b2⟩ := halfCents_bounds r hr
  have : (1 : ℚ) ≤ r ^ 2400 := one_le_pow₀ hr
  have h3 : (2 : ℚ) ^ (0 : ℤ) < 2 ^ (2 * halfCents r + 1) :=
    lt_of_le_of_lt (by rw [zpow_zero]; linarith) b2
  have := (zpow_lt_zpow_iff_right₀ (by norm_num : (1:ℚ) < 2)).mp h3
  omega

theorem maxRatio_eq_left {f g : ℚ} (hf : 0 < f) (hg : 0 < g) (h : g ≤ f) :
    maxRatio f g = f / g := by
  rw [maxRatio, max_eq_left]
  rw [div_le_div_iff₀ hf hg]
  nlinarith

theorem maxRatio_eq_right {f g : ℚ} (hf : 0 < f) (hg : 0 < g) (h : f ≤ g) :
    maxRatio f g = g / f := by
  rw [maxRatio, max_eq_right]
  rw [div_le_div_iff₀ hg hf]
  nlinarith

/-- The characterization of `roundCents` through `maxRatio`: its absolute
value is the nearest integer to the absolute cents deviation. -/
theorem roundCents_char {f g : ℚ} (hf : 0 < f) (hg : 0 < g) :
    (2 : ℚ) ^ (2 * ((roundCents f g).natAbs : ℤ) - 1) ≤ maxRatio f g ^ 2400 ∧
      maxRatio f g ^ 2400 < (2 : ℚ) ^ (2 * ((roundCents f g).natAbs : ℤ) + 1) := by
  rcases le_or_lt g f with h | h
  · have hr : 1 ≤ f / g := (one_le_div hg).mpr h
    have hrc : roundCents f g = halfCents (f / g) := by
      rw [roundCents, if_pos h]
    have hnn := halfCents_nonneg (f / g) hr
    have heq : ((roundCents f g).natAbs : ℤ) = halfCents (f / g) := by
      rw [hrc]
      omega
    rw [heq, maxRatio_eq_left hf hg h]
    exact halfCents_bounds (f / g) hr
  · have hr : 1 ≤ g / f := (one_le_div hf).mpr (le_of_lt h)
    have hrc : roundCents f g = - halfCents (g / f) := by
      rw [roundCents, if_neg (not_le.mpr h)]
    have hnn := halfCents_nonneg (g / f) hr
    have heq : ((roundCents f g).natAbs : ℤ) = halfCents (g / f) := by
      rw [hrc]
      omega
    rw [heq, maxRatio_eq_right hf hg (le_of_lt h)]
    exact halfCents_bounds (g / f) hr

/-- `roundCents` is determined by the `maxRatio` power bounds; this is how
concrete values of `roundCents` are established below. -/
theorem roundCents_eq_of_bounds {f g : ℚ} (hf : 0 < f) (hg : 0 < g) (n : ℤ)
    (hn : 0 ≤ n)
    (h1 : (2 : ℚ) ^ (2 * n - 1) ≤ maxRatio f g ^ 2400)
    (h2 : maxRatio f g ^ 2400 < (2 : ℚ) ^ (2 * n + 1)) :
    (roundCents f g).natAbs = n.toNat ∧
      (g ≤ f → roundCents f g = n) ∧ (f < g → roundCents f g = -n) := by
  rcases le_or_lt g f with h | h
  · have hr : 1 ≤ f / g := (one_le_div hg).mpr h
    rw [maxRatio_eq_left hf hg h] at h1 h2
    have hv : halfCents (f / g) = n := halfCents_eq_of_bounds hr h1 h2
    have hrc : roundCents f g = halfCents (f / g) := by
      rw [roundCents, if_pos h]
    refine ⟨by omega, fun _ => by omega, fun hc => absurd hc (not_lt.mpr h)⟩
  · have hr : 1 ≤ g / f := (one_le_div hf).mpr (le_of_lt h)
    rw [maxRatio_eq_right hf hg (le_of_lt h)] at h1 h2
    have hv : halfCents (g / f) = n := halfCents_eq_of_bounds hr h1 h2
    have hrc : roundCents f g = - halfCents (g / f) := by
      rw [roundCents, if_neg (not_le.mpr h)]
    refine ⟨by omega, fun hc => absurd h (not_lt.mpr hc), fun _ => by omega⟩

/-- The signed cents deviation through `maxRatio`, when `f` is at or above
the note. -/
theorem cents_eq_of_le {f g : ℚ} (hf : 0 < f) (hg : 0 < g) (h : g ≤ f) :
    cents f g = 1200 * Real.logb 2 ((maxRatio f g : ℚ) : ℝ) := by
  rw [cents, maxRatio_eq_left hf hg h]
  push_cast
  ring_nf

/-- The signed cents deviation through `maxRatio`, when `f` is below the
note. -/
theorem cents_eq_of_ge {f g : ℚ} (hf : 0 < f) (hg : 0 < g) (h : f ≤ g) :
    cents f g = -(1200 * Real.logb 2 ((maxRatio f g : ℚ) : ℝ)) := by
  rw [cents, maxRatio_eq_right hf hg h]
  have hfg : ((f : ℝ) / g) = ((g : ℝ) / f)⁻¹ := by
    rw [inv_div]
  rw [hfg, Real.logb_inv]
  push_cast
  ring_nf

/-- The reported integer cents value is the true cents deviation rounded:
they differ by at most half a cent. -/
theorem roundCents_close_to_cents {f g : ℚ} (hf : 0 < f) (hg : 0 < g) :
    |(roundCents f g : ℝ) - cents f g| ≤ 1 / 2 := by
  obtain ⟨h1, h2⟩ := roundCents_char hf hg
  set k : ℤ := ((roundCents f g).natAbs : ℤ) with hk
  set R : ℚ := maxRatio f g with hR
  have hRpos : (0 : ℝ) < ((R : ℚ) : ℝ) := by
    exact_mod_cast maxRatio_pos hf hg
  have hRpow : (0 : ℝ) < ((R : ℚ) : ℝ) ^ (2400 : ℕ) := pow_pos hRpos 2400
  -- cast the rational power bounds to the reals
  have h1' := (Rat.cast_le (K := ℝ)).mpr h1
  have h2' := (Rat.cast_lt (K := ℝ)).mpr h2
  push_cast at h1' h2'
  -- take base-2 logarithms
  have hzlog : ∀ m : ℤ, Real.logb 2 ((2 : ℝ) ^ m) = (m : ℝ) := by
    intro m
    rw [← Real.rpow_intCast 2 m, Real.logb_rpow (by norm_num) (by norm_num)]
  have hlow : (2 * (k : ℝ) - 1) ≤ 2400 * Real.logb 2 ((R : ℚ) : ℝ) := by
    have hz : (0 : ℝ) < (2 : ℝ) ^ (2 * k - 1) :=
      zpow_pos (by norm_num : (0:ℝ) < 2) _
    have hcmp := (Real.logb_le_logb one_lt_two hz hRpow).mpr h1'
    rw [hzlog, Real.logb_pow] at hcmp
    push_cast at hcmp ⊢
    linarith
  have hhigh : 2400 * Real.logb 2 ((R : ℚ) : ℝ) < 2 * (k : ℝ) + 1 := by
    have hz : (0 : ℝ) < (2 : ℝ) ^ (2 * k + 1) :=
      zpow_pos (by norm_num : (0:ℝ) < 2) _
    have hcmp := (Real.logb_lt_logb_iff one_lt_two hRpow hz).mpr h2'
    rw [hzlog, Real.logb_pow] at hcmp
    push_cast at hcmp ⊢
    linarith
  -- relate the signed quantities
  rcases le_or_lt g f with h | h
  · have hc := cents_eq_of_le hf hg h
    have hnn : 0 ≤ roundCents f g := by
      have : roundCents f g = halfCents (f / g) := by rw [roundCents, if_pos h]
      rw [this]
      exact halfCents_nonneg _ ((one_le_div hg).mpr h)
    have hki : k = roundCents f g := by omega
    have hkr : (roundCents f g : ℝ) = (k : ℝ) := by rw [hki]
    rw [hc, hkr, abs_le]
    constructor <;> linarith
  · have hc := cents_eq_of_ge hf hg (le_of_lt h)
    have hnp : roundCents f g ≤ 0 := by
      have : roundCents f g = - halfCents (g / f) := by
        rw [roundCents, if_neg (not_le.mpr h)]
      rw [this]
      have := halfCents_nonneg (g / f) ((one_le_div hf).mpr (le_of_lt h))
      omega
    have hki : k = -roundCents f g := by omega
    have hkr : (roundCents f g : ℝ) = -(k : ℝ) := by
      rw [hki]
      push_cast
      ring
    rw [hc, hkr, abs_le]
    constructor <;> linarith

/-! ## The first variant's scan: exact argmin with first-found tie-break -/

/-- Each step of the first variant's scan either keeps the state or moves
to the current entry. -/
theorem stepNearest1_eq_or (f : ℚ) (st : Option (Option String × ℚ × ℕ))
    (e : ScaleEntry) :
    stepNearest1 f st e = st ∨
    ∃ g, e.freq = some g ∧ stepNearest1 f st e = some (e.note, g, e.octave) := by
  rcases e with ⟨en, efr, eo⟩
  cases efr with
  | none => left; rfl
  | some g =>
    cases st with
    | none => right; exact ⟨g, rfl, rfl⟩
    | some s =>
      rcases s with ⟨n0, g0, o0⟩
      by_cases h : maxRatio f g < maxRatio f g0
      · right; exact ⟨g, rfl, by simp [stepNearest1, h]⟩
      · left; simp [stepNearest1, h]

/-- The first variant's scan result is the initial state or one of the
scanned entries. -/
theorem foldl1_cases (f : ℚ) (l : List ScaleEntry)
    (st : Option (Option String × ℚ × ℕ)) :
    l.foldl (stepNearest1 f) st = st ∨
    ∃ e ∈ l, ∃ g, e.freq = some g ∧
      l.foldl (stepNearest1 f) st = some (e.note, g, e.octave) := by
  induction l generalizing st with
  | nil => left; rfl
  | cons e l ih =>
    rw [List.foldl_cons]
    rcases stepNearest1_eq_or f st e with h | ⟨g, hg, h⟩
    · rcases ih (stepNearest1 f st e) with h2 | ⟨e', he', g', hg', h2⟩
      · left; rw [h2, h]
      · right; exact ⟨e', List.mem_cons_of_mem _ he', g', hg', h2⟩
    · rcases ih (stepNearest1 f st e) with h2 | ⟨e', he', g', hg', h2⟩
      · right; exact ⟨e, List.mem_cons_self e l, g, hg, by rw [h2, h]⟩
      · right; exact ⟨e', List.mem_cons_of_mem _ he', g', hg', h2⟩

/-- Starting from a nonempty state, the first variant's scan keeps it or
strictly improves it (the comparison is strict, so every takeover strictly
lowers the absolute cents deviation). -/
theorem foldl1_le_init (f : ℚ) (l : List ScaleEntry)
    (s0 : Option String × ℚ × ℕ) :
    l.foldl (stepNearest1 f) (some s0) = some s0 ∨
    ∃ s, l.foldl (stepNearest1 f) (some s0) = some s ∧
      maxRatio f s.2.1 < maxRatio f s0.2.1 := by
  induction l generalizing s0 with
  | nil => left; rfl
  | cons e l ih =>
    rw [List.foldl_cons]
    rcases e with ⟨en, efr, eo⟩
    rcases s0 with ⟨n0, g0, o0⟩
    cases efr with
    | none => exact ih (n0, g0, o0)
    | some g =>
      by_cases h : maxRatio f g < maxRatio f g0
      · have hstep : stepNearest1 f (some (n0, g0, o0)) ⟨en, some g, eo⟩ =
            some (en, g, eo) := by simp [stepNearest1, h]
        rw [hstep]
        rcases ih (en, g, eo) with h2 | ⟨s, hs, hlt⟩
        · right; exact ⟨(en, g, eo), h2, h⟩
        · right; exact ⟨s, hs, lt_trans hlt h⟩
      · have hstep : stepNearest1 f (some (n0, g0, o0)) ⟨en, some g, eo⟩ =
            some (n0, g0, o0) := by simp [stepNearest1, h]
        rw [hstep]
        exact ih (n0, g0, o0)

/-- The first variant's scan result is at least as close (in absolute
cents, i.e. in `maxRatio`) as every valid entry it scanned. -/
theorem foldl1_beats (f : ℚ) (l : List ScaleEntry)
    (st : Option (Option String × ℚ × ℕ)) :
    ∀ e ∈ l, ∀ g, e.freq = some g →
      ∃ s, l.foldl (stepNearest1 f) st = some s ∧
        maxRatio f s.2.1 ≤ maxRatio f g := by
  induction l generalizing st with
  | nil => intro e he; exact absurd he (List.not_mem_nil e)
  | cons e' l ih =>
    intro e he g hg
    rw [List.foldl_cons]
    rcases List.mem_cons.mp he with rfl | he
    · -- the target is the head entry: after its own step, the state is
      -- at least as good as it, and the rest only keeps or improves that
      have hstep : ∃ s1, stepNearest1 f st e = some s1 ∧
          maxRatio f s1.2.1 ≤ maxRatio f g := by
        rcases e with ⟨en, efr, eo⟩
        cases efr with
        | none => exact absurd hg (by simp)
        | some g' =>
          obtain rfl : g = g' := by simpa using hg.symm
          cases st with
          | none => exact ⟨(en, g, eo), rfl, le_refl _⟩
          | some s0 =>
            rcases s0 with ⟨n0, g0, o0⟩
            by_cases h : maxRatio f g < maxRatio f g0
            · exact ⟨(en, g, eo), by simp [stepNearest1, h], le_refl _⟩
            · exact ⟨(n0, g0, o0), by simp [stepNearest1, h], not_lt.mp h⟩
      obtain ⟨s1, hs1, hle⟩ := hstep
      rw [hs1]
      rcases foldl1_le_init f l s1 with h2 | ⟨s, hs, hlt⟩
      · exact ⟨s1, h2, hle⟩
      · exact ⟨s, hs, le_trans (le_of_lt hlt) hle⟩
    · exact ih (stepNearest1 f st e') e he g hg

/-- The first variant keeps the *first* minimum it finds: on an exact tie
in absolute cents the earlier (for a sorted table: lower) frequency wins,
because the takeover comparison is strict. -/
theorem foldl1_tie (f : ℚ) (l : List ScaleEntry)
    (st : Option (Option String × ℚ × ℕ))
    (hsort : List.Pairwise entFreqLE l)
    (hinit : ∀ s0, st = some s0 → ∀ e ∈ l, ∀ g, e.freq = some g → s0.2.1 ≤ g) :
    ∀ e ∈ l, ∀ g, e.freq = some g → ∀ s,
      l.foldl (stepNearest1 f) st = some s →
      maxRatio f s.2.1 = maxRatio f g → s.2.1 ≤ g := by
  induction l generalizing st with
  | nil => intro e he; exact absurd he (List.not_mem_nil e)
  | cons e' l ih =>
    intro e he g hg s hfold htie
    rw [List.foldl_cons] at hfold
    have hsort' : List.Pairwise entFreqLE l := (List.pairwise_cons.mp hsort).2
    have hhead : ∀ h ∈ l, entFreqLE e' h := (List.pairwise_cons.mp hsort).1
    have hinit' : ∀ s0, stepNearest1 f st e' = some s0 →
        ∀ h ∈ l, ∀ gh, h.freq = some gh → s0.2.1 ≤ gh := by
      rcases stepNearest1_eq_or f st e' with hcase | ⟨g', hg', hcase⟩
      · intro s0 hs0 h hh gh hgh
        exact hinit s0 (by rw [← hcase, hs0]) h (List.mem_cons_of_mem _ hh) gh hgh
      · intro s0 hs0 h hh gh hgh
        rw [hcase] at hs0
        obtain rfl : (e'.note, g', e'.octave) = s0 := by
          injection hs0
        exact hhead h hh g' hg' gh hgh
    rcases List.mem_cons.mp he with rfl | he
    · -- the tied entry is the head
      rcases e with ⟨en, efr, eo⟩
      cases efr with
      | none => exact absurd hg (by simp)
      | some g' =>
        obtain rfl : g = g' := by simpa using hg.symm
        cases st with
        | none =>
          have hstep : stepNearest1 f none ⟨en, some g, eo⟩ = some (en, g, eo) := rfl
          rw [hstep] at hfold
          rcases foldl1_le_init f l (en, g, eo) with h2 | ⟨s', hs', hlt⟩
          · rw [h2] at hfold
            rw [← Option.some.inj hfold]
          · rw [hs'] at hfold
            rw [← Option.some.inj hfold] at htie
            exact absurd htie (ne_of_lt hlt)
        | some s0 =>
          rcases s0 with ⟨n0, g0, o0⟩
          by_cases h : maxRatio f g < maxRatio f g0
          · have hstep : stepNearest1 f (some (n0, g0, o0)) ⟨en, some g, eo⟩ =
                some (en, g, eo) := by simp [stepNearest1, h]
            rw [hstep] at hfold
            rcases foldl1_le_init f l (en, g, eo) with h2 | ⟨s', hs', hlt⟩
            · rw [h2] at hfold
              rw [← Option.some.inj hfold]
            · rw [hs'] at hfold
              rw [← Option.some.inj hfold] at htie
              exact absurd htie (ne_of_lt hlt)
          · have hstep : stepNearest1 f (some (n0, g0, o0)) ⟨en, some g, eo⟩ =
                some (n0, g0, o0) := by simp [stepNearest1, h]
            rw [hstep] at hfold
            rcases foldl1_le_init f l (n0, g0, o0) with h2 | ⟨s', hs', hlt⟩
            · rw [h2] at hfold
              rw [← Option.some.inj hfold]
              exact hinit (n0, g0, o0) rfl _ (List.mem_cons_self _ _) g hg
            · rw [hs'] at hfold
              rw [← Option.some.inj hfold] at htie
              exact absurd htie (ne_of_lt (lt_of_lt_of_le hlt (not_lt.mp h)))
    · exact ih (stepNearest1 f st e') hsort' hinit' e he g hg s hfold htie

/-- If the state is nonempty, the first variant's scan stays nonempty. -/
theorem foldl1_isSome_of_valid (f : ℚ) (l : List ScaleEntry)
    (st : Option (Option String × ℚ × ℕ))
    (hvalid : (∃ e ∈ l, e.freq.isSome) ∨ st.isSome) :
    (l.foldl (stepNearest1 f) st).isSome := by
  induction l generalizing st with
  | nil =>
    rcases hvalid with ⟨e, he, _⟩ | h
    · exact absurd he (List.not_mem_nil e)
    · exact h
  | cons e l ih =>
    rw [List.foldl_cons]
    rcases hvalid with ⟨e', he', hv⟩ | h
    · rcases List.mem_cons.mp he' with rfl | he'
      · -- the head is valid: after its step the state is nonempty
        apply ih
        right
        rcases e' with ⟨en, efr, eo⟩
        cases efr with
        | none => exact absurd hv (by simp)
        | some g =>
          cases st with
          | none => rfl
          | some s0 =>
            rcases s0 with ⟨n0, g0, o0⟩
            by_cases hc : maxRatio f g < maxRatio f g0 <;>
              simp [stepNearest1, hc]
      · exact ih _ (Or.inl ⟨e', he', hv⟩)
    · apply ih
      right
      rcases stepNearest1_eq_or f st e with hcase | ⟨g, _, hcase⟩ <;> rw [hcase]
      · exact h
      · rfl

/-! ## The second variant's scan: the stored-rounded-cents comparison

`findNearestNote` compares each candidate's raw cents against the *rounded*
stored value, so the winner need not be the exact argmin; the invariants
below bound the slack at one cent (`2 ^ (1/1200)` on the 2400th power of
the ratio). -/

/-- Each step of the second variant's scan either keeps the state or moves
to the current entry, recording its rounded cents. -/
theorem stepNearest_eq_or (f : ℚ) (st : NearestState) (e : ScaleEntry) :
    stepNearest f st e = st ∨
    ∃ g, e.freq = some g ∧
      stepNearest f st e = ⟨e.note, g, some (roundCents f g), e.octave⟩ := by
  rcases e with ⟨en, efr, eo⟩
  cases efr with
  | none => left; rfl
  | some g =>
    rcases st with ⟨sn, sf, sc, so⟩
    cases sc with
    | none => right; exact ⟨g, rfl, rfl⟩
    | some n =>
      by_cases h : maxRatio f g ^ 1200 < (2 : ℚ) ^ n.natAbs
      · right; exact ⟨g, rfl, by simp [stepNearest, h]⟩
      · left; simp [stepNearest, h]

/-- The second variant's scan result is the initial state or one of the
scanned entries. -/
theorem foldl2_cases (f : ℚ) (l : List ScaleEntry) (st : NearestState) :
    l.foldl (stepNearest f) st = st ∨
    ∃ e ∈ l, ∃ g, e.freq = some g ∧
      l.foldl (stepNearest f) st = ⟨e.note, g, some (roundCents f g), e.octave⟩ := by
  induction l generalizing st with
  | nil => left; rfl
  | cons e l ih =>
    rw [List.foldl_cons]
    rcases stepNearest_eq_or f st e with h | ⟨g, hg, h⟩
    · rcases ih (stepNearest f st e) with h2 | ⟨e', he', g', hg', h2⟩
      · left; rw [h2, h]
      · right; exact ⟨e', List.mem_cons_of_mem _ he', g', hg', h2⟩
    · rcases ih (stepNearest f st e) with h2 | ⟨e', he', g', hg', h2⟩
      · right; exact ⟨e, List.mem_cons_self e l, g, hg, by rw [h2, h]⟩
      · right; exact ⟨e', List.mem_cons_of_mem _ he', g', hg', h2⟩

/-- Squaring the steal comparison: `R^1200 < 2^k` gives `R^2400 < 2^(2k)`
(and its non-strict converse on rejection). -/
theorem sq_steal {R : ℚ} (hR : 0 ≤ R) {k : ℕ}
    (h : R ^ 1200 < (2 : ℚ) ^ k) : R ^ 2400 < (2 : ℚ) ^ (2 * k) := by
  have h2 : (R ^ 1200) ^ 2 < ((2 : ℚ) ^ k) ^ 2 :=
    pow_lt_pow_left₀ h (pow_nonneg hR 1200) (by norm_num)
  calc R ^ 2400 = (R ^ 1200) ^ 2 := by rw [← pow_mul]
    _ < ((2 : ℚ) ^ k) ^ 2 := h2
    _ = (2 : ℚ) ^ (2 * k) := by rw [← pow_mul, Nat.mul_comm]

theorem sq_reject (R : ℚ) {k : ℕ}
    (h : (2 : ℚ) ^ k ≤ R ^ 1200) : (2 : ℚ) ^ (2 * k) ≤ R ^ 2400 := by
  have h2 : ((2 : ℚ) ^ k) ^ 2 ≤ (R ^ 1200) ^ 2 :=
    pow_le_pow_left₀ (by positivity) h 2
  calc (2 : ℚ) ^ (2 * k) = ((2 : ℚ) ^ k) ^ 2 := by rw [← pow_mul, Nat.mul_comm]
    _ ≤ (R ^ 1200) ^ 2 := h2
    _ = R ^ 2400 := by rw [← pow_mul]

/-- A takeover (the steal comparison holds) never raises the recorded
magnitude: the new rounded cents fit under the old stored bound. -/
theorem roundCents_natAbs_le (f g : ℚ) (hf : 0 < f) (hgpos : 0 < g) (n0 : ℤ)
    (h : maxRatio f g ^ 1200 < (2 : ℚ) ^ n0.natAbs) :
    (roundCents f g).natAbs ≤ n0.natAbs := by
  have hchar := (roundCents_char hf hgpos).1
  have hsq := sq_steal (le_of_lt (maxRatio_pos hf hgpos)) h
  have hcast : maxRatio f g ^ 2400 < (2 : ℚ) ^ ((2 * n0.natAbs : ℕ) : ℤ) := by
    rw [zpow_natCast]
    exact hsq
  have hlt := lt_of_le_of_lt hchar hcast
  have hexp := (zpow_lt_zpow_iff_right₀ (by norm_num : (1:ℚ) < 2)).mp hlt
  omega

/-- The second variant's scan preserves its invariant, keeps a recorded
`cents`, and never lets the recorded magnitude grow. -/
theorem foldl2_inv (f : ℚ) (hf : 0 < f) (l : List ScaleEntry)
    (hpos : ∀ e ∈ l, ∀ g, e.freq = some g → 0 < g) (st : NearestState)
    (hst : StInv2 f st) :
    StInv2 f (l.foldl (stepNearest f) st) ∧
      ∀ n0, st.cents = some n0 →
        ∃ n, (l.foldl (stepNearest f) st).cents = some n ∧ n.natAbs ≤ n0.natAbs := by
  induction l generalizing st with
  | nil => exact ⟨hst, fun n0 h => ⟨n0, h, le_refl _⟩⟩
  | cons e l ih =>
    rw [List.foldl_cons]
    have hpos' : ∀ e' ∈ l, ∀ g, e'.freq = some g → 0 < g := fun e' he' =>
      hpos e' (List.mem_cons_of_mem _ he')
    rcases e with ⟨en, efr, eo⟩
    cases efr with
    | none => exact ih hpos' st hst
    | some g =>
      have hgpos : 0 < g := hpos _ (List.mem_cons_self _ _) g rfl
      rcases st with ⟨sn, sf, sc, so⟩
      cases sc with
      | none =>
        have hstep : stepNearest f ⟨sn, sf, none, so⟩ ⟨en, some g, eo⟩ =
            ⟨en, g, some (roundCents f g), eo⟩ := rfl
        rw [hstep]
        have hst' : StInv2 f ⟨en, g, some (roundCents f g), eo⟩ := by
          intro n hn
          exact ⟨hgpos, by simpa using hn.symm⟩
        refine ⟨(ih hpos' _ hst').1, ?_⟩
        intro n0 h
        exact absurd h (by simp)
      | some n =>
        by_cases h : maxRatio f g ^ 1200 < (2 : ℚ) ^ n.natAbs
        · have hstep : stepNearest f ⟨sn, sf, some n, so⟩ ⟨en, some g, eo⟩ =
              ⟨en, g, some (roundCents f g), eo⟩ := by simp [stepNearest, h]
          rw [hstep]
          have hst' : StInv2 f ⟨en, g, some (roundCents f g), eo⟩ := by
            intro m hm
            exact ⟨hgpos, by simpa using hm.symm⟩
          obtain ⟨ha, hb⟩ := ih hpos' _ hst'
          refine ⟨ha, ?_⟩
          intro n0 hn0
          obtain rfl : n = n0 := by simpa using hn0
          obtain ⟨m, hm1, hm2⟩ := hb (roundCents f g) rfl
          exact ⟨m, hm1, le_trans hm2 (roundCents_natAbs_le f g hf hgpos _ h)⟩
        · have hstep : stepNearest f ⟨sn, sf, some n, so⟩ ⟨en, some g, eo⟩ =
              ⟨sn, sf, some n, so⟩ := by simp [stepNearest, h]
          rw [hstep]
          exact ih hpos' _ hst

/-- Every valid scanned entry pushes the recorded magnitude below its own
(rounded-up) cents: the final record is within one cent of every
candidate.  This is the second variant's replacement for exact argmin. -/
theorem foldl2_beats (f : ℚ) (hf : 0 < f) (l : List ScaleEntry)
    (hpos : ∀ e ∈ l, ∀ g, e.freq = some g → 0 < g) (st : NearestState)
    (hst : StInv2 f st) :
    ∀ e ∈ l, ∀ g, e.freq = some g →
      ∃ n, (l.foldl (stepNearest f) st).cents = some n ∧
        (2 : ℚ) ^ (2 * (n.natAbs : ℤ) + 1) ≤ 4 * maxRatio f g ^ 2400 := by
  induction l generalizing st with
  | nil => intro e he; exact absurd he (List.not_mem_nil e)
  | cons e' l ih =>
    intro e he g hg
    rw [List.foldl_cons]
    have hpos' : ∀ e'' ∈ l, ∀ g', e''.freq = some g' → 0 < g' := fun e'' he'' =>
      hpos e'' (List.mem_cons_of_mem _ he'')
    rcases List.mem_cons.mp he with rfl | he
    · -- the target entry is the head: bound the state after its own step
      have hgpos : 0 < g := hpos _ (List.mem_cons_self _ _) g hg
      have hRpos := maxRatio_pos hf hgpos
      have hstep : ∃ st', stepNearest f st e = st' ∧ StInv2 f st' ∧
          ∃ n1, st'.cents = some n1 ∧
            (2 : ℚ) ^ (2 * (n1.natAbs : ℤ) + 1) ≤ 4 * maxRatio f g ^ 2400 := by
        rcases e with ⟨en, efr, eo⟩
        cases efr with
        | none => exact absurd hg (by simp)
        | some g' =>
          obtain rfl : g = g' := by simpa using hg.symm
          have hsteal : StInv2 f ⟨en, g, some (roundCents f g), eo⟩ := by
            intro m hm
            exact ⟨hgpos, by simpa using hm.symm⟩
          have hstealbound :
              (2 : ℚ) ^ (2 * (((roundCents f g).natAbs : ℤ)) + 1) ≤
                4 * maxRatio f g ^ 2400 := by
            have hchar := (roundCents_char hf hgpos).1
            have : (2 : ℚ) ^ (2 * (((roundCents f g).natAbs : ℤ)) + 1) =
                4 * (2 : ℚ) ^ (2 * (((roundCents f g).natAbs : ℤ)) - 1) := by
              rw [show (2 * (((roundCents f g).natAbs : ℤ)) + 1) =
                (2 * (((roundCents f g).natAbs : ℤ)) - 1) + 2 by ring,
                zpow_add₀ (two_ne_zero)]
              ring
            rw [this]
            have h4 : (0:ℚ) < 4 := by norm_num
            linarith [mul_le_mul_of_nonneg_left hchar (le_of_lt h4)]
          rcases st with ⟨sn, sf, sc, so⟩
          cases sc with
          | none =>
            exact ⟨_, rfl, hsteal, roundCents f g, rfl, hstealbound⟩
          | some n =>
            by_cases h : maxRatio f g ^ 1200 < (2 : ℚ) ^ n.natAbs
            · refine ⟨_, by simp [stepNearest, h], hsteal,
                roundCents f g, rfl, hstealbound⟩
            · refine ⟨_, by simp [stepNearest, h], hst, n, rfl, ?_⟩
              have hsq := sq_reject (maxRatio f g) (not_lt.mp h)
              have hcast : (2 : ℚ) ^ ((2 * n.natAbs : ℕ) : ℤ) ≤ maxRatio f g ^ 2400 := by
                rw [zpow_natCast]
                exact hsq
              have heq : (2 : ℚ) ^ (2 * (n.natAbs : ℤ) + 1) =
                  2 * (2 : ℚ) ^ ((2 * n.natAbs : ℕ) : ℤ) := by
                rw [show (2 * (n.natAbs : ℤ) + 1) = ((2 * n.natAbs : ℕ) : ℤ) + 1 by
                  push_cast; ring, zpow_add_one₀ (two_ne_zero)]
                ring
              rw [heq]
              nlinarith [pow_pos hRpos 2400]
      obtain ⟨st', hst'eq, hst'inv, n1, hn1, hb1⟩ := hstep
      rw [hst'eq]
      obtain ⟨_, hmono⟩ := foldl2_inv f hf l hpos' st' hst'inv
      obtain ⟨n, hn, hnle⟩ := hmono n1 hn1
      refine ⟨n, hn, le_trans ?_ hb1⟩
      exact (zpow_le_zpow_iff_right₀ (by norm_num : (1:ℚ) < 2)).mpr (by omega)
    · exact ih hpos' (stepNearest f st e') (by
        rcases stepNearest_eq_or f st e' with hc | ⟨g', hg', hc⟩
        · rw [hc]; exact hst
        · rw [hc]
          intro m hm
          have hgpos' : 0 < g' := hpos e' (List.mem_cons_self _ _) g' hg'
          exact ⟨hgpos', by simpa using hm.symm⟩) e he g hg

/-- A recorded `cents` value survives the rest of the scan and, once a
valid entry has been scanned, the record is nonempty. -/
theorem foldl2_isSome_of_valid (f : ℚ) (l : List ScaleEntry) (st : NearestState)
    (hvalid : (∃ e ∈ l, e.freq.isSome) ∨ st.cents.isSome) :
    (l.foldl (stepNearest f) st).cents.isSome := by
  induction l generalizing st with
  | nil =>
    rcases hvalid with ⟨e, he, _⟩ | h
    · exact absurd he (List.not_mem_nil e)
    · exact h
  | cons e l ih =>
    rw [List.foldl_cons]
    rcases hvalid with ⟨e', he', hv⟩ | h
    · rcases List.mem_cons.mp he' with rfl | he'
      · apply ih
        right
        rcases e' with ⟨en, efr, eo⟩
        cases efr with
        | none => exact absurd hv (by simp)
        | some g =>
          rcases st with ⟨sn, sf, sc, so⟩
          cases sc with
          | none => rfl
          | some n =>
            by_cases hc : maxRatio f g ^ 1200 < (2 : ℚ) ^ n.natAbs <;>
              simp [stepNearest, hc]
      · exact ih _ (Or.inl ⟨e', he', hv⟩)
    · apply ih
      right
      rcases stepNearest_eq_or f st e with hcase | ⟨g, _, hcase⟩ <;> rw [hcase]
      · exact h
      · rfl

/-! ## Facts about the frequency table -/

/-- Every name in the note table carries a positive frequency. -/
theorem lookup_note_pos : ∀ name ∈ NOTES,
    ∃ q, NOTE_FREQUENCIES.lookup name = some q ∧ 0 < q := by
  intro name h
  fin_cases h <;> exact ⟨_, rfl, by norm_num⟩

/-- For a valid key, `indexOf` lands in `[0, 12)`. -/
theorem indexOfJS_mem : ∀ key ∈ NOTES,
    0 ≤ indexOfJS NOTES key ∧ indexOfJS NOTES key < 12 := by
  intro key h
  fin_cases h <;> exact ⟨by decide, by decide⟩

/-- A nonnegative index taken `tmod 12` hits the note array. -/
theorem jsGetNote_valid (i : ℤ) (h : 0 ≤ i) :
    ∃ name, jsGetNote NOTES (i.tmod 12) = some name ∧ name ∈ NOTES := by
  have h0 : 0 ≤ i.tmod 12 := Int.tmod_nonneg 12 h
  have h1 : i.tmod 12 < 12 := Int.tmod_lt_of_pos i (by norm_num)
  have h2 : (i.tmod 12).toNat < NOTES.length := by
    have : NOTES.length = 12 := rfl
    omega
  rw [jsGetNote, if_neg (not_lt.mpr h0)]
  refine ⟨NOTES.get ⟨(i.tmod 12).toNat, h2⟩, ?_, List.get_mem _ _ _⟩
  exact List.get?_eq_get h2

/-- For a valid key every scale note is defined and is a note name. -/
theorem getScaleNotes_valid {key : String} (hkey : key ∈ NOTES) (scale : String) :
    ∀ n ∈ getScaleNotes key scale, ∃ name, n = some name ∧ name ∈ NOTES := by
  intro n hn
  rw [getScaleNotes, List.mem_map] at hn
  obtain ⟨s, _, rfl⟩ := hn
  obtain ⟨h0, _⟩ := indexOfJS_mem key hkey
  obtain ⟨name, hname, hmem⟩ := jsGetNote_valid (indexOfJS NOTES key + (s : ℤ))
    (by positivity)
  exact ⟨name, hname, hmem⟩

/-- For a valid key every entry of the unsorted table has a positive,
defined frequency. -/
theorem buildScaleFrequencies_valid {key : String} (hkey : key ∈ NOTES)
    (scale : String) :
    ∀ e ∈ buildScaleFrequencies key scale, ∃ g, e.freq = some g ∧ 0 < g := by
  intro e he
  rw [buildScaleFrequencies, List.mem_flatMap] at he
  obtain ⟨oct, _, he⟩ := he
  rw [List.mem_map] at he
  obtain ⟨n, hn, rfl⟩ := he
  obtain ⟨name, rfl, hmem⟩ := getScaleNotes_valid hkey scale n hn
  obtain ⟨q, hq, hqpos⟩ := lookup_note_pos name hmem
  refine ⟨q * (2 : ℚ) ^ ((oct : ℤ) - 4), ?_, ?_⟩
  · simp [Option.bind, hq]
  · have : (0 : ℚ) < (2 : ℚ) ^ ((oct : ℤ) - 4) := zpow_pos (by norm_num) _
    positivity

/-- For a valid key every entry of the sorted table has a positive,
defined frequency. -/
theorem getScaleFrequencies_valid {key : String} (hkey : key ∈ NOTES)
    (scale : String) :
    ∀ e ∈ getScaleFrequencies key scale, ∃ g, e.freq = some g ∧ 0 < g := by
  intro e he
  have hperm := List.perm_insertionSort entLE (buildScaleFrequencies key scale)
  exact buildScaleFrequencies_valid hkey scale e (hperm.mem_iff.mp he)

/-- The sorted table is sorted entry-wise on defined frequencies. -/
theorem getScaleFrequencies_pairwise (key scale : String) :
    List.Pairwise entFreqLE (getScaleFrequencies key scale) := by
  have hsorted : List.Sorted entLE (getScaleFrequencies key scale) :=
    List.sorted_insertionSort entLE (buildScaleFrequencies key scale)
  refine List.Pairwise.imp_of_mem ?_ hsorted
  intro a b ha hb hle ga hga gb hgb
  have : freqKey a ≤ freqKey b := hle
  rwa [freqKey, freqKey, hga, hgb] at this

/-- The frequencies of the table, as seen through `scaleFreqs`. -/
theorem mem_scaleFreqs_iff {key scale : String} {g : ℚ} :
    g ∈ scaleFreqs key scale ↔
      ∃ e ∈ getScaleFrequencies key scale, e.freq = some g :=
  List.mem_filterMap

/-- A successful `lookup` returns one of the stored values. -/
theorem lookup_mem_values {α β : Type} [BEq α] (l : List (α × β)) (k : α)
    (v : β) (h : l.lookup k = some v) : v ∈ l.map Prod.snd := by
  induction l with
  | nil => exact absurd h (by simp)
  | cons p t ih =>
    cases hk : k == p.1 with
    | true =>
      rw [List.lookup, hk] at h
      exact List.mem_map.mpr ⟨p, List.mem_cons_self _ _, Option.some.inj h⟩
    | false =>
      rw [List.lookup, hk] at h
      exact List.mem_cons_of_mem _ (ih h)

/-- Whatever the scale name, the pattern actually used is nonempty. -/
theorem scale_pattern_ne_nil (scale : String) :
    (SCALE_PATTERNS.lookup scale).getD [0, 1, 2, 3, 4, 5, 6, 7, 8, 9, 10, 11] ≠ [] := by
  rcases hp : SCALE_PATTERNS.lookup scale with _ | p
  · simp
  · have hmem := lookup_mem_values SCALE_PATTERNS scale p hp
    have hall : ∀ q ∈ SCALE_PATTERNS.map Prod.snd, q ≠ [] := by decide
    simpa using hall p hmem

/-- For a valid key the table contains an entry with a defined frequency. -/
theorem getScaleFrequencies_has_valid {key : String} (hkey : key ∈ NOTES)
    (scale : String) :
    ∃ e ∈ getScaleFrequencies key scale, e.freq.isSome := by
  have hnotes : getScaleNotes key scale ≠ [] := by
    rw [getScaleNotes]
    exact fun hcon => scale_pattern_ne_nil scale (List.map_eq_nil_iff.mp hcon)
  obtain ⟨n, hn⟩ := List.exists_mem_of_ne_nil _ hnotes
  have hbuild : ∃ e, e ∈ buildScaleFrequencies key scale := by
    rw [buildScaleFrequencies]
    exact ⟨_, List.mem_flatMap.mpr ⟨1, by decide, List.mem_map.mpr ⟨n, hn, rfl⟩⟩⟩
  obtain ⟨e, he⟩ := hbuild
  have hperm := List.perm_insertionSort entLE (buildScaleFrequencies key scale)
  have he' : e ∈ getScaleFrequencies key scale := hperm.mem_iff.mpr he
  obtain ⟨g, hg, _⟩ := getScaleFrequencies_valid hkey scale e he'
  exact ⟨e, he', by rw [hg]; rfl⟩

/-- `maxRatio f a ^ 2400 < 4 * maxRatio f b ^ 2400` is "within one cent":
`4 = 2 ^ (2·2400/2400)` on the 2400th power is one cent on the ratio. -/
theorem centsAbs_lt_add_one {f a b : ℚ} (hf : 0 < f) (ha : 0 < a) (hb : 0 < b)
    (h : maxRatio f a ^ 2400 < 4 * maxRatio f b ^ 2400) :
    centsAbs f a < centsAbs f b + 1 := by
  have hA : (0 : ℝ) < ((maxRatio f a : ℚ) : ℝ) := by
    exact_mod_cast maxRatio_pos hf ha
  have hB : (0 : ℝ) < ((maxRatio f b : ℚ) : ℝ) := by
    exact_mod_cast maxRatio_pos hf hb
  have h' := (Rat.cast_lt (K := ℝ)).mpr h
  push_cast at h'
  have hApow : (0 : ℝ) < ((maxRatio f a : ℚ) : ℝ) ^ (2400 : ℕ) := pow_pos hA 2400
  have hBpow : (0 : ℝ) < 4 * ((maxRatio f b : ℚ) : ℝ) ^ (2400 : ℕ) := by
    have := pow_pos hB 2400
    linarith
  have hcmp := (Real.logb_lt_logb_iff one_lt_two hApow hBpow).mpr h'
  rw [Real.logb_pow] at hcmp
  have h4 : Real.logb 2 (4 * ((maxRatio f b : ℚ) : ℝ) ^ (2400 : ℕ)) =
      2 + 2400 * Real.logb 2 ((maxRatio f b : ℚ) : ℝ) := by
    rw [Real.logb_mul (by norm_num) (ne_of_gt (pow_pos hB 2400)), Real.logb_pow]
    have h42 : (4 : ℝ) = 2 ^ (2 : ℕ) := by norm_num
    rw [h42, Real.logb_pow, Real.logb_self_eq_one (by norm_num : (1:ℝ) < 2)]
    push_cast
    ring
  rw [h4] at hcmp
  rw [centsAbs_eq hf ha, centsAbs_eq hf hb]
  push_cast at hcmp ⊢
  linarith

/-- The bundled specification of the first variant's quantizer for an
in-guard frequency and a valid key: the returned frequency is an in-scale
frequency; it minimizes the absolute cents deviation exactly; exact ties
go to the lower frequency; the reported `cents` is the true deviation
rounded (within half a cent); and `pitchRatio = freq / f`. -/
theorem findNearestNoteInScale_spec (key scale : String) (hkey : key ∈ NOTES)
    (f : ℚ) (h50 : 50 ≤ f) (h2000 : f ≤ 2000) :
    (findNearestNoteInScale key scale f).freq ∈ scaleFreqs key scale ∧
    (∀ g ∈ scaleFreqs key scale,
      centsAbs f (findNearestNoteInScale key scale f).freq ≤ centsAbs f g) ∧
    (∀ g ∈ scaleFreqs key scale,
      centsAbs f (findNearestNoteInScale key scale f).freq = centsAbs f g →
        (findNearestNoteInScale key scale f).freq ≤ g) ∧
    |((findNearestNoteInScale key scale f).cents : ℝ) -
        cents f (findNearestNoteInScale key scale f).freq| ≤ 1 / 2 ∧
    (findNearestNoteInScale key scale f).pitchRatio =
      (findNearestNoteInScale key scale f).freq / f := by
  have hfpos : 0 < f := by linarith
  have hguard : ¬(f ≤ 0 ∨ f < 50 ∨ f > 2000) := by
    push_neg
    exact ⟨by linarith, h50, h2000⟩
  set l := getScaleFrequencies key scale with hl
  have hvalid := getScaleFrequencies_valid hkey scale
  have hsome : (l.foldl (stepNearest1 f) none).isSome := by
    apply foldl1_isSome_of_valid
    left
    obtain ⟨e, he, hv⟩ := getScaleFrequencies_has_valid hkey scale
    exact ⟨e, he, hv⟩
  obtain ⟨s, hfold⟩ := Option.isSome_iff_exists.mp hsome
  rcases s with ⟨sn, sg, so⟩
  have hres : findNearestNoteInScale key scale f =
      ⟨sn, sg, roundCents f sg, so, sg / f⟩ := by
    rw [findNearestNoteInScale, if_neg hguard, ← hl, hfold]
  -- the chosen frequency is one of the table's
  have hmem : sg ∈ scaleFreqs key scale ∧ 0 < sg := by
    rcases foldl1_cases f l none with hcase | ⟨e, he, g, hg, hcase⟩
    · rw [hfold] at hcase
      exact absurd hcase (by simp)
    · rw [hfold] at hcase
      have : g = sg := congrArg (fun o => (o.getD (none, 0, 0)).2.1) hcase.symm
      subst this
      obtain ⟨g', hg', hpos'⟩ := hvalid e he
      rw [hg] at hg'
      obtain rfl : g = g' := Option.some.inj hg'
      exact ⟨mem_scaleFreqs_iff.mpr ⟨e, he, hg⟩, hpos'⟩
  rw [hres]
  refine ⟨hmem.1, ?_, ?_, ?_, rfl⟩
  · -- exact minimality
    intro g hg
    obtain ⟨e, he, hge⟩ := mem_scaleFreqs_iff.mp hg
    obtain ⟨g', hg', hgpos⟩ := hvalid e he
    rw [hge] at hg'
    obtain rfl : g = g' := Option.some.inj hg'
    obtain ⟨s', hs', hle⟩ := foldl1_beats f l none e he g hge
    rw [hfold] at hs'
    rw [← Option.some.inj hs'] at hle
    exact (centsAbs_le_iff hfpos hmem.2 hgpos).mpr hle
  · -- tie-break to the lower frequency
    intro g hg htie
    obtain ⟨e, he, hge⟩ := mem_scaleFreqs_iff.mp hg
    obtain ⟨g', hg', hgpos⟩ := hvalid e he
    rw [hge] at hg'
    obtain rfl : g = g' := Option.some.inj hg'
    have htie' : maxRatio f sg = maxRatio f g :=
      (centsAbs_eq_iff hfpos hmem.2 hgpos).mp htie
    exact foldl1_tie f l none (getScaleFrequencies_pairwise key scale)
      (fun s0 h => absurd h (by simp)) e he g hge (sn, sg, so) hfold htie'
  · -- the reported cents is the rounded true deviation
    exact roundCents_close_to_cents hfpos hmem.2

/-- The bundled specification of the second variant's quantizer for an
in-guard frequency and a valid key: the returned frequency is an in-scale
frequency; it is within *one cent* of the least absolute deviation (the
scan compares raw cents against the stored rounded value, so exactness can
fail - see the C1 counterexample); the reported `cents` is the rounded
deviation of the note it did choose; and `pitchRatio = freq / f`. -/
theorem findNearestNote_spec (key scale : String) (hkey : key ∈ NOTES)
    (f : ℚ) (h60 : 60 ≤ f) (h1500 : f ≤ 1500) :
    (findNearestNote key scale f).freq ∈ scaleFreqs key scale ∧
    (∀ g ∈ scaleFreqs key scale,
      centsAbs f (findNearestNote key scale f).freq < centsAbs f g + 1) ∧
    |((findNearestNote key scale f).cents : ℝ) -
        cents f (findNearestNote key scale f).freq| ≤ 1 / 2 ∧
    (findNearestNote key scale f).pitchRatio =
      (findNearestNote key scale f).freq / f := by
  have hfpos : 0 < f := by linarith
  have hguard : ¬(f ≤ 0 ∨ f < 60 ∨ f > 1500) := by
    push_neg
    exact ⟨by linarith, h60, h1500⟩
  set l := getScaleFrequencies key scale with hl
  have hvalid := getScaleFrequencies_valid hkey scale
  have hpos : ∀ e ∈ l, ∀ g, e.freq = some g → 0 < g := by
    intro e he g hg
    obtain ⟨g', hg', hp⟩ := hvalid e he
    rw [hg] at hg'
    rwa [← Option.some.inj hg'] at hp
  have hstinit : StInv2 f ⟨none, 0, none, 0⟩ := fun n h => absurd h (by simp)
  have hsome : (l.foldl (stepNearest f) ⟨none, 0, none, 0⟩).cents.isSome := by
    apply foldl2_isSome_of_valid
    left
    exact getScaleFrequencies_has_valid hkey scale
  set st := l.foldl (stepNearest f) ⟨none, 0, none, 0⟩ with hst
  have hres : findNearestNote key scale f =
      ⟨st.note, st.freq, st.cents.getD 0, st.octave, st.freq / f⟩ := by
    rw [findNearestNote, if_neg hguard]
  -- provenance: the final state records an entry and its rounded cents
  have hprov : ∃ e ∈ l, ∃ g, e.freq = some g ∧
      st = ⟨e.note, g, some (roundCents f g), e.octave⟩ := by
    rcases foldl2_cases f l ⟨none, 0, none, 0⟩ with hcase | h
    · rw [hst, hcase] at hsome
      exact absurd hsome (by simp)
    · exact h
  obtain ⟨e, he, g, hge, hstate⟩ := hprov
  have hgpos : 0 < g := hpos e he g hge
  have hfreq : st.freq = g := by rw [hstate]
  have hcents : st.cents = some (roundCents f g) := by rw [hstate]
  rw [hres, hfreq, hcents]
  refine ⟨mem_scaleFreqs_iff.mpr ⟨e, he, hge⟩, ?_, ?_, rfl⟩
  · -- within one cent of every candidate
    intro g' hg'
    obtain ⟨e', he', hge'⟩ := mem_scaleFreqs_iff.mp hg'
    have hg'pos : 0 < g' := hpos e' he' g' hge'
    obtain ⟨n, hn, hb⟩ := foldl2_beats f hfpos l hpos ⟨none, 0, none, 0⟩
      hstinit e' he' g' hge'
    rw [← hst] at hn
    rw [hcents] at hn
    obtain rfl : roundCents f g = n := Option.some.inj hn
    apply centsAbs_lt_add_one hfpos hgpos hg'pos
    exact lt_of_lt_of_le (roundCents_char hfpos hgpos).2 hb
  · exact roundCents_close_to_cents hfpos hgpos

/-! ## Claim C1 -/

/-- C1 (amended): for every frequency in the vocal range [60, 1500] and
every valid key and scale, `findNearestNoteInScale` (first variant)
returns an in-scale frequency that is *exactly* the closest by absolute
cents across octaves 1-7, breaking exact ties toward the lowest frequency,
with `pitchRatio = freq / f` and the reported `cents` equal to the true
deviation `1200*log2 (f/freq)` rounded to the nearest integer (within
half a cent).  `findNearestNote` (second variant) returns an in-scale
frequency and the same ratio/cents contract, but its selection is only
within *one cent* of the minimum: its loop compares each candidate's raw
cents against the previously stored *rounded* value, which can misselect
by a sub-cent margin (see the counterexample). -/
theorem c1_quantizer_nearest_note (key scale : String) (hkey : key ∈ NOTES)
    (f : ℚ) (h60 : 60 ≤ f) (h1500 : f ≤ 1500) :
    ((findNearestNoteInScale key scale f).freq ∈ scaleFreqs key scale ∧
     (∀ g ∈ scaleFreqs key scale,
       centsAbs f (findNearestNoteInScale key scale f).freq ≤ centsAbs f g) ∧
     (∀ g ∈ scaleFreqs key scale,
       centsAbs f (findNearestNoteInScale key scale f).freq = centsAbs f g →
         (findNearestNoteInScale key scale f).freq ≤ g) ∧
     |((findNearestNoteInScale key scale f).cents : ℝ) -
         cents f (findNearestNoteInScale key scale f).freq| ≤ 1 / 2 ∧
     (findNearestNoteInScale key scale f).pitchRatio =
       (findNearestNoteInScale key scale f).freq / f) ∧
    ((findNearestNote key scale f).freq ∈ scaleFreqs key scale ∧
     (∀ g ∈ scaleFreqs key scale,
       centsAbs f (findNearestNote key scale f).freq < centsAbs f g + 1) ∧
     |((findNearestNote key scale f).cents : ℝ) -
         cents f (findNearestNote key scale f).freq| ≤ 1 / 2 ∧
     (findNearestNote key scale f).pitchRatio =
       (findNearestNote key scale f).freq / f) :=
  ⟨findNearestNoteInScale_spec key scale hkey f (by linarith) (by linarith),
   findNearestNote_spec key scale hkey f h60 h1500⟩

/-- The C1 theorem applies at the concrete input 440 Hz, key A, Major. -/
theorem c1_quantizer_nearest_note_witness :
    "A" ∈ NOTES ∧ (60 : ℚ) ≤ 440 ∧ (440 : ℚ) ≤ 1500 ∧
      (findNearestNoteInScale "A" "Major" 440).freq ∈ scaleFreqs "A" "Major" :=
  ⟨by decide, by norm_num, by norm_num,
    (c1_quantizer_nearest_note "A" "Major" (by decide) 440 (by norm_num)
      (by norm_num)).1.1⟩


theorem lookupC : List.lookup "C" NOTE_FREQUENCIES = some 261.63 := rfl

theorem pentC_build : buildScaleFrequencies "C" "Pentatonic" =
  [⟨some "C", some (26163/800 : ℚ), 1⟩,
   ⟨some "D", some (14683/400 : ℚ), 1⟩,
   ⟨some "E", some (32963/800 : ℚ), 1⟩,
   ⟨some "G", some (49 : ℚ), 1⟩,
   ⟨some "A", some (55 : ℚ), 1⟩,
   ⟨some "C", some (26163/400 : ℚ), 2⟩,
   ⟨some "D", some (14683/200 : ℚ), 2⟩,
   ⟨some "E", some (32963/400 : ℚ), 2⟩,
   ⟨some "G", some (98 : ℚ), 2⟩,
   ⟨some "A", some (110 : ℚ), 2⟩,
   ⟨some "C", some (26163/200 : ℚ), 3⟩,
   ⟨some "D", some (14683/100 : ℚ), 3⟩,
   ⟨some "E", some (32963/200 : ℚ), 3⟩,
   ⟨some "G", some (196 : ℚ), 3⟩,
   ⟨some "A", some (220 : ℚ), 3⟩,
   ⟨some "C", some (26163/100 : ℚ), 4⟩,
   ⟨some "D", some (14683/50 : ℚ), 4⟩,
   ⟨some "E", some (32963/100 : ℚ), 4⟩,
   ⟨some "G", some (392 : ℚ), 4⟩,
   ⟨some "A", some (440 : ℚ), 4⟩,
   ⟨some "C", some (26163/50 : ℚ), 5⟩,
   ⟨some "D", some (14683/25 : ℚ), 5⟩,
   ⟨some "E", some (32963/50 : ℚ), 5⟩,
   ⟨some "G", some (784 : ℚ), 5⟩,
   ⟨some "A", some (880 : ℚ), 5⟩,
   ⟨some "C", some (26163/25 : ℚ), 6⟩,
   ⟨some "D", some (29366/25 : ℚ), 6⟩,
   ⟨some "E", some (32963/25 : ℚ), 6⟩,
   ⟨some "G", some (1568 : ℚ), 6⟩,
   ⟨some "A", some (1760 : ℚ), 6⟩,
   ⟨some "C", some (52326/25 : ℚ), 7⟩,
   ⟨some "D", some (58732/25 : ℚ), 7⟩,
   ⟨some "E", some (65926/25 : ℚ), 7⟩,
   ⟨some "G", some (3136 : ℚ), 7⟩,
   ⟨some "A", some (3520 : ℚ), 7⟩] := by
  have hnotes : getScaleNotes "C" "Pentatonic" =
      [some "C", some "D", some "E", some "G", some "A"] := by decide
  have hoct : (List.range 7).map (· + 1) = [1, 2, 3, 4, 5, 6, 7] := by decide
  have hC : List.lookup "C" NOTE_FREQUENCIES = some 261.63 := rfl
  have hD : List.lookup "D" NOTE_FREQUENCIES = some 293.66 := rfl
  have hE : List.lookup "E" NOTE_FREQUENCIES = some 329.63 := rfl
  have hG : List.lookup "G" NOTE_FREQUENCIES = some 392.00 := rfl
  have hA : List.lookup "A" NOTE_FREQUENCIES = some 440.00 := rfl
  rw [buildScaleFrequencies, hnotes, hoct]
  norm_num [List.flatMap_cons, List.flatMap_nil, hC, hD, hE, hG, hA, Option.bind]


theorem pentC_table : getScaleFrequencies "C" "Pentatonic" =
  [⟨some "C", some (26163/800 : ℚ), 1⟩,
   ⟨some "D", some (14683/400 : ℚ), 1⟩,
   ⟨some "E", some (32963/800 : ℚ), 1⟩,
   ⟨some "G", some (49 : ℚ), 1⟩,
   ⟨some "A", some (55 : ℚ), 1⟩,
   ⟨some "C", some (26163/400 : ℚ), 2⟩,
   ⟨some "D", some (14683/200 : ℚ), 2⟩,
   ⟨some "E", some (32963/400 : ℚ), 2⟩,
   ⟨some "G", some (98 : ℚ), 2⟩,
   ⟨some "A", some (110 : ℚ), 2⟩,
   ⟨some "C", some (26163/200 : ℚ), 3⟩,
   ⟨some "D", some (14683/100 : ℚ), 3⟩,
   ⟨some "E", some (32963/200 : ℚ), 3⟩,
   ⟨some "G", some (196 : ℚ), 3⟩,
   ⟨some "A", some (220 : ℚ), 3⟩,
   ⟨some "C", some (26163/100 : ℚ), 4⟩,
   ⟨some "D", some (14683/50 : ℚ), 4⟩,
   ⟨some "E", some (32963/100 : ℚ), 4⟩,
   ⟨some "G", some (392 : ℚ), 4⟩,
   ⟨some "A", some (440 : ℚ), 4⟩,
   ⟨some "C", some (26163/50 : ℚ), 5⟩,
   ⟨some "D", some (14683/25 : ℚ), 5⟩,
   ⟨some "E", some (32963/50 : ℚ), 5⟩,
   ⟨some "G", some (784 : ℚ), 5⟩,
   ⟨some "A", some (880 : ℚ), 5⟩,
   ⟨some "C", some (26163/25 : ℚ), 6⟩,
   ⟨some "D", some (29366/25 : ℚ), 6⟩,
   ⟨some "E", some (32963/25 : ℚ), 6⟩,
   ⟨some "G", some (1568 : ℚ), 6⟩,
   ⟨some "A", some (1760 : ℚ), 6⟩,
   ⟨some "C", some (52326/25 : ℚ), 7⟩,
   ⟨some "D", some (58732/25 : ℚ), 7⟩,
   ⟨some "E", some (65926/25 : ℚ), 7⟩,
   ⟨some "G", some (3136 : ℚ), 7⟩,
   ⟨some "A", some (3520 : ℚ), 7⟩] := by
  rw [getScaleFrequencies, pentC_build]
  apply List.Sorted.insertionSort_eq
  rw [List.Sorted, ← List.chain'_iff_pairwise]
  norm_num [List.chain'_cons, List.chain'_nil, entLE, freqKey]
theorem pentC_rc1 : roundCents (13859/50 : ℚ) (26163/800 : ℚ) = (3700) := by
  have hmax : maxRatio (13859/50 : ℚ) (26163/800 : ℚ) = (221744/26163 : ℚ) := by
    rw [maxRatio]
    norm_num [max_def]
  obtain ⟨_, hle, hlt⟩ := roundCents_eq_of_bounds (f := (13859/50 : ℚ)) (g := (26163/800 : ℚ))
    (by norm_num) (by norm_num) 3700 (by norm_num)
    (by rw [hmax]; norm_num) (by rw [hmax]; norm_num)
  exact hle (by norm_num)

theorem pentC_rc2 : roundCents (13859/50 : ℚ) (14683/400 : ℚ) = (3500) := by
  have hmax : maxRatio (13859/50 : ℚ) (14683/400 : ℚ) = (110872/14683 : ℚ) := by
    rw [maxRatio]
    norm_num [max_def]
  obtain ⟨_, hle, hlt⟩ := roundCents_eq_of_bounds (f := (13859/50 : ℚ)) (g := (14683/400 : ℚ))
    (by norm_num) (by norm_num) 3500 (by norm_num)
    (by rw [hmax]; norm_num) (by rw [hmax]; norm_num)
  exact hle (by norm_num)

theorem pentC_rc3 : roundCents (13859/50 : ℚ) (32963/800 : ℚ) = (3300) := by
  have hmax : maxRatio (13859/50 : ℚ) (32963/800 : ℚ) = (221744/32963 : ℚ) := by
    rw [maxRatio]
    norm_num [max_def]
  obtain ⟨_, hle, hlt⟩ := roundCents_eq_of_bounds (f := (13859/50 : ℚ)) (g := (32963/800 : ℚ))
    (by norm_num) (by norm_num) 3300 (by norm_num)
    (by rw [hmax]; norm_num) (by rw [hmax]; norm_num)
  exact hle (by norm_num)

theorem pentC_rc4 : roundCents (13859/50 : ℚ) (49 : ℚ) = (3000) := by
  have hmax : maxRatio (13859/50 : ℚ) (49 : ℚ) = (13859/2450 : ℚ) := by
    rw [maxRatio]
    norm_num [max_def]
  obtain ⟨_, hle, hlt⟩ := roundCents_eq_of_bounds (f := (13859/50 : ℚ)) (g := (49 : ℚ))
    (by norm_num) (by norm_num) 3000 (by norm_num)
    (by rw [hmax]; norm_num) (by rw [hmax]; norm_num)
  exact hle (by norm_num)

theorem pentC_rc5 : roundCents (13859/50 : ℚ) (55 : ℚ) = (2800) := by
  have hmax : maxRatio (13859/50 : ℚ) (55 : ℚ) = (13859/2750 : ℚ) := by
    rw [maxRatio]
    norm_num [max_def]
  obtain ⟨_, hle, hlt⟩ := roundCents_eq_of_bounds (f := (13859/50 : ℚ)) (g := (55 : ℚ))
    (by norm_num) (by norm_num) 2800 (by norm_num)
    (by rw [hmax]; norm_num) (by rw [hmax]; norm_num)
  exact hle (by norm_num)

theorem pentC_rc6 : roundCents (13859/50 : ℚ) (26163/400 : ℚ) = (2500) := by
  have hmax : maxRatio (13859/50 : ℚ) (26163/400 : ℚ) = (110872/26163 : ℚ) := by
    rw [maxRatio]
    norm_num [max_def]
  obtain ⟨_, hle, hlt⟩ := roundCents_eq_of_bounds (f := (13859/50 : ℚ)) (g := (26163/400 : ℚ))
    (by norm_num) (by norm_num) 2500 (by norm_num)
    (by rw [hmax]; norm_num) (by rw [hmax]; norm_num)
  exact hle (by norm_num)

theorem pentC_rc7 : roundCents (13859/50 : ℚ) (14683/200 : ℚ) = (2300) := by
  have hmax : maxRatio (13859/50 : ℚ) (14683/200 : ℚ) = (55436/14683 : ℚ) := by
    rw [maxRatio]
    norm_num [max_def]
  obtain ⟨_, hle, hlt⟩ := roundCents_eq_of_bounds (f := (13859/50 : ℚ)) (g := (14683/200 : ℚ))
    (by norm_num) (by norm_num) 2300 (by norm_num)
    (by rw [hmax]; norm_num) (by rw [hmax]; norm_num)
  exact hle (by norm_num)

theorem pentC_rc8 : roundCents (13859/50 : ℚ) (32963/400 : ℚ) = (2100) := by
  have hmax : maxRatio (13859/50 : ℚ) (32963/400 : ℚ) = (110872/32963 : ℚ) := by
    rw [maxRatio]
    norm_num [max_def]
  obtain ⟨_, hle, hlt⟩ := roundCents_eq_of_bounds (f := (13859/50 : ℚ)) (g := (32963/400 : ℚ))
    (by norm_num) (by norm_num) 2100 (by norm_num)
    (by rw [hmax]; norm_num) (by rw [hmax]; norm_num)
  exact hle (by norm_num)

theorem pentC_rc9 : roundCents (13859/50 : ℚ) (98 : ℚ) = (1800) := by
  have hmax : maxRatio (13859/50 : ℚ) (98 : ℚ) = (13859/4900 : ℚ) := by
    rw [maxRatio]
    norm_num [max_def]
  obtain ⟨_, hle, hlt⟩ := roundCents_eq_of_bounds (f := (13859/50 : ℚ)) (g := (98 : ℚ))
    (by norm_num) (by norm_num) 1800 (by norm_num)
    (by rw [hmax]; norm_num) (by rw [hmax]; norm_num)
  exact hle (by norm_num)

theorem pentC_rc10 : roundCents (13859/50 : ℚ) (110 : ℚ) = (1600) := by
  have hmax : maxRatio (13859/50 : ℚ) (110 : ℚ) = (13859/5500 : ℚ) := by
    rw [maxRatio]
    norm_num [max_def]
  obtain ⟨_, hle, hlt⟩ := roundCents_eq_of_bounds (f := (13859/50 : ℚ)) (g := (110 : ℚ))
    (by norm_num) (by norm_num) 1600 (by norm_num)
    (by rw [hmax]; norm_num) (by rw [hmax]; norm_num)
  exact hle (by norm_num)

theorem pentC_rc11 : roundCents (13859/50 : ℚ) (26163/200 : ℚ) = (1300) := by
  have hmax : maxRatio (13859/50 : ℚ) (26163/200 : ℚ) = (55436/26163 : ℚ) := by
    rw [maxRatio]
    norm_num [max_def]
  obtain ⟨_, hle, hlt⟩ := roundCents_eq_of_bounds (f := (13859/50 : ℚ)) (g := (26163/200 : ℚ))
    (by norm_num) (by norm_num) 1300 (by norm_num)
    (by rw [hmax]; norm_num) (by rw [hmax]; norm_num)
  exact hle (by norm_num)

theorem pentC_rc12 : roundCents (13859/50 : ℚ) (14683/100 : ℚ) = (1100) := by
  have hmax : maxRatio (13859/50 : ℚ) (14683/100 : ℚ) = (27718/14683 : ℚ) := by
    rw [maxRatio]
    norm_num [max_def]
  obtain ⟨_, hle, hlt⟩ := roundCents_eq_of_bounds (f := (13859/50 : ℚ)) (g := (14683/100 : ℚ))
    (by norm_num) (by norm_num) 1100 (by norm_num)
    (by rw [hmax]; norm_num) (by rw [hmax]; norm_num)
  exact hle (by norm_num)

theorem pentC_rc13 : roundCents (13859/50 : ℚ) (32963/200 : ℚ) = (900) := by
  have hmax : maxRatio (13859/50 : ℚ) (32963/200 : ℚ) = (55436/32963 : ℚ) := by
    rw [maxRatio]
    norm_num [max_def]
  obtain ⟨_, hle, hlt⟩ := roundCents_eq_of_bounds (f := (13859/50 : ℚ)) (g := (32963/200 : ℚ))
    (by norm_num) (by norm_num) 900 (by norm_num)
    (by rw [hmax]; norm_num) (by rw [hmax]; norm_num)
  exact hle (by norm_num)

theorem pentC_rc14 : roundCents (13859/50 : ℚ) (196 : ℚ) = (600) := by
  have hmax : maxRatio (13859/50 : ℚ) (196 : ℚ) = (13859/9800 : ℚ) := by
    rw [maxRatio]
    norm_num [max_def]
  obtain ⟨_, hle, hlt⟩ := roundCents_eq_of_bounds (f := (13859/50 : ℚ)) (g := (196 : ℚ))
    (by norm_num) (by norm_num) 600 (by norm_num)
    (by rw [hmax]; norm_num) (by rw [hmax]; norm_num)
  exact hle (by norm_num)

theorem pentC_rc15 : roundCents (13859/50 : ℚ) (220 : ℚ) = (400) := by
  have hmax : maxRatio (13859/50 : ℚ) (220 : ℚ) = (13859/11000 : ℚ) := by
    rw [maxRatio]
    norm_num [max_def]
  obtain ⟨_, hle, hlt⟩ := roundCents_eq_of_bounds (f := (13859/50 : ℚ)) (g := (220 : ℚ))
    (by norm_num) (by norm_num) 400 (by norm_num)
    (by rw [hmax]; norm_num) (by rw [hmax]; norm_num)
  exact hle (by norm_num)

theorem pentC_rc16 : roundCents (13859/50 : ℚ) (26163/100 : ℚ) = (100) := by
  have hmax : maxRatio (13859/50 : ℚ) (26163/100 : ℚ) = (27718/26163 : ℚ) := by
    rw [maxRatio]
    norm_num [max_def]
  obtain ⟨_, hle, hlt⟩ := roundCents_eq_of_bounds (f := (13859/50 : ℚ)) (g := (26163/100 : ℚ))
    (by norm_num) (by norm_num) 100 (by norm_num)
    (by rw [hmax]; norm_num) (by rw [hmax]; norm_num)
  exact hle (by norm_num)

theorem pentC_rc17 : roundCents (13859/50 : ℚ) (14683/50 : ℚ) = (-100) := by
  have hmax : maxRatio (13859/50 : ℚ) (14683/50 : ℚ) = (14683/13859 : ℚ) := by
    rw [maxRatio]
    norm_num [max_def]
  obtain ⟨_, hle, hlt⟩ := roundCents_eq_of_bounds (f := (13859/50 : ℚ)) (g := (14683/50 : ℚ))
    (by norm_num) (by norm_num) 100 (by norm_num)
    (by rw [hmax]; norm_num) (by rw [hmax]; norm_num)
  exact hlt (by norm_num)

theorem pentC_s1 : stepNearest (13859/50 : ℚ) (⟨none, 0, none, 0⟩ : NearestState) (⟨some "C", some (26163/800 : ℚ), 1⟩ : ScaleEntry) = (⟨some "C", (26163/800 : ℚ), some (3700), 1⟩ : NearestState) := by
  rw [show stepNearest (13859/50 : ℚ) (⟨none, 0, none, 0⟩ : NearestState) (⟨some "C", some (26163/800 : ℚ), 1⟩ : ScaleEntry)
      = ⟨some "C", (26163/800 : ℚ), some (roundCents (13859/50 : ℚ) (26163/800 : ℚ)), 1⟩ from rfl,
    pentC_rc1]

theorem pentC_s2 : stepNearest (13859/50 : ℚ) (⟨some "C", (26163/800 : ℚ), some (3700), 1⟩ : NearestState) (⟨some "D", some (14683/400 : ℚ), 1⟩ : ScaleEntry) = (⟨some "D", (14683/400 : ℚ), some (3500), 1⟩ : NearestState) := by
  have hmax : maxRatio (13859/50 : ℚ) (14683/400 : ℚ) = (110872/14683 : ℚ) := by
    rw [maxRatio]
    norm_num [max_def]
  have hc : maxRatio (13859/50 : ℚ) (14683/400 : ℚ) ^ 1200 < (2 : ℚ) ^ ((3700 : ℤ)).natAbs := by
    rw [hmax]
    norm_num
  rw [show stepNearest (13859/50 : ℚ) (⟨some "C", (26163/800 : ℚ), some (3700), 1⟩ : NearestState) (⟨some "D", some (14683/400 : ℚ), 1⟩ : ScaleEntry)
      = if maxRatio (13859/50 : ℚ) (14683/400 : ℚ) ^ 1200 < (2 : ℚ) ^ ((3700 : ℤ)).natAbs then (⟨some "D", (14683/400 : ℚ), some (roundCents (13859/50 : ℚ) (14683/400 : ℚ)), 1⟩ : NearestState) else (⟨some "C", (26163/800 : ℚ), some (3700), 1⟩ : NearestState) from rfl,
    if_pos hc, pentC_rc2]

theorem pentC_s3 : stepNearest (13859/50 : ℚ) (⟨some "D", (14683/400 : ℚ), some (3500), 1⟩ : NearestState) (⟨some "E", some (32963/800 : ℚ), 1⟩ : ScaleEntry) = (⟨some "E", (32963/800 : ℚ), some (3300), 1⟩ : NearestState) := by
  have hmax : maxRatio (13859/50 : ℚ) (32963/800 : ℚ) = (221744/32963 : ℚ) := by
    rw [maxRatio]
    norm_num [max_def]
  have hc : maxRatio (13859/50 : ℚ) (32963/800 : ℚ) ^ 1200 < (2 : ℚ) ^ ((3500 : ℤ)).natAbs := by
    rw [hmax]
    norm_num
  rw [show stepNearest (13859/50 : ℚ) (⟨some "D", (14683/400 : ℚ), some (3500), 1⟩ : NearestState) (⟨some "E", some (32963/800 : ℚ), 1⟩ : ScaleEntry)
      = if maxRatio (13859/50 : ℚ) (32963/800 : ℚ) ^ 1200 < (2 : ℚ) ^ ((3500 : ℤ)).natAbs then (⟨some "E", (32963/800 : ℚ), some (roundCents (13859/50 : ℚ) (32963/800 : ℚ)), 1⟩ : NearestState) else (⟨some "D", (14683/400 : ℚ), some (3500), 1⟩ : NearestState) from rfl,
    if_pos hc, pentC_rc3]

theorem pentC_s4 : stepNearest (13859/50 : ℚ) (⟨some "E", (32963/800 : ℚ), some (3300), 1⟩ : NearestState) (⟨some "G", some (49 : ℚ), 1⟩ : ScaleEntry) = (⟨some "G", (49 : ℚ), some (3000), 1⟩ : NearestState) := by
  have hmax : maxRatio (13859/50 : ℚ) (49 : ℚ) = (13859/2450 : ℚ) := by
    rw [maxRatio]
    norm_num [max_def]
  have hc : maxRatio (13859/50 : ℚ) (49 : ℚ) ^ 1200 < (2 : ℚ) ^ ((3300 : ℤ)).natAbs := by
    rw [hmax]
    norm_num
  rw [show stepNearest (13859/50 : ℚ) (⟨some "E", (32963/800 : ℚ), some (3300), 1⟩ : NearestState) (⟨some "G", some (49 : ℚ), 1⟩ : ScaleEntry)
      = if maxRatio (13859/50 : ℚ) (49 : ℚ) ^ 1200 < (2 : ℚ) ^ ((3300 : ℤ)).natAbs then (⟨some "G", (49 : ℚ), some (roundCents (13859/50 : ℚ) (49 : ℚ)), 1⟩ : NearestState) else (⟨some "E", (32963/800 : ℚ), some (3300), 1⟩ : NearestState) from rfl,
    if_pos hc, pentC_rc4]

theorem pentC_s5 : stepNearest (13859/50 : ℚ) (⟨some "G", (49 : ℚ), some (3000), 1⟩ : NearestState) (⟨some "A", some (55 : ℚ), 1⟩ : ScaleEntry) = (⟨some "A", (55 : ℚ), some (2800), 1⟩ : NearestState) := by
  have hmax : maxRatio (13859/50 : ℚ) (55 : ℚ) = (13859/2750 : ℚ) := by
    rw [maxRatio]
    norm_num [max_def]
  have hc : maxRatio (13859/50 : ℚ) (55 : ℚ) ^ 1200 < (2 : ℚ) ^ ((3000 : ℤ)).natAbs := by
    rw [hmax]
    norm_num
  rw [show stepNearest (13859/50 : ℚ) (⟨some "G", (49 : ℚ), some (3000), 1⟩ : NearestState) (⟨some "A", some (55 : ℚ), 1⟩ : ScaleEntry)
      = if maxRatio (13859/50 : ℚ) (55 : ℚ) ^ 1200 < (2 : ℚ) ^ ((3000 : ℤ)).natAbs then (⟨some "A", (55 : ℚ), some (roundCents (13859/50 : ℚ) (55 : ℚ)), 1⟩ : NearestState) else (⟨some "G", (49 : ℚ), some (3000), 1⟩ : NearestState) from rfl,
    if_pos hc, pentC_rc5]

theorem pentC_s6 : stepNearest (13859/50 : ℚ) (⟨some "A", (55 : ℚ), some (2800), 1⟩ : NearestState) (⟨some "C", some (26163/400 : ℚ), 2⟩ : ScaleEntry) = (⟨some "C", (26163/400 : ℚ), some (2500), 2⟩ : NearestState) := by
  have hmax : maxRatio (13859/50 : ℚ) (26163/400 : ℚ) = (110872/26163 : ℚ) := by
    rw [maxRatio]
    norm_num [max_def]
  have hc : maxRatio (13859/50 : ℚ) (26163/400 : ℚ) ^ 1200 < (2 : ℚ) ^ ((2800 : ℤ)).natAbs := by
    rw [hmax]
    norm_num
  rw [show stepNearest (13859/50 : ℚ) (⟨some "A", (55 : ℚ), some (2800), 1⟩ : NearestState) (⟨some "C", some (26163/400 : ℚ), 2⟩ : ScaleEntry)
      = if maxRatio (13859/50 : ℚ) (26163/400 : ℚ) ^ 1200 < (2 : ℚ) ^ ((2800 : ℤ)).natAbs then (⟨some "C", (26163/400 : ℚ), some (roundCents (13859/50 : ℚ) (26163/400 : ℚ)), 2⟩ : NearestState) else (⟨some "A", (55 : ℚ), some (2800), 1⟩ : NearestState) from rfl,
    if_pos hc, pentC_rc6]

theorem pentC_s7 : stepNearest (13859/50 : ℚ) (⟨some "C", (26163/400 : ℚ), some (2500), 2⟩ : NearestState) (⟨some "D", some (14683/200 : ℚ), 2⟩ : ScaleEntry) = (⟨some "D", (14683/200 : ℚ), some (2300), 2⟩ : NearestState) := by
  have hmax : maxRatio (13859/50 : ℚ) (14683/200 : ℚ) = (55436/14683 : ℚ) := by
    rw [maxRatio]
    norm_num [max_def]
  have hc : maxRatio (13859/50 : ℚ) (14683/200 : ℚ) ^ 1200 < (2 : ℚ) ^ ((2500 : ℤ)).natAbs := by
    rw [hmax]
    norm_num
  rw [show stepNearest (13859/50 : ℚ) (⟨some "C", (26163/400 : ℚ), some (2500), 2⟩ : NearestState) (⟨some "D", some (14683/200 : ℚ), 2⟩ : ScaleEntry)
      = if maxRatio (13859/50 : ℚ) (14683/200 : ℚ) ^ 1200 < (2 : ℚ) ^ ((2500 : ℤ)).natAbs then (⟨some "D", (14683/200 : ℚ), some (roundCents (13859/50 : ℚ) (14683/200 : ℚ)), 2⟩ : NearestState) else (⟨some "C", (26163/400 : ℚ), some (2500), 2⟩ : NearestState) from rfl,
    if_pos hc, pentC_rc7]

theorem pentC_s8 : stepNearest (13859/50 : ℚ) (⟨some "D", (14683/200 : ℚ), some (2300), 2⟩ : NearestState) (⟨some "E", some (32963/400 : ℚ), 2⟩ : ScaleEntry) = (⟨some "E", (32963/400 : ℚ), some (2100), 2⟩ : NearestState) := by
  have hmax : maxRatio (13859/50 : ℚ) (32963/400 : ℚ) = (110872/32963 : ℚ) := by
    rw [maxRatio]
    norm_num [max_def]
  have hc : maxRatio (13859/50 : ℚ) (32963/400 : ℚ) ^ 1200 < (2 : ℚ) ^ ((2300 : ℤ)).natAbs := by
    rw [hmax]
    norm_num
  rw [show stepNearest (13859/50 : ℚ) (⟨some "D", (14683/200 : ℚ), some (2300), 2⟩ : NearestState) (⟨some "E", some (32963/400 : ℚ), 2⟩ : ScaleEntry)
      = if maxRatio (13859/50 : ℚ) (32963/400 : ℚ) ^ 1200 < (2 : ℚ) ^ ((2300 : ℤ)).natAbs then (⟨some "E", (32963/400 : ℚ), some (roundCents (13859/50 : ℚ) (32963/400 : ℚ)), 2⟩ : NearestState) else (⟨some "D", (14683/200 : ℚ), some (2300), 2⟩ : NearestState) from rfl,
    if_pos hc, pentC_rc8]

theorem pentC_s9 : stepNearest (13859/50 : ℚ) (⟨some "E", (32963/400 : ℚ), some (2100), 2⟩ : NearestState) (⟨some "G", some (98 : ℚ), 2⟩ : ScaleEntry) = (⟨some "G", (98 : ℚ), some (1800), 2⟩ : NearestState) := by
  have hmax : maxRatio (13859/50 : ℚ) (98 : ℚ) = (13859/4900 : ℚ) := by
    rw [maxRatio]
    norm_num [max_def]
  have hc : maxRatio (13859/50 : ℚ) (98 : ℚ) ^ 1200 < (2 : ℚ) ^ ((2100 : ℤ)).natAbs := by
    rw [hmax]
    norm_num
  rw [show stepNearest (13859/50 : ℚ) (⟨some "E", (32963/400 : ℚ), some (2100), 2⟩ : NearestState) (⟨some "G", some (98 : ℚ), 2⟩ : ScaleEntry)
      = if maxRatio (13859/50 : ℚ) (98 : ℚ) ^ 1200 < (2 : ℚ) ^ ((2100 : ℤ)).natAbs then (⟨some "G", (98 : ℚ), some (roundCents (13859/50 : ℚ) (98 : ℚ)), 2⟩ : NearestState) else (⟨some "E", (32963/400 : ℚ), some (2100), 2⟩ : NearestState) from rfl,
    if_pos hc, pentC_rc9]

theorem pentC_s10 : stepNearest (13859/50 : ℚ) (⟨some "G", (98 : ℚ), some (1800), 2⟩ : NearestState) (⟨some "A", some (110 : ℚ), 2⟩ : ScaleEntry) = (⟨some "A", (110 : ℚ), some (1600), 2⟩ : NearestState) := by
  have hmax : maxRatio (13859/50 : ℚ) (110 : ℚ) = (13859/5500 : ℚ) := by
    rw [maxRatio]
    norm_num [max_def]
  have hc : maxRatio (13859/50 : ℚ) (110 : ℚ) ^ 1200 < (2 : ℚ) ^ ((1800 : ℤ)).natAbs := by
    rw [hmax]
    norm_num
  rw [show stepNearest (13859/50 : ℚ) (⟨some "G", (98 : ℚ), some (1800), 2⟩ : NearestState) (⟨some "A", some (110 : ℚ), 2⟩ : ScaleEntry)
      = if maxRatio (13859/50 : ℚ) (110 : ℚ) ^ 1200 < (2 : ℚ) ^ ((1800 : ℤ)).natAbs then (⟨some "A", (110 : ℚ), some (roundCents (13859/50 : ℚ) (110 : ℚ)), 2⟩ : NearestState) else (⟨some "G", (98 : ℚ), some (1800), 2⟩ : NearestState) from rfl,
    if_pos hc, pentC_rc10]

theorem pentC_s11 : stepNearest (13859/50 : ℚ) (⟨some "A", (110 : ℚ), some (1600), 2⟩ : NearestState) (⟨some "C", some (26163/200 : ℚ), 3⟩ : ScaleEntry) = (⟨some "C", (26163/200 : ℚ), some (1300), 3⟩ : NearestState) := by
  have hmax : maxRatio (13859/50 : ℚ) (26163/200 : ℚ) = (55436/26163 : ℚ) := by
    rw [maxRatio]
    norm_num [max_def]
  have hc : maxRatio (13859/50 : ℚ) (26163/200 : ℚ) ^ 1200 < (2 : ℚ) ^ ((1600 : ℤ)).natAbs := by
    rw [hmax]
    norm_num
  rw [show stepNearest (13859/50 : ℚ) (⟨some "A", (110 : ℚ), some (1600), 2⟩ : NearestState) (⟨some "C", some (26163/200 : ℚ), 3⟩ : ScaleEntry)
      = if maxRatio (13859/50 : ℚ) (26163/200 : ℚ) ^ 1200 < (2 : ℚ) ^ ((1600 : ℤ)).natAbs then (⟨some "C", (26163/200 : ℚ), some (roundCents (13859/50 : ℚ) (26163/200 : ℚ)), 3⟩ : NearestState) else (⟨some "A", (110 : ℚ), some (1600), 2⟩ : NearestState) from rfl,
    if_pos hc, pentC_rc11]

theorem pentC_s12 : stepNearest (13859/50 : ℚ) (⟨some "C", (26163/200 : ℚ), some (1300), 3⟩ : NearestState) (⟨some "D", some (14683/100 : ℚ), 3⟩ : ScaleEntry) = (⟨some "D", (14683/100 : ℚ), some (1100), 3⟩ : NearestState) := by
  have hmax : maxRatio (13859/50 : ℚ) (14683/100 : ℚ) = (27718/14683 : ℚ) := by
    rw [maxRatio]
    norm_num [max_def]
  have hc : maxRatio (13859/50 : ℚ) (14683/100 : ℚ) ^ 1200 < (2 : ℚ) ^ ((1300 : ℤ)).natAbs := by
    rw [hmax]
    norm_num
  rw [show stepNearest (13859/50 : ℚ) (⟨some "C", (26163/200 : ℚ), some (1300), 3⟩ : NearestState) (⟨some "D", some (14683/100 : ℚ), 3⟩ : ScaleEntry)
      = if maxRatio (13859/50 : ℚ) (14683/100 : ℚ) ^ 1200 < (2 : ℚ) ^ ((1300 : ℤ)).natAbs then (⟨some "D", (14683/100 : ℚ), some (roundCents (13859/50 : ℚ) (14683/100 : ℚ)), 3⟩ : NearestState) else (⟨some "C", (26163/200 : ℚ), some (1300), 3⟩ : NearestState) from rfl,
    if_pos hc, pentC_rc12]

theorem pentC_s13 : stepNearest (13859/50 : ℚ) (⟨some "D", (14683/100 : ℚ), some (1100), 3⟩ : NearestState) (⟨some "E", some (32963/200 : ℚ), 3⟩ : ScaleEntry) = (⟨some "E", (32963/200 : ℚ), some (900), 3⟩ : NearestState) := by
  have hmax : maxRatio (13859/50 : ℚ) (32963/200 : ℚ) = (55436/32963 : ℚ) := by
    rw [maxRatio]
    norm_num [max_def]
  have hc : maxRatio (13859/50 : ℚ) (32963/200 : ℚ) ^ 1200 < (2 : ℚ) ^ ((1100 : ℤ)).natAbs := by
    rw [hmax]
    norm_num
  rw [show stepNearest (13859/50 : ℚ) (⟨some "D", (14683/100 : ℚ), some (1100), 3⟩ : NearestState) (⟨some "E", some (32963/200 : ℚ), 3⟩ : ScaleEntry)
      = if maxRatio (13859/50 : ℚ) (32963/200 : ℚ) ^ 1200 < (2 : ℚ) ^ ((1100 : ℤ)).natAbs then (⟨some "E", (32963/200 : ℚ), some (roundCents (13859/50 : ℚ) (32963/200 : ℚ)), 3⟩ : NearestState) else (⟨some "D", (14683/100 : ℚ), some (1100), 3⟩ : NearestState) from rfl,
    if_pos hc, pentC_rc13]

theorem pentC_s14 : stepNearest (13859/50 : ℚ) (⟨some "E", (32963/200 : ℚ), some (900), 3⟩ : NearestState) (⟨some "G", some (196 : ℚ), 3⟩ : ScaleEntry) = (⟨some "G", (196 : ℚ), some (600), 3⟩ : NearestState) := by
  have hmax : maxRatio (13859/50 : ℚ) (196 : ℚ) = (13859/9800 : ℚ) := by
    rw [maxRatio]
    norm_num [max_def]
  have hc : maxRatio (13859/50 : ℚ) (196 : ℚ) ^ 1200 < (2 : ℚ) ^ ((900 : ℤ)).natAbs := by
    rw [hmax]
    norm_num
  rw [show stepNearest (13859/50 : ℚ) (⟨some "E", (32963/200 : ℚ), some (900), 3⟩ : NearestState) (⟨some "G", some (196 : ℚ), 3⟩ : ScaleEntry)
      = if maxRatio (13859/50 : ℚ) (196 : ℚ) ^ 1200 < (2 : ℚ) ^ ((900 : ℤ)).natAbs then (⟨some "G", (196 : ℚ), some (roundCents (13859/50 : ℚ) (196 : ℚ)), 3⟩ : NearestState) else (⟨some "E", (32963/200 : ℚ), some (900), 3⟩ : NearestState) from rfl,
    if_pos hc, pentC_rc14]

theorem pentC_s15 : stepNearest (13859/50 : ℚ) (⟨some "G", (196 : ℚ), some (600), 3⟩ : NearestState) (⟨some "A", some (220 : ℚ), 3⟩ : ScaleEntry) = (⟨some "A", (220 : ℚ), some (400), 3⟩ : NearestState) := by
  have hmax : maxRatio (13859/50 : ℚ) (220 : ℚ) = (13859/11000 : ℚ) := by
    rw [maxRatio]
    norm_num [max_def]
  have hc : maxRatio (13859/50 : ℚ) (220 : ℚ) ^ 1200 < (2 : ℚ) ^ ((600 : ℤ)).natAbs := by
    rw [hmax]
    norm_num
  rw [show stepNearest (13859/50 : ℚ) (⟨some "G", (196 : ℚ), some (600), 3⟩ : NearestState) (⟨some "A", some (220 : ℚ), 3⟩ : ScaleEntry)
      = if maxRatio (13859/50 : ℚ) (220 : ℚ) ^ 1200 < (2 : ℚ) ^ ((600 : ℤ)).natAbs then (⟨some "A", (220 : ℚ), some (roundCents (13859/50 : ℚ) (220 : ℚ)), 3⟩ : NearestState) else (⟨some "G", (196 : ℚ), some (600), 3⟩ : NearestState) from rfl,
    if_pos hc, pentC_rc15]

theorem pentC_s16 : stepNearest (13859/50 : ℚ) (⟨some "A", (220 : ℚ), some (400), 3⟩ : NearestState) (⟨some "C", some (26163/100 : ℚ), 4⟩ : ScaleEntry) = (⟨some "C", (26163/100 : ℚ), some (100), 4⟩ : NearestState) := by
  have hmax : maxRatio (13859/50 : ℚ) (26163/100 : ℚ) = (27718/26163 : ℚ) := by
    rw [maxRatio]
    norm_num [max_def]
  have hc : maxRatio (13859/50 : ℚ) (26163/100 : ℚ) ^ 1200 < (2 : ℚ) ^ ((400 : ℤ)).natAbs := by
    rw [hmax]
    norm_num
  rw [show stepNearest (13859/50 : ℚ) (⟨some "A", (220 : ℚ), some (400), 3⟩ : NearestState) (⟨some "C", some (26163/100 : ℚ), 4⟩ : ScaleEntry)
      = if maxRatio (13859/50 : ℚ) (26163/100 : ℚ) ^ 1200 < (2 : ℚ) ^ ((400 : ℤ)).natAbs then (⟨some "C", (26163/100 : ℚ), some (roundCents (13859/50 : ℚ) (26163/100 : ℚ)), 4⟩ : NearestState) else (⟨some "A", (220 : ℚ), some (400), 3⟩ : NearestState) from rfl,
    if_pos hc, pentC_rc16]

theorem pentC_s17 : stepNearest (13859/50 : ℚ) (⟨some "C", (26163/100 : ℚ), some (100), 4⟩ : NearestState) (⟨some "D", some (14683/50 : ℚ), 4⟩ : ScaleEntry) = (⟨some "D", (14683/50 : ℚ), some (-100), 4⟩ : NearestState) := by
  have hmax : maxRatio (13859/50 : ℚ) (14683/50 : ℚ) = (14683/13859 : ℚ) := by
    rw [maxRatio]
    norm_num [max_def]
  have hc : maxRatio (13859/50 : ℚ) (14683/50 : ℚ) ^ 1200 < (2 : ℚ) ^ ((100 : ℤ)).natAbs := by
    rw [hmax]
    norm_num
  rw [show stepNearest (13859/50 : ℚ) (⟨some "C", (26163/100 : ℚ), some (100), 4⟩ : NearestState) (⟨some "D", some (14683/50 : ℚ), 4⟩ : ScaleEntry)
      = if maxRatio (13859/50 : ℚ) (14683/50 : ℚ) ^ 1200 < (2 : ℚ) ^ ((100 : ℤ)).natAbs then (⟨some "D", (14683/50 : ℚ), some (roundCents (13859/50 : ℚ) (14683/50 : ℚ)), 4⟩ : NearestState) else (⟨some "C", (26163/100 : ℚ), some (100), 4⟩ : NearestState) from rfl,
    if_pos hc, pentC_rc17]

theorem pentC_s18 : stepNearest (13859/50 : ℚ) (⟨some "D", (14683/50 : ℚ), some (-100), 4⟩ : NearestState) (⟨some "E", some (32963/100 : ℚ), 4⟩ : ScaleEntry) = (⟨some "D", (14683/50 : ℚ), some (-100), 4⟩ : NearestState) := by
  have hmax : maxRatio (13859/50 : ℚ) (32963/100 : ℚ) = (32963/27718 : ℚ) := by
    rw [maxRatio]
    norm_num [max_def]
  have hc : ¬(maxRatio (13859/50 : ℚ) (32963/100 : ℚ) ^ 1200 < (2 : ℚ) ^ ((-100 : ℤ)).natAbs) := by
    rw [hmax]
    norm_num
  rw [show stepNearest (13859/50 : ℚ) (⟨some "D", (14683/50 : ℚ), some (-100), 4⟩ : NearestState) (⟨some "E", some (32963/100 : ℚ), 4⟩ : ScaleEntry)
      = if maxRatio (13859/50 : ℚ) (32963/100 : ℚ) ^ 1200 < (2 : ℚ) ^ ((-100 : ℤ)).natAbs then (⟨some "E", (32963/100 : ℚ), some (roundCents (13859/50 : ℚ) (32963/100 : ℚ)), 4⟩ : NearestState) else (⟨some "D", (14683/50 : ℚ), some (-100), 4⟩ : NearestState) from rfl,
    if_neg hc]

theorem pentC_s19 : stepNearest (13859/50 : ℚ) (⟨some "D", (14683/50 : ℚ), some (-100), 4⟩ : NearestState) (⟨some "G", some (392 : ℚ), 4⟩ : ScaleEntry) = (⟨some "D", (14683/50 : ℚ), some (-100), 4⟩ : NearestState) := by
  have hmax : maxRatio (13859/50 : ℚ) (392 : ℚ) = (19600/13859 : ℚ) := by
    rw [maxRatio]
    norm_num [max_def]
  have hc : ¬(maxRatio (13859/50 : ℚ) (392 : ℚ) ^ 1200 < (2 : ℚ) ^ ((-100 : ℤ)).natAbs) := by
    rw [hmax]
    norm_num
  rw [show stepNearest (13859/50 : ℚ) (⟨some "D", (14683/50 : ℚ), some (-100), 4⟩ : NearestState) (⟨some "G", some (392 : ℚ), 4⟩ : ScaleEntry)
      = if maxRatio (13859/50 : ℚ) (392 : ℚ) ^ 1200 < (2 : ℚ) ^ ((-100 : ℤ)).natAbs then (⟨some "G", (392 : ℚ), some (roundCents (13859/50 : ℚ) (392 : ℚ)), 4⟩ : NearestState) else (⟨some "D", (14683/50 : ℚ), some (-100), 4⟩ : NearestState) from rfl,
    if_neg hc]

theorem pentC_s20 : stepNearest (13859/50 : ℚ) (⟨some "D", (14683/50 : ℚ), some (-100), 4⟩ : NearestState) (⟨some "A", some (440 : ℚ), 4⟩ : ScaleEntry) = (⟨some "D", (14683/50 : ℚ), some (-100), 4⟩ : NearestState) := by
  have hmax : maxRatio (13859/50 : ℚ) (440 : ℚ) = (22000/13859 : ℚ) := by
    rw [maxRatio]
    norm_num [max_def]
  have hc : ¬(maxRatio (13859/50 : ℚ) (440 : ℚ) ^ 1200 < (2 : ℚ) ^ ((-100 : ℤ)).natAbs) := by
    rw [hmax]
    norm_num
  rw [show stepNearest (13859/50 : ℚ) (⟨some "D", (14683/50 : ℚ), some (-100), 4⟩ : NearestState) (⟨some "A", some (440 : ℚ), 4⟩ : ScaleEntry)
      = if maxRatio (13859/50 : ℚ) (440 : ℚ) ^ 1200 < (2 : ℚ) ^ ((-100 : ℤ)).natAbs then (⟨some "A", (440 : ℚ), some (roundCents (13859/50 : ℚ) (440 : ℚ)), 4⟩ : NearestState) else (⟨some "D", (14683/50 : ℚ), some (-100), 4⟩ : NearestState) from rfl,
    if_neg hc]

theorem pentC_s21 : stepNearest (13859/50 : ℚ) (⟨some "D", (14683/50 : ℚ), some (-100), 4⟩ : NearestState) (⟨some "C", some (26163/50 : ℚ), 5⟩ : ScaleEntry) = (⟨some "D", (14683/50 : ℚ), some (-100), 4⟩ : NearestState) := by
  have hmax : maxRatio (13859/50 : ℚ) (26163/50 : ℚ) = (26163/13859 : ℚ) := by
    rw [maxRatio]
    norm_num [max_def]
  have hc : ¬(maxRatio (13859/50 : ℚ) (26163/50 : ℚ) ^ 1200 < (2 : ℚ) ^ ((-100 : ℤ)).natAbs) := by
    rw [hmax]
    norm_num
  rw [show stepNearest (13859/50 : ℚ) (⟨some "D", (14683/50 : ℚ), some (-100), 4⟩ : NearestState) (⟨some "C", some (26163/50 : ℚ), 5⟩ : ScaleEntry)
      = if maxRatio (13859/50 : ℚ) (26163/50 : ℚ) ^ 1200 < (2 : ℚ) ^ ((-100 : ℤ)).natAbs then (⟨some "C", (26163/50 : ℚ), some (roundCents (13859/50 : ℚ) (26163/50 : ℚ)), 5⟩ : NearestState) else (⟨some "D", (14683/50 : ℚ), some (-100), 4⟩ : NearestState) from rfl,
    if_neg hc]

theorem pentC_s22 : stepNearest (13859/50 : ℚ) (⟨some "D", (14683/50 : ℚ), some (-100), 4⟩ : NearestState) (⟨some "D", some (14683/25 : ℚ), 5⟩ : ScaleEntry) = (⟨some "D", (14683/50 : ℚ), some (-100), 4⟩ : NearestState) := by
  have hmax : maxRatio (13859/50 : ℚ) (14683/25 : ℚ) = (29366/13859 : ℚ) := by
    rw [maxRatio]
    norm_num [max_def]
  have hc : ¬(maxRatio (13859/50 : ℚ) (14683/25 : ℚ) ^ 1200 < (2 : ℚ) ^ ((-100 : ℤ)).natAbs) := by
    rw [hmax]
    norm_num
  rw [show stepNearest (13859/50 : ℚ) (⟨some "D", (14683/50 : ℚ), some (-100), 4⟩ : NearestState) (⟨some "D", some (14683/25 : ℚ), 5⟩ : ScaleEntry)
      = if maxRatio (13859/50 : ℚ) (14683/25 : ℚ) ^ 1200 < (2 : ℚ) ^ ((-100 : ℤ)).natAbs then (⟨some "D", (14683/25 : ℚ), some (roundCents (13859/50 : ℚ) (14683/25 : ℚ)), 5⟩ : NearestState) else (⟨some "D", (14683/50 : ℚ), some (-100), 4⟩ : NearestState) from rfl,
    if_neg hc]

theorem pentC_s23 : stepNearest (13859/50 : ℚ) (⟨some "D", (14683/50 : ℚ), some (-100), 4⟩ : NearestState) (⟨some "E", some (32963/50 : ℚ), 5⟩ : ScaleEntry) = (⟨some "D", (14683/50 : ℚ), some (-100), 4⟩ : NearestState) := by
  have hmax : maxRatio (13859/50 : ℚ) (32963/50 : ℚ) = (32963/13859 : ℚ) := by
    rw [maxRatio]
    norm_num [max_def]
  have hc : ¬(maxRatio (13859/50 : ℚ) (32963/50 : ℚ) ^ 1200 < (2 : ℚ) ^ ((-100 : ℤ)).natAbs) := by
    rw [hmax]
    norm_num
  rw [show stepNearest (13859/50 : ℚ) (⟨some "D", (14683/50 : ℚ), some (-100), 4⟩ : NearestState) (⟨some "E", some (32963/50 : ℚ), 5⟩ : ScaleEntry)
      = if maxRatio (13859/50 : ℚ) (32963/50 : ℚ) ^ 1200 < (2 : ℚ) ^ ((-100 : ℤ)).natAbs then (⟨some "E", (32963/50 : ℚ), some (roundCents (13859/50 : ℚ) (32963/50 : ℚ)), 5⟩ : NearestState) else (⟨some "D", (14683/50 : ℚ), some (-100), 4⟩ : NearestState) from rfl,
    if_neg hc]

theorem pentC_s24 : stepNearest (13859/50 : ℚ) (⟨some "D", (14683/50 : ℚ), some (-100), 4⟩ : NearestState) (⟨some "G", some (784 : ℚ), 5⟩ : ScaleEntry) = (⟨some "D", (14683/50 : ℚ), some (-100), 4⟩ : NearestState) := by
  have hmax : maxRatio (13859/50 : ℚ) (784 : ℚ) = (39200/13859 : ℚ) := by
    rw [maxRatio]
    norm_num [max_def]
  have hc : ¬(maxRatio (13859/50 : ℚ) (784 : ℚ) ^ 1200 < (2 : ℚ) ^ ((-100 : ℤ)).natAbs) := by
    rw [hmax]
    norm_num
  rw [show stepNearest (13859/50 : ℚ) (⟨some "D", (14683/50 : ℚ), some (-100), 4⟩ : NearestState) (⟨some "G", some (784 : ℚ), 5⟩ : ScaleEntry)
      = if maxRatio (13859/50 : ℚ) (784 : ℚ) ^ 1200 < (2 : ℚ) ^ ((-100 : ℤ)).natAbs then (⟨some "G", (784 : ℚ), some (roundCents (13859/50 : ℚ) (784 : ℚ)), 5⟩ : NearestState) else (⟨some "D", (14683/50 : ℚ), some (-100), 4⟩ : NearestState) from rfl,
    if_neg hc]

theorem pentC_s25 : stepNearest (13859/50 : ℚ) (⟨some "D", (14683/50 : ℚ), some (-100), 4⟩ : NearestState) (⟨some "A", some (880 : ℚ), 5⟩ : ScaleEntry) = (⟨some "D", (14683/50 : ℚ), some (-100), 4⟩ : NearestState) := by
  have hmax : maxRatio (13859/50 : ℚ) (880 : ℚ) = (44000/13859 : ℚ) := by
    rw [maxRatio]
    norm_num [max_def]
  have hc : ¬(maxRatio (13859/50 : ℚ) (880 : ℚ) ^ 1200 < (2 : ℚ) ^ ((-100 : ℤ)).natAbs) := by
    rw [hmax]
    norm_num
  rw [show stepNearest (13859/50 : ℚ) (⟨some "D", (14683/50 : ℚ), some (-100), 4⟩ : NearestState) (⟨some "A", some (880 : ℚ), 5⟩ : ScaleEntry)
      = if maxRatio (13859/50 : ℚ) (880 : ℚ) ^ 1200 < (2 : ℚ) ^ ((-100 : ℤ)).natAbs then (⟨some "A", (880 : ℚ), some (roundCents (13859/50 : ℚ) (880 : ℚ)), 5⟩ : NearestState) else (⟨some "D", (14683/50 : ℚ), some (-100), 4⟩ : NearestState) from rfl,
    if_neg hc]

theorem pentC_s26 : stepNearest (13859/50 : ℚ) (⟨some "D", (14683/50 : ℚ), some (-100), 4⟩ : NearestState) (⟨some "C", some (26163/25 : ℚ), 6⟩ : ScaleEntry) = (⟨some "D", (14683/50 : ℚ), some (-100), 4⟩ : NearestState) := by
  have hmax : maxRatio (13859/50 : ℚ) (26163/25 : ℚ) = (52326/13859 : ℚ) := by
    rw [maxRatio]
    norm_num [max_def]
  have hc : ¬(maxRatio (13859/50 : ℚ) (26163/25 : ℚ) ^ 1200 < (2 : ℚ) ^ ((-100 : ℤ)).natAbs) := by
    rw [hmax]
    norm_num
  rw [show stepNearest (13859/50 : ℚ) (⟨some "D", (14683/50 : ℚ), some (-100), 4⟩ : NearestState) (⟨some "C", some (26163/25 : ℚ), 6⟩ : ScaleEntry)
      = if maxRatio (13859/50 : ℚ) (26163/25 : ℚ) ^ 1200 < (2 : ℚ) ^ ((-100 : ℤ)).natAbs then (⟨some "C", (26163/25 : ℚ), some (roundCents (13859/50 : ℚ) (26163/25 : ℚ)), 6⟩ : NearestState) else (⟨some "D", (14683/50 : ℚ), some (-100), 4⟩ : NearestState) from rfl,
    if_neg hc]

theorem pentC_s27 : stepNearest (13859/50 : ℚ) (⟨some "D", (14683/50 : ℚ), some (-100), 4⟩ : NearestState) (⟨some "D", some (29366/25 : ℚ), 6⟩ : ScaleEntry) = (⟨some "D", (14683/50 : ℚ), some (-100), 4⟩ : NearestState) := by
  have hmax : maxRatio (13859/50 : ℚ) (29366/25 : ℚ) = (58732/13859 : ℚ) := by
    rw [maxRatio]
    norm_num [max_def]
  have hc : ¬(maxRatio (13859/50 : ℚ) (29366/25 : ℚ) ^ 1200 < (2 : ℚ) ^ ((-100 : ℤ)).natAbs) := by
    rw [hmax]
    norm_num
  rw [show stepNearest (13859/50 : ℚ) (⟨some "D", (14683/50 : ℚ), some (-100), 4⟩ : NearestState) (⟨some "D", some (29366/25 : ℚ), 6⟩ : ScaleEntry)
      = if maxRatio (13859/50 : ℚ) (29366/25 : ℚ) ^ 1200 < (2 : ℚ) ^ ((-100 : ℤ)).natAbs then (⟨some "D", (29366/25 : ℚ), some (roundCents (13859/50 : ℚ) (29366/25 : ℚ)), 6⟩ : NearestState) else (⟨some "D", (14683/50 : ℚ), some (-100), 4⟩ : NearestState) from rfl,
    if_neg hc]

theorem pentC_s28 : stepNearest (13859/50 : ℚ) (⟨some "D", (14683/50 : ℚ), some (-100), 4⟩ : NearestState) (⟨some "E", some (32963/25 : ℚ), 6⟩ : ScaleEntry) = (⟨some "D", (14683/50 : ℚ), some (-100), 4⟩ : NearestState) := by
  have hmax : maxRatio (13859/50 : ℚ) (32963/25 : ℚ) = (65926/13859 : ℚ) := by
    rw [maxRatio]
    norm_num [max_def]
  have hc : ¬(maxRatio (13859/50 : ℚ) (32963/25 : ℚ) ^ 1200 < (2 : ℚ) ^ ((-100 : ℤ)).natAbs) := by
    rw [hmax]
    norm_num
  rw [show stepNearest (13859/50 : ℚ) (⟨some "D", (14683/50 : ℚ), some (-100), 4⟩ : NearestState) (⟨some "E", some (32963/25 : ℚ), 6⟩ : ScaleEntry)
      = if maxRatio (13859/50 : ℚ) (32963/25 : ℚ) ^ 1200 < (2 : ℚ) ^ ((-100 : ℤ)).natAbs then (⟨some "E", (32963/25 : ℚ), some (roundCents (13859/50 : ℚ) (32963/25 : ℚ)), 6⟩ : NearestState) else (⟨some "D", (14683/50 : ℚ), some (-100), 4⟩ : NearestState) from rfl,
    if_neg hc]

theorem pentC_s29 : stepNearest (13859/50 : ℚ) (⟨some "D", (14683/50 : ℚ), some (-100), 4⟩ : NearestState) (⟨some "G", some (1568 : ℚ), 6⟩ : ScaleEntry) = (⟨some "D", (14683/50 : ℚ), some (-100), 4⟩ : NearestState) := by
  have hmax : maxRatio (13859/50 : ℚ) (1568 : ℚ) = (78400/13859 : ℚ) := by
    rw [maxRatio]
    norm_num [max_def]
  have hc : ¬(maxRatio (13859/50 : ℚ) (1568 : ℚ) ^ 1200 < (2 : ℚ) ^ ((-100 : ℤ)).natAbs) := by
    rw [hmax]
    norm_num
  rw [show stepNearest (13859/50 : ℚ) (⟨some "D", (14683/50 : ℚ), some (-100), 4⟩ : NearestState) (⟨some "G", some (1568 : ℚ), 6⟩ : ScaleEntry)
      = if maxRatio (13859/50 : ℚ) (1568 : ℚ) ^ 1200 < (2 : ℚ) ^ ((-100 : ℤ)).natAbs then (⟨some "G", (1568 : ℚ), some (roundCents (13859/50 : ℚ) (1568 : ℚ)), 6⟩ : NearestState) else (⟨some "D", (14683/50 : ℚ), some (-100), 4⟩ : NearestState) from rfl,
    if_neg hc]

theorem pentC_s30 : stepNearest (13859/50 : ℚ) (⟨some "D", (14683/50 : ℚ), some (-100), 4⟩ : NearestState) (⟨some "A", some (1760 : ℚ), 6⟩ : ScaleEntry) = (⟨some "D", (14683/50 : ℚ), some (-100), 4⟩ : NearestState) := by
  have hmax : maxRatio (13859/50 : ℚ) (1760 : ℚ) = (88000/13859 : ℚ) := by
    rw [maxRatio]
    norm_num [max_def]
  have hc : ¬(maxRatio (13859/50 : ℚ) (1760 : ℚ) ^ 1200 < (2 : ℚ) ^ ((-100 : ℤ)).natAbs) := by
    rw [hmax]
    norm_num
  rw [show stepNearest (13859/50 : ℚ) (⟨some "D", (14683/50 : ℚ), some (-100), 4⟩ : NearestState) (⟨some "A", some (1760 : ℚ), 6⟩ : ScaleEntry)
      = if maxRatio (13859/50 : ℚ) (1760 : ℚ) ^ 1200 < (2 : ℚ) ^ ((-100 : ℤ)).natAbs then (⟨some "A", (1760 : ℚ), some (roundCents (13859/50 : ℚ) (1760 : ℚ)), 6⟩ : NearestState) else (⟨some "D", (14683/50 : ℚ), some (-100), 4⟩ : NearestState) from rfl,
    if_neg hc]

theorem pentC_s31 : stepNearest (13859/50 : ℚ) (⟨some "D", (14683/50 : ℚ), some (-100), 4⟩ : NearestState) (⟨some "C", some (52326/25 : ℚ), 7⟩ : ScaleEntry) = (⟨some "D", (14683/50 : ℚ), some (-100), 4⟩ : NearestState) := by
  have hmax : maxRatio (13859/50 : ℚ) (52326/25 : ℚ) = (104652/13859 : ℚ) := by
    rw [maxRatio]
    norm_num [max_def]
  have hc : ¬(maxRatio (13859/50 : ℚ) (52326/25 : ℚ) ^ 1200 < (2 : ℚ) ^ ((-100 : ℤ)).natAbs) := by
    rw [hmax]
    norm_num
  rw [show stepNearest (13859/50 : ℚ) (⟨some "D", (14683/50 : ℚ), some (-100), 4⟩ : NearestState) (⟨some "C", some (52326/25 : ℚ), 7⟩ : ScaleEntry)
      = if maxRatio (13859/50 : ℚ) (52326/25 : ℚ) ^ 1200 < (2 : ℚ) ^ ((-100 : ℤ)).natAbs then (⟨some "C", (52326/25 : ℚ), some (roundCents (13859/50 : ℚ) (52326/25 : ℚ)), 7⟩ : NearestState) else (⟨some "D", (14683/50 : ℚ), some (-100), 4⟩ : NearestState) from rfl,
    if_neg hc]

theorem pentC_s32 : stepNearest (13859/50 : ℚ) (⟨some "D", (14683/50 : ℚ), some (-100), 4⟩ : NearestState) (⟨some "D", some (58732/25 : ℚ), 7⟩ : ScaleEntry) = (⟨some "D", (14683/50 : ℚ), some (-100), 4⟩ : NearestState) := by
  have hmax : maxRatio (13859/50 : ℚ) (58732/25 : ℚ) = (117464/13859 : ℚ) := by
    rw [maxRatio]
    norm_num [max_def]
  have hc : ¬(maxRatio (13859/50 : ℚ) (58732/25 : ℚ) ^ 1200 < (2 : ℚ) ^ ((-100 : ℤ)).natAbs) := by
    rw [hmax]
    norm_num
  rw [show stepNearest (13859/50 : ℚ) (⟨some "D", (14683/50 : ℚ), some (-100), 4⟩ : NearestState) (⟨some "D", some (58732/25 : ℚ), 7⟩ : ScaleEntry)
      = if maxRatio (13859/50 : ℚ) (58732/25 : ℚ) ^ 1200 < (2 : ℚ) ^ ((-100 : ℤ)).natAbs then (⟨some "D", (58732/25 : ℚ), some (roundCents (13859/50 : ℚ) (58732/25 : ℚ)), 7⟩ : NearestState) else (⟨some "D", (14683/50 : ℚ), some (-100), 4⟩ : NearestState) from rfl,
    if_neg hc]

theorem pentC_s33 : stepNearest (13859/50 : ℚ) (⟨some "D", (14683/50 : ℚ), some (-100), 4⟩ : NearestState) (⟨some "E", some (65926/25 : ℚ), 7⟩ : ScaleEntry) = (⟨some "D", (14683/50 : ℚ), some (-100), 4⟩ : NearestState) := by
  have hmax : maxRatio (13859/50 : ℚ) (65926/25 : ℚ) = (131852/13859 : ℚ) := by
    rw [maxRatio]
    norm_num [max_def]
  have hc : ¬(maxRatio (13859/50 : ℚ) (65926/25 : ℚ) ^ 1200 < (2 : ℚ) ^ ((-100 : ℤ)).natAbs) := by
    rw [hmax]
    norm_num
  rw [show stepNearest (13859/50 : ℚ) (⟨some "D", (14683/50 : ℚ), some (-100), 4⟩ : NearestState) (⟨some "E", some (65926/25 : ℚ), 7⟩ : ScaleEntry)
      = if maxRatio (13859/50 : ℚ) (65926/25 : ℚ) ^ 1200 < (2 : ℚ) ^ ((-100 : ℤ)).natAbs then (⟨some "E", (65926/25 : ℚ), some (roundCents (13859/50 : ℚ) (65926/25 : ℚ)), 7⟩ : NearestState) else (⟨some "D", (14683/50 : ℚ), some (-100), 4⟩ : NearestState) from rfl,
    if_neg hc]

theorem pentC_s34 : stepNearest (13859/50 : ℚ) (⟨some "D", (14683/50 : ℚ), some (-100), 4⟩ : NearestState) (⟨some "G", some (3136 : ℚ), 7⟩ : ScaleEntry) = (⟨some "D", (14683/50 : ℚ), some (-100), 4⟩ : NearestState) := by
  have hmax : maxRatio (13859/50 : ℚ) (3136 : ℚ) = (156800/13859 : ℚ) := by
    rw [maxRatio]
    norm_num [max_def]
  have hc : ¬(maxRatio (13859/50 : ℚ) (3136 : ℚ) ^ 1200 < (2 : ℚ) ^ ((-100 : ℤ)).natAbs) := by
    rw [hmax]
    norm_num
  rw [show stepNearest (13859/50 : ℚ) (⟨some "D", (14683/50 : ℚ), some (-100), 4⟩ : NearestState) (⟨some "G", some (3136 : ℚ), 7⟩ : ScaleEntry)
      = if maxRatio (13859/50 : ℚ) (3136 : ℚ) ^ 1200 < (2 : ℚ) ^ ((-100 : ℤ)).natAbs then (⟨some "G", (3136 : ℚ), some (roundCents (13859/50 : ℚ) (3136 : ℚ)), 7⟩ : NearestState) else (⟨some "D", (14683/50 : ℚ), some (-100), 4⟩ : NearestState) from rfl,
    if_neg hc]

theorem pentC_s35 : stepNearest (13859/50 : ℚ) (⟨some "D", (14683/50 : ℚ), some (-100), 4⟩ : NearestState) (⟨some "A", some (3520 : ℚ), 7⟩ : ScaleEntry) = (⟨some "D", (14683/50 : ℚ), some (-100), 4⟩ : NearestState) := by
  have hmax : maxRatio (13859/50 : ℚ) (3520 : ℚ) = (176000/13859 : ℚ) := by
    rw [maxRatio]
    norm_num [max_def]
  have hc : ¬(maxRatio (13859/50 : ℚ) (3520 : ℚ) ^ 1200 < (2 : ℚ) ^ ((-100 : ℤ)).natAbs) := by
    rw [hmax]
    norm_num
  rw [show stepNearest (13859/50 : ℚ) (⟨some "D", (14683/50 : ℚ), some (-100), 4⟩ : NearestState) (⟨some "A", some (3520 : ℚ), 7⟩ : ScaleEntry)
      = if maxRatio (13859/50 : ℚ) (3520 : ℚ) ^ 1200 < (2 : ℚ) ^ ((-100 : ℤ)).natAbs then (⟨some "A", (3520 : ℚ), some (roundCents (13859/50 : ℚ) (3520 : ℚ)), 7⟩ : NearestState) else (⟨some "D", (14683/50 : ℚ), some (-100), 4⟩ : NearestState) from rfl,
    if_neg hc]

theorem pentC_fold :
    ([⟨some "C", some (26163/800 : ℚ), 1⟩,
     ⟨some "D", some (14683/400 : ℚ), 1⟩,
     ⟨some "E", some (32963/800 : ℚ), 1⟩,
     ⟨some "G", some (49 : ℚ), 1⟩,
     ⟨some "A", some (55 : ℚ), 1⟩,
     ⟨some "C", some (26163/400 : ℚ), 2⟩,
     ⟨some "D", some (14683/200 : ℚ), 2⟩,
     ⟨some "E", some (32963/400 : ℚ), 2⟩,
     ⟨some "G", some (98 : ℚ), 2⟩,
     ⟨some "A", some (110 : ℚ), 2⟩,
     ⟨some "C", some (26163/200 : ℚ), 3⟩,
     ⟨some "D", some (14683/100 : ℚ), 3⟩,
     ⟨some "E", some (32963/200 : ℚ), 3⟩,
     ⟨some "G", some (196 : ℚ), 3⟩,
     ⟨some "A", some (220 : ℚ), 3⟩,
     ⟨some "C", some (26163/100 : ℚ), 4⟩,
     ⟨some "D", some (14683/50 : ℚ), 4⟩,
     ⟨some "E", some (32963/100 : ℚ), 4⟩,
     ⟨some "G", some (392 : ℚ), 4⟩,
     ⟨some "A", some (440 : ℚ), 4⟩,
     ⟨some "C", some (26163/50 : ℚ), 5⟩,
     ⟨some "D", some (14683/25 : ℚ), 5⟩,
     ⟨some "E", some (32963/50 : ℚ), 5⟩,
     ⟨some "G", some (784 : ℚ), 5⟩,
     ⟨some "A", some (880 : ℚ), 5⟩,
     ⟨some "C", some (26163/25 : ℚ), 6⟩,
     ⟨some "D", some (29366/25 : ℚ), 6⟩,
     ⟨some "E", some (32963/25 : ℚ), 6⟩,
     ⟨some "G", some (1568 : ℚ), 6⟩,
     ⟨some "A", some (1760 : ℚ), 6⟩,
     ⟨some "C", some (52326/25 : ℚ), 7⟩,
     ⟨some "D", some (58732/25 : ℚ), 7⟩,
     ⟨some "E", some (65926/25 : ℚ), 7⟩,
     ⟨some "G", some (3136 : ℚ), 7⟩,
     ⟨some "A", some (3520 : ℚ), 7⟩] : List ScaleEntry).foldl (stepNearest (13859/50 : ℚ))
      ⟨none, 0, none, 0⟩ = (⟨some "D", (14683/50 : ℚ), some (-100), 4⟩ : NearestState) := by
  simp only [List.foldl_cons, List.foldl_nil, pentC_s1, pentC_s2, pentC_s3, pentC_s4, pentC_s5, pentC_s6, pentC_s7, pentC_s8, pentC_s9, pentC_s10, pentC_s11, pentC_s12, pentC_s13, pentC_s14, pentC_s15, pentC_s16, pentC_s17, pentC_s18, pentC_s19, pentC_s20, pentC_s21, pentC_s22, pentC_s23, pentC_s24, pentC_s25, pentC_s26, pentC_s27, pentC_s28, pentC_s29, pentC_s30, pentC_s31, pentC_s32, pentC_s33, pentC_s34, pentC_s35]

/-- C1 counterexample: at 277.18 Hz in C Pentatonic the second variant's
`findNearestNote` returns D4 (293.66 Hz), even though C4 (261.63 Hz) is in
the scale and strictly closer in cents (99.954 vs 99.988 cents).  The loop
compares the raw cents of each candidate against the *rounded* cents stored
for the current best, so a later note can steal the slot on a rounding
artifact. -/
theorem c1_counterexample :
    (findNearestNote "C" "Pentatonic" (277.18 : ℚ)).freq = 293.66 ∧
    (261.63 : ℚ) ∈ scaleFreqs "C" "Pentatonic" ∧
    centsAbs (277.18 : ℚ) (261.63 : ℚ) <
      centsAbs (277.18 : ℚ) (findNearestNote "C" "Pentatonic" (277.18 : ℚ)).freq := by
  have hq : (277.18 : ℚ) = 13859/50 := by norm_num
  have hfull : findNearestNote "C" "Pentatonic" (13859/50 : ℚ) =
      ⟨some "D", (14683/50 : ℚ), -100, 4, (14683/50 : ℚ) / (13859/50 : ℚ)⟩ := by
    rw [findNearestNote, if_neg (by norm_num), pentC_table, pentC_fold]
    rfl
  have hfreq : (findNearestNote "C" "Pentatonic" (277.18 : ℚ)).freq = 14683/50 := by
    rw [hq, hfull]
  refine ⟨by rw [hfreq]; norm_num, ?_, ?_⟩
  · have : (26163/100 : ℚ) ∈ scaleFreqs "C" "Pentatonic" := by
      rw [scaleFreqs, pentC_table]
      norm_num [List.filterMap_cons]
    convert this using 2
    norm_num
  · rw [hfreq, show (261.63 : ℚ) = 26163/100 by norm_num, hq]
    rw [centsAbs_lt_iff (by norm_num) (by norm_num) (by norm_num)]
    rw [show maxRatio (13859/50 : ℚ) (26163/100 : ℚ) = 27718/26163 by
        rw [maxRatio]; norm_num [max_def],
      show maxRatio (13859/50 : ℚ) (14683/50 : ℚ) = 14683/13859 by
        rw [maxRatio]; norm_num [max_def]]
    norm_num
/-- C2: the range guards.  The second variant's `findNearestNote` rejects
exactly the inputs outside [60, 1500] Hz (or nonpositive) with note "-",
frequency 0, cents 0 and pitch ratio 1; the first variant's
`findNearestNoteInScale` uses the wider guard [50, 2000] Hz, so inputs in
(1500, 2000] or [50, 60) are *not* rejected by it. -/
theorem c2_out_of_range_guard (key scale : String) (f : ℚ) :
    (f ≤ 0 ∨ f < 60 ∨ f > 1500 →
      findNearestNote key scale f = ⟨some "-", 0, 0, 0, 1⟩) ∧
    (f ≤ 0 ∨ f < 50 ∨ f > 2000 →
      findNearestNoteInScale key scale f = ⟨some "-", 0, 0, 0, 1⟩) := by
  constructor
  · intro h
    rw [findNearestNote, if_pos h]
  · intro h
    rw [findNearestNoteInScale, if_pos h]

/-- The C2 theorem applies at the concrete out-of-range input 1501 Hz. -/
theorem c2_out_of_range_guard_witness :
    ((1501 : ℚ) ≤ 0 ∨ (1501 : ℚ) < 60 ∨ (1501 : ℚ) > 1500) ∧
    findNearestNote "C" "Major" 1501 = ⟨some "-", 0, 0, 0, 1⟩ ∧
    findNearestNoteInScale "C" "Major" 2001 = ⟨some "-", 0, 0, 0, 1⟩ :=
  ⟨Or.inr (Or.inr (by norm_num)),
    (c2_out_of_range_guard "C" "Major" 1501).1 (Or.inr (Or.inr (by norm_num))),
    (c2_out_of_range_guard "C" "Major" 2001).2 (Or.inr (Or.inr (by norm_num)))⟩

/-- C2 counterexample: 1600 Hz is above the claimed 1500 Hz cutoff, yet the
first variant's `findNearestNoteInScale` (guard [50, 2000]) does not reject
it: it returns a real in-scale target frequency, not 0. -/
theorem c2_counterexample :
    (1600 : ℚ) > 1500 ∧
    (findNearestNoteInScale "C" "Chromatic" 1600).freq ∈
      scaleFreqs "C" "Chromatic" ∧
    (findNearestNoteInScale "C" "Chromatic" 1600).freq ≠ 0 := by
  have hmem := (findNearestNoteInScale_spec "C" "Chromatic" (by decide) 1600
    (by norm_num) (by norm_num)).1
  refine ⟨by norm_num, hmem, ?_⟩
  obtain ⟨e, he, hg⟩ := mem_scaleFreqs_iff.mp hmem
  obtain ⟨g', hg', hpos⟩ := getScaleFrequencies_valid (by decide) "Chromatic" e he
  rw [hg] at hg'
  rw [Option.some.inj hg']
  exact ne_of_gt hpos

/-- C3: the modern-mode deadband.  In the second variant the threshold is
`8 + 35 * retuneSpeed / 100` cents - increasing in the retune speed, from 8
cents at speed 0 to 43 at speed 100 (not 10 to 50) - and a deviation at or
below it yields target ratio 1, one above it the corrective ratio
`1 + (pitchRatio - 1) * (1 - 0.4 * retuneSpeed / 100)`.  In the first
variant the modern deadband is the constant 15 cents, independent of the
retune speed. -/
theorem c3_modern_deadband (r r' : ℚ) (cents : ℤ) (p : ℚ) :
    (r ≤ r' → modernThreshold2 r ≤ modernThreshold2 r') ∧
    (r < r' → modernThreshold2 r < modernThreshold2 r') ∧
    modernThreshold2 0 = 8 ∧ modernThreshold2 100 = 43 ∧
    (|(cents : ℚ)| ≤ modernThreshold2 r → modernFinal2 r cents p = 1) ∧
    (modernThreshold2 r < |(cents : ℚ)| →
      modernFinal2 r cents p = 1 + (p - 1) * (1 - retuneNorm r * (2/5))) ∧
    (|(cents : ℚ)| ≤ 15 → modernTarget1 cents p = 1) ∧
    (15 < |(cents : ℚ)| → modernTarget1 cents p = p) := by
  refine ⟨?_, ?_, by norm_num [modernThreshold2, retuneNorm],
    by norm_num [modernThreshold2, retuneNorm], ?_, ?_, ?_, ?_⟩
  · intro h
    simp only [modernThreshold2, retuneNorm]
    nlinarith
  · intro h
    simp only [modernThreshold2, retuneNorm]
    nlinarith
  · intro h
    rw [modernFinal2, if_neg (not_lt.mpr h)]
  · intro h
    rw [modernFinal2, if_pos h]
    norm_num
  · intro h
    rw [modernTarget1, if_neg (not_lt.mpr h)]
  · intro h
    rw [modernTarget1, if_pos h]

/-- The C3 theorem applies at retune speeds 20 and 60 and a 10-cent
deviation: the second variant's threshold there is 15 cents, so no
correction is produced. -/
theorem c3_modern_deadband_witness :
    (20 : ℚ) ≤ 60 ∧ |((10 : ℤ) : ℚ)| ≤ modernThreshold2 20 ∧
    modernFinal2 20 10 (3/2) = 1 :=
  ⟨by norm_num, by norm_num [modernThreshold2, retuneNorm],
    (c3_modern_deadband 20 60 10 (3/2)).2.2.2.2.1
      (by norm_num [modernThreshold2, retuneNorm])⟩

/-- C3 counterexample: at full retune speed (100) and a 16-cent deviation,
the second variant's grown deadband (43 cents) suppresses correction, but
the first variant's modern branch still snaps to the raw pitch ratio: its
deadband is the constant 15 cents and does not grow with the retune speed
(and the second variant's threshold starts at 8 cents, not 10). -/
theorem c3_counterexample :
    modernThreshold2 100 = 43 ∧
    modernFinal2 100 16 (3/2) = 1 ∧
    modernTarget1 16 (3/2) = 3/2 ∧
    ((3/2 : ℚ) ≠ 1) ∧
    modernThreshold2 0 = 8 := by
  refine ⟨by norm_num [modernThreshold2, retuneNorm], ?_, ?_,
    by norm_num, by norm_num [modernThreshold2, retuneNorm]⟩
  · rw [modernFinal2, if_neg]
    rw [not_lt]
    norm_num [modernThreshold2, retuneNorm]
  · rw [modernTarget1, if_pos (by norm_num)]

/-- C4: classic-mode strength.  The second variant matches the claim's
formula with strength `1 - 0.1 * retuneSpeed / 100`, between 90% and 100%
and decreasing in the retune speed.  The first variant instead snaps the
*smoothing target* to the raw ratio and applies its strength
`1 - 0.3 * retuneSpeed / 100` (between 70% and 100%) to the *smoothed*
ratio on output. -/
theorem c4_classic_strength (r r' p current rand humanize : ℚ)
    (hr0 : 0 ≤ r) (hr1 : r ≤ 100) :
    classicFinal2 r p = 1 + (p - 1) * classicStrength2 r ∧
    9/10 ≤ classicStrength2 r ∧ classicStrength2 r ≤ 1 ∧
    (r ≤ r' → classicStrength2 r' ≤ classicStrength2 r) ∧
    finalPitchRatio1 .classic r humanize rand current =
      1 + (current - 1) * classicCorrection1 r +
        (rand - 1/2) * (1/50) * (humanize / 100) ∧
    7/10 ≤ classicCorrection1 r ∧ classicCorrection1 r ≤ 1 ∧
    (r ≤ r' → classicCorrection1 r' ≤ classicCorrection1 r) := by
  refine ⟨rfl, ?_, ?_, ?_, ?_, ?_, ?_, ?_⟩
  · simp only [classicStrength2, retuneNorm]
    nlinarith
  · simp only [classicStrength2, retuneNorm]
    nlinarith
  · intro h
    simp only [classicStrength2, retuneNorm]
    nlinarith
  · simp only [finalPitchRatio1, classicCorrection1, retuneNorm]
    norm_num
  · simp only [classicCorrection1, retuneNorm]
    nlinarith
  · simp only [classicCorrection1, retuneNorm]
    nlinarith
  · intro h
    simp only [classicCorrection1, retuneNorm]
    nlinarith

/-- The C4 theorem applies at retune speed 50: the second variant's classic
strength there is 95%. -/
theorem c4_classic_strength_witness :
    (0 : ℚ) ≤ 50 ∧ (50 : ℚ) ≤ 100 ∧ 9/10 ≤ classicStrength2 50 :=
  ⟨by norm_num, by norm_num,
    (c4_classic_strength 50 60 (3/2) 1 (1/2) 0 (by norm_num)
      (by norm_num)).2.1⟩

/-- C4 counterexample: in the first variant's classic mode at retune speed
0, starting from a centred smoother (`current = 1`) with raw ratio 3/2, one
controller step yields the output ratio 27/20 = 1.35 - but the claim's
formula `1 + (rawRatio - 1) * strength` with any strength between 85% and
100% would give a value between 1.425 and 1.5.  The first variant does not
compute `targetRatio = 1 + (rawRatio - 1) * strength`. -/
theorem c4_counterexample :
    currentStep1 .classic 0 false 220 220 0 (3/2) 1 = 27/20 ∧
    finalPitchRatio1 .classic 0 0 (1/2) (27/20) = 27/20 ∧
    ∀ s : ℚ, 17/20 ≤ s → s ≤ 1 → 1 + ((3/2 : ℚ) - 1) * s ≠ 27/20 := by
  refine ⟨?_, ?_, ?_⟩
  · rw [currentStep1, if_pos (by norm_num)]
    norm_num [target1, smooth1, retuneNorm]
  · simp only [finalPitchRatio1, classicCorrection1, retuneNorm]
    norm_num
  · intro s h1 h2 heq
    have hs : s = 7/10 := by linarith
    rw [hs] at h1
    norm_num at h1
/-- C5: bounded smoothing steps.  In both variants the persistent
`currentPitchRatioRef` moves only by the exponential-moving-average step
toward the block's target: in the second variant the per-block change is at
most `(1 - smooth) * |target - current|` plus the humanize jitter, itself
at most `0.5 * 0.004 * humanize/100 <= 1/500`; in the first variant the
change is exactly `(1 - smooth) * |target - current|` (its jitter is
applied to the output, not the state).  Outside the guard the state does
not move at all. -/
theorem c5_smoothing_bounded (mode : CorrectionMode)
    (r humanize : ℚ) (bypassed : Bool) (dp tf : ℚ) (cents : ℤ)
    (p rand current : ℚ)
    (hr0 : 0 ≤ r) (hr1 : r ≤ 100)
    (hrand0 : 0 ≤ rand) (hrand1 : rand ≤ 1)
    (hhum0 : 0 ≤ humanize) (hhum1 : humanize ≤ 100) :
    |currentStep2 mode r humanize bypassed dp tf cents p rand current -
        current| ≤
      (1 - smooth2 mode r) * |finalRatio2 mode r cents p - current| + 1/500 ∧
    |currentStep1 mode r bypassed dp tf cents p current - current| ≤
      (1 - smooth1 mode r) * |target1 mode cents p - current| := by
  have hs2a : 0 ≤ smooth2 mode r := by
    cases mode <;> simp only [smooth2, retuneNorm] <;> nlinarith
  have hs2b : smooth2 mode r ≤ 1 := by
    cases mode <;> simp only [smooth2, retuneNorm] <;> nlinarith
  have hs1a : 0 ≤ smooth1 mode r := by
    cases mode <;> simp only [smooth1, retuneNorm] <;> nlinarith
  have hs1b : smooth1 mode r ≤ 1 := by
    cases mode <;> simp only [smooth1, retuneNorm] <;> nlinarith
  constructor
  · by_cases hg : 0 < dp ∧ 0 < tf ∧ bypassed = false
    · have heq : currentStep2 mode r humanize bypassed dp tf cents p rand
          current - current =
          (finalRatio2 mode r cents p - current) * (1 - smooth2 mode r) +
            (rand - 1/2) * (1/250) * (humanize / 100) := by
        rw [currentStep2, if_pos hg]
        norm_num
        ring
      rw [heq]
      have hj : |(rand - 1/2) * (1/250) * (humanize / 100)| ≤ 1/500 := by
        rw [abs_mul, abs_mul]
        have h1 : |rand - 1/2| ≤ 1/2 := abs_le.mpr ⟨by linarith, by linarith⟩
        have h2 : |(1 : ℚ)/250| = 1/250 := by norm_num
        have h3 : |humanize / 100| ≤ 1 := by
          rw [abs_of_nonneg (by positivity)]
          linarith
        rw [h2]
        nlinarith [abs_nonneg (rand - 1/2), abs_nonneg (humanize / 100)]
      calc |(finalRatio2 mode r cents p - current) * (1 - smooth2 mode r) +
            (rand - 1/2) * (1/250) * (humanize / 100)|
          ≤ |(finalRatio2 mode r cents p - current) * (1 - smooth2 mode r)| +
            |(rand - 1/2) * (1/250) * (humanize / 100)| := abs_add _ _
        _ ≤ (1 - smooth2 mode r) * |finalRatio2 mode r cents p - current| +
            1/500 := by
            rw [abs_mul, abs_of_nonneg (by linarith : (0:ℚ) ≤ 1 - smooth2 mode r)]
            rw [mul_comm]
            linarith
    · have heq : currentStep2 mode r humanize bypassed dp tf cents p rand
          current = current := by
        rw [currentStep2, if_neg hg]
      rw [heq, sub_self, abs_zero]
      have := mul_nonneg (by linarith : (0:ℚ) ≤ 1 - smooth2 mode r)
        (abs_nonneg (finalRatio2 mode r cents p - current))
      linarith
  · by_cases hg : 0 < dp ∧ 0 < tf ∧ bypassed = false
    · have heq : currentStep1 mode r bypassed dp tf cents p current -
          current =
          (target1 mode cents p - current) * (1 - smooth1 mode r) := by
        rw [currentStep1, if_pos hg]
        ring
      rw [heq, abs_mul,
        abs_of_nonneg (by linarith : (0:ℚ) ≤ 1 - smooth1 mode r), mul_comm]
    · have heq : currentStep1 mode r bypassed dp tf cents p current =
          current := by
        rw [currentStep1, if_neg hg]
      rw [heq, sub_self, abs_zero]
      have := mul_nonneg (by linarith : (0:ℚ) ≤ 1 - smooth1 mode r)
        (abs_nonneg (target1 mode cents p - current))
      linarith

/-- The C5 theorem applies in modern mode at retune speed 50, full
humanize, a detected 220 Hz pitch and a centred smoother. -/
theorem c5_smoothing_bounded_witness :
    (0 : ℚ) ≤ 50 ∧ (50 : ℚ) ≤ 100 ∧ (0 : ℚ) ≤ 1 ∧ (1 : ℚ) ≤ 1 ∧
    (0 : ℚ) ≤ 100 ∧ (100 : ℚ) ≤ 100 ∧
    |currentStep1 .modern 50 false 220 220 30 (3/2) 1 - 1| ≤
      (1 - smooth1 .modern 50) * |target1 .modern 30 (3/2) - 1| :=
  ⟨by norm_num, by norm_num, by norm_num, by norm_num, by norm_num,
    by norm_num,
    (c5_smoothing_bounded .modern 50 100 false 220 220 30 (3/2) 1 1
      (by norm_num) (by norm_num) (by norm_num) (by norm_num) (by norm_num)
      (by norm_num)).2⟩

/-- C6: ratio clamping.  The second worklet clamps the incoming ratio to
[0.5, 2.0] in its message handler, and the per-block smoothing keeps the
applied `pitchRatio` inside [0.5, 2.0] whenever it and the (clamped)
target already are - with both starting at 1.  The first worklet's
message handler stores the incoming ratio *unclamped*. -/
theorem c6_ratio_clamped (st : NaturalShifterState) (r : ℝ)
    (st1 : PitchShifterState) (q : ℚ)
    (hp1 : 1/2 ≤ st.pitchRatio) (hp2 : st.pitchRatio ≤ 2)
    (ht1 : 1/2 ≤ st.targetRatio) (ht2 : st.targetRatio ≤ 2) :
    (1/2 ≤ (nsSetPitchRatio st r).targetRatio ∧
      (nsSetPitchRatio st r).targetRatio ≤ 2) ∧
    (nsSetPitchRatio st r).pitchRatio = st.pitchRatio ∧
    (1/2 ≤ (nsSmooth st).pitchRatio ∧ (nsSmooth st).pitchRatio ≤ 2) ∧
    (nsSmooth st).targetRatio = st.targetRatio ∧
    nsInit.pitchRatio = 1 ∧ nsInit.targetRatio = 1 ∧
    (psOnMessage st1 q).pitchRatio = q := by
  refine ⟨⟨?_, ?_⟩, rfl, ⟨?_, ?_⟩, rfl, rfl, rfl, rfl⟩
  · simp only [nsSetPitchRatio]
    calc (1/2 : ℝ) = 0.5 := by norm_num
    _ ≤ max 0.5 (min 2.0 r) := le_max_left _ _
  · simp only [nsSetPitchRatio]
    refine max_le (by norm_num) (le_trans (min_le_left _ _) (by norm_num))
  · simp only [nsSmooth]
    nlinarith
  · simp only [nsSmooth]
    nlinarith

/-- The C6 theorem applies at the initial state of the second worklet and
an incoming ratio of 3: the stored target stays at most 2. -/
theorem c6_ratio_clamped_witness :
    (1/2 : ℝ) ≤ nsInit.pitchRatio ∧ nsInit.pitchRatio ≤ 2 ∧
    (1/2 : ℝ) ≤ nsInit.targetRatio ∧ nsInit.targetRatio ≤ 2 ∧
    (nsSetPitchRatio nsInit 3).targetRatio ≤ 2 :=
  ⟨by norm_num [nsInit], by norm_num [nsInit], by norm_num [nsInit],
    by norm_num [nsInit],
    (c6_ratio_clamped nsInit 3 psInit 1 (by norm_num [nsInit])
      (by norm_num [nsInit]) (by norm_num [nsInit])
      (by norm_num [nsInit])).1.2⟩

/-- C6 counterexample: the first worklet's message handler stores the
ratio 3 as-is - the ratio actually used for resynthesis is not clamped to
[0.5, 2.0] in that variant. -/
theorem c6_counterexample :
    (psOnMessage psInit 3).pitchRatio = 3 ∧
    ¬((psOnMessage psInit 3).pitchRatio ≤ 2) := by
  constructor
  · rfl
  · rw [show (psOnMessage psInit 3).pitchRatio = 3 from rfl]
    norm_num
/-- One identity step of the first worklet: at ratio 1, with the read
phase locked to the write index (below 512), the sample just written is
read back exactly (`frac = 0`), and the lock is preserved. -/
theorem psSample_id (st : PitchShifterState) (x : ℚ)
    (hr : st.pitchRatio = 1) (hph : st.phase = (st.bufferIndex : ℚ))
    (hlt : st.bufferIndex < 512) :
    (psSample st x).2 = x ∧ (psSample st x).1.pitchRatio = 1 ∧
    (psSample st x).1.phase = ((psSample st x).1.bufferIndex : ℚ) ∧
    (psSample st x).1.bufferIndex < 512 := by
  have hfloor : ⌊st.phase⌋ = (st.bufferIndex : ℤ) := by
    rw [hph]
    exact_mod_cast Int.floor_natCast st.bufferIndex
  have hemod : ((st.bufferIndex : ℤ)).emod 512 = (st.bufferIndex : ℤ) :=
    Int.emod_eq_of_lt (by positivity) (by exact_mod_cast hlt)
  have hidx : ((⌊st.phase⌋ : ℤ).emod 512).toNat = st.bufferIndex := by
    rw [hfloor, hemod, Int.toNat_natCast]
  have hfrac : st.phase - (⌊st.phase⌋ : ℚ) = 0 := by
    rw [hph, Int.floor_natCast]
    push_cast
    ring
  refine ⟨?_, ?_, ?_, ?_⟩
  · simp only [psSample]
    rw [hidx, hfrac]
    simp
  · simp only [psSample]
    exact hr
  · simp only [psSample]
    rw [hr, hph]
    by_cases hb : st.bufferIndex + 1 < 512
    · have hcond : ¬((512 : ℚ) ≤ (st.bufferIndex : ℚ) + 1) := by
        rw [not_le]
        exact_mod_cast hb
      rw [if_neg hcond, Nat.mod_eq_of_lt hb]
      push_cast
      ring
    · have hb' : st.bufferIndex + 1 = 512 := by omega
      have hbq : (st.bufferIndex : ℚ) + 1 = 512 := by exact_mod_cast hb'
      rw [if_pos (le_of_eq hbq.symm), hb', hbq]
      norm_num
  · simp only [psSample]
    exact Nat.mod_lt _ (by norm_num)

/-- The first worklet is the identity on every input block while its ratio
is 1 and its read phase is locked to its write index. -/
theorem psProcess_id : ∀ (input : List ℚ) (st : PitchShifterState),
    st.pitchRatio = 1 → st.phase = (st.bufferIndex : ℚ) →
    st.bufferIndex < 512 → (psProcess st input).2 = input := by
  intro input
  induction input with
  | nil => intro st _ _ _; rfl
  | cons x xs ih =>
    intro st hr hph hlt
    obtain ⟨h1, h2, h3, h4⟩ := psSample_id st x hr hph hlt
    simp only [psProcess]
    rw [h1, ih _ h2 h3 h4]

/-- C7: identity at unity ratio.  The first worklet reproduces its input
block exactly whenever its pitch ratio is 1 and its read phase is locked
to its write index - an invariant that holds in its initial state and is
preserved by every sample (so from the start, at ratio 1 the output equals
the input with no error at all). -/
theorem c7_unity_identity (st : PitchShifterState) (input : List ℚ)
    (hr : st.pitchRatio = 1) (hph : st.phase = (st.bufferIndex : ℚ))
    (hlt : st.bufferIndex < 512) :
    (psProcess st input).2 = input ∧
    psInit.pitchRatio = 1 ∧ psInit.phase = (psInit.bufferIndex : ℚ) ∧
    psInit.bufferIndex < 512 :=
  ⟨psProcess_id input st hr hph hlt, rfl, by norm_num [psInit], by norm_num [psInit]⟩

/-- The C7 theorem applies to the initial state on the block `[5, 7]`. -/
theorem c7_unity_identity_witness :
    psInit.pitchRatio = 1 ∧ psInit.phase = (psInit.bufferIndex : ℚ) ∧
    psInit.bufferIndex < 512 ∧
    (psProcess psInit [5, 7]).2 = [5, 7] :=
  ⟨rfl, by norm_num [psInit], by norm_num [psInit],
    (c7_unity_identity psInit [5, 7] rfl (by norm_num [psInit])
      (by norm_num [psInit])).1⟩

/-- The four concrete grain evaluations for the second worklet's very
first sample: the grains sit at phases 0, 1/4, 1/2, 3/4, all reading
position 0 (the just-written sample), with Hann window values 0, 1/2, 1,
1/2. -/
theorem c7_grain0 (buf : ℕ → ℝ) (h0 : buf 0 = 1) :
    nsGrain buf 1 1 ((0, 0), 0, 0) = ((1/2048, 1), 0, 0) := by
  simp only [nsGrain]
  norm_num [h0, nsWindow]

theorem c7_grain1 (buf : ℕ → ℝ) (h0 : buf 0 = 1) :
    nsGrain buf 1 1 ((1/4, 0), 0, 0) = ((513/2048, 1), 1/2, 1/2) := by
  have hw : nsWindow 512 = 1/2 := by
    rw [nsWindow, show 2 * Real.pi * ((512 : ℕ) : ℝ) / 2048 = Real.pi / 2 by
      push_cast; ring, Real.cos_pi_div_two]
    norm_num
  simp only [nsGrain]
  norm_num [h0, hw]
  exact hw

theorem c7_grain2 (buf : ℕ → ℝ) (h0 : buf 0 = 1) :
    nsGrain buf 1 1 ((1/2, 0), 1/2, 1/2) = ((1025/2048, 1), 3/2, 3/2) := by
  have hw : nsWindow 1024 = 1 := by
    rw [nsWindow, show 2 * Real.pi * ((1024 : ℕ) : ℝ) / 2048 = Real.pi by
      push_cast; ring, Real.cos_pi]
    norm_num
  simp only [nsGrain]
  norm_num [h0, hw]
  have hw' : nsWindow (Int.toNat 1024) = 1 := hw
  rw [hw']
  norm_num

theorem c7_grain3 (buf : ℕ → ℝ) (h0 : buf 0 = 1) :
    nsGrain buf 1 1 ((3/4, 0), 3/2, 3/2) = ((1537/2048, 1), 2, 2) := by
  have hw : nsWindow 1536 = 1/2 := by
    rw [nsWindow, show 2 * Real.pi * ((1536 : ℕ) : ℝ) / 2048 =
        2 * Real.pi - Real.pi / 2 by push_cast; ring,
      Real.cos_two_pi_sub, Real.cos_pi_div_two]
    norm_num
  simp only [nsGrain]
  norm_num [h0, hw]
  have hw' : nsWindow (Int.toNat 1536) = 1/2 := hw
  rw [hw']
  norm_num

/-- The second worklet's first output sample from a fresh state on input
1: the four grains sum to weight 2 and value 2, normalizing to 1; the
wet-only mix is then doubled by the output gain and soft-clipped to
`1 - exp (-2)`. -/
theorem c7_sample_eval (st : NaturalShifterState)
    (h1 : st.pitchRatio = 1) (h2 : st.wetMix = 1) (h3 : st.vibratoDepth = 0)
    (h4 : st.inputWritePos = 0) (h5 : ∀ i, st.inputBuffer i = 0)
    (h6 : ∀ i, st.grainReadPos i = 0)
    (h7 : ∀ i, st.grainPhase i = (i : ℝ) / 4)
    (h8 : st.outputGain = 2) :
    (nsSample 48000 st 1).2 = 1 - Real.exp (-2) := by
  have hv0 : (((0 : Fin 4) : ℕ) : ℝ) = 0 := by norm_num
  have hv1 : (((1 : Fin 4) : ℕ) : ℝ) = 1 := by
    rw [show ((1 : Fin 4) : ℕ) = 1 from rfl]
    norm_num
  have hv2 : (((2 : Fin 4) : ℕ) : ℝ) = 2 := by
    rw [show ((2 : Fin 4) : ℕ) = 2 from rfl]
    norm_num
  have hv3 : (((3 : Fin 4) : ℕ) : ℝ) = 3 := by
    rw [show ((3 : Fin 4) : ℕ) = 3 from rfl]
    norm_num
  simp only [nsSample, h1, h2, h3, h4, h5, h6, h7, h8]
  norm_num [hv0, hv1, hv2, hv3, -Prod.mk_zero_zero]
  rw [c7_grain0 _ (by norm_num)]
  norm_num [-Prod.mk_zero_zero]
  rw [c7_grain1 _ (by norm_num)]
  norm_num [-Prod.mk_zero_zero]
  rw [c7_grain2 _ (by norm_num)]
  norm_num [-Prod.mk_zero_zero]
  rw [c7_grain3 _ (by norm_num)]
  norm_num [jsSign]

/-- C7 counterexample: the second worklet, from its fresh state at unity
pitch ratio and full wet mix, maps the one-sample block `[1]` to
`[1 - exp (-2)]`, about 0.8647 - more than 13% below the input, far
outside interpolation error.  The grains reconstruct the sample exactly
(the normalized grain sum is 1), but the `outputGain = 2` boost and the
soft clip `sign(x) * (1 - exp (-|x|))` change it. -/
theorem c7_counterexample :
    (nsProcess 48000 nsInit [1]).2 = [1 - Real.exp (-2)] ∧
    1 - Real.exp (-2) < 9/10 := by
  constructor
  · simp only [nsProcess, nsRun]
    rw [c7_sample_eval _ ?_ ?_ ?_ ?_ ?_ ?_ ?_ ?_]
    · norm_num [nsSmooth, nsInit]
    · norm_num [nsSmooth, nsInit]
    · norm_num [nsSmooth, nsInit]
    · norm_num [nsSmooth, nsInit]
    · intro i
      norm_num [nsSmooth, nsInit]
    · intro i
      norm_num [nsSmooth, nsInit]
    · intro i
      norm_num [nsSmooth, nsInit]
    · norm_num [nsSmooth, nsInit]
  · have hexp : Real.exp 2 < 10 := by
      have h := Real.exp_one_lt_d9
      have h2 : Real.exp 2 = Real.exp 1 * Real.exp 1 := by
        rw [← Real.exp_add]
        norm_num
      rw [h2]
      nlinarith [Real.exp_pos 1]
    have hpos := Real.exp_pos 2
    rw [Real.exp_neg]
    nlinarith [mul_inv_cancel₀ (ne_of_gt hpos), inv_pos.mpr hpos]
/-- On an all-zero window every `getD` read is 0. -/
theorem getD_zero (buf : List ℚ) (h : ∀ x ∈ buf, x = 0) (j : ℕ) :
    buf.getD j 0 = 0 := by
  rcases lt_or_ge j buf.length with hj | hj
  · rw [List.getD_eq_getElem buf 0 hj]
    exact h _ (List.getElem_mem hj)
  · exact List.getD_eq_default buf 0 hj

/-- On an all-zero window the squared-difference function vanishes. -/
theorem yinDiff_zero (buf : List ℚ) (h : ∀ x ∈ buf, x = 0) (t : ℕ) :
    yinDiff buf t = 0 := by
  rw [yinDiff]
  apply Finset.sum_eq_zero
  intro j _
  rw [getD_zero buf h, getD_zero buf h]
  ring

/-- On an all-zero window the running sum is 0 at every lag. -/
theorem yinRunSum_zero (buf : List ℚ) (h : ∀ x ∈ buf, x = 0) (t : ℕ) :
    yinRunSum buf t = 0 := by
  rw [yinRunSum]
  apply Finset.sum_eq_zero
  intro k _
  exact yinDiff_zero buf h k

/-- The division-by-zero clamp: on an all-zero window every normalized
value is 1. -/
theorem yinVal_zero (buf : List ℚ) (h : ∀ x ∈ buf, x = 0) (t : ℕ) :
    yinVal buf t = 1 := by
  rw [yinVal]
  by_cases ht : t = 0
  · rw [if_pos ht]
  · rw [if_neg ht, if_pos (yinRunSum_zero buf h t)]

/-- On an all-zero window the first variant's scan never fires. -/
theorem scanTau_zero (buf : List ℚ) (h : ∀ x ∈ buf, x = 0) :
    ∀ k t, buf.length / 2 - t ≤ k → scanTau buf t = none := by
  intro k
  induction k with
  | zero =>
    intro t ht
    rw [scanTau, if_neg (by omega)]
  | succ k ih =>
    intro t ht
    rw [scanTau]
    by_cases hlt : t < buf.length / 2
    · rw [if_pos hlt, if_neg (by rw [yinVal_zero buf h t]; norm_num)]
      exact ih (t + 1) (by omega)
    · rw [if_neg hlt]

/-- On an all-zero window the second variant's scan exhausts to the end of
its range. -/
theorem scanTau2_zero (buf : List ℚ) (h : ∀ x ∈ buf, x = 0) :
    ∀ k t, buf.length / 2 - t ≤ k →
      scanTau2 buf t = if t < buf.length / 2 then buf.length / 2 else t := by
  intro k
  induction k with
  | zero =>
    intro t ht
    rw [scanTau2, if_neg (by omega), if_neg (by omega)]
  | succ k ih =>
    intro t ht
    rw [scanTau2]
    by_cases hlt : t < buf.length / 2
    · rw [if_pos hlt, if_neg (by rw [yinVal_zero buf h t]; norm_num),
        ih (t + 1) (by omega), if_pos hlt]
      by_cases hlt1 : t + 1 < buf.length / 2
      · rw [if_pos hlt1]
      · rw [if_neg hlt1]
        omega
    · rw [if_neg hlt, if_neg hlt]

/-- One zero sample through the first worklet: output 0, buffer stays
zero. -/
theorem psSample_zero (st : PitchShifterState) (hst : ∀ i, st.buffer i = 0) :
    (psSample st 0).2 = 0 ∧ ∀ i, (psSample st 0).1.buffer i = 0 := by
  constructor
  · simp only [psSample]
    simp [hst]
  · intro i
    simp only [psSample]
    simp [hst]

/-- The first worklet maps all-zero blocks to all-zero blocks from any
all-zero buffer state. -/
theorem psProcess_zero : ∀ (input : List ℚ) (st : PitchShifterState),
    (∀ x ∈ input, x = 0) → (∀ i, st.buffer i = 0) →
    (∀ y ∈ (psProcess st input).2, y = 0) ∧
    (∀ i, (psProcess st input).1.buffer i = 0) := by
  intro input
  induction input with
  | nil =>
    intro st _ hst
    exact ⟨fun y hy => absurd hy (List.not_mem_nil y), hst⟩
  | cons x xs ih =>
    intro st hin hst
    have hx : x = 0 := hin x (List.mem_cons_self x xs)
    subst hx
    obtain ⟨h1, h2⟩ := psSample_zero st hst
    obtain ⟨ih1, ih2⟩ := ih (psSample st 0).1
      (fun y hy => hin y (List.mem_cons_of_mem 0 hy)) h2
    constructor
    · intro y hy
      simp only [psProcess] at hy
      rcases List.mem_cons.mp hy with rfl | hy
      · exact h1
      · exact ih1 y hy
    · intro i
      simp only [psProcess]
      exact ih2 i

/-- A grain read over an all-zero buffer adds nothing to the output
accumulator. -/
theorem nsGrain_zero (buf : ℕ → ℝ) (h : ∀ i, buf i = 0) (wp : ℕ)
    (eff : ℝ) (s : (ℝ × ℝ) × ℝ × ℝ) :
    (nsGrain buf wp eff s).2.1 = s.2.1 := by
  simp only [nsGrain]
  simp [h]

/-- One zero sample through the second worklet: output 0, buffer stays
zero. -/
theorem nsSample_zero (sr : ℝ) (st : NaturalShifterState)
    (h : ∀ i, st.inputBuffer i = 0) :
    (nsSample sr st 0).2 = 0 ∧ ∀ i, (nsSample sr st 0).1.inputBuffer i = 0 := by
  have hb : ∀ i, (fun i => if i = st.inputWritePos then (0 : ℝ)
      else st.inputBuffer i) i = 0 := by
    intro i
    simp [h]
  have hacc := nsGrain_zero _ hb
  constructor
  · simp only [nsSample]
    simp only [hacc]
    norm_num
  · intro i
    exact hb i

/-- The second worklet's sample loop maps all-zero blocks to all-zero
blocks from any all-zero buffer state. -/
theorem nsRun_zero (sr : ℝ) : ∀ (input : List ℝ) (st : NaturalShifterState),
    (∀ x ∈ input, x = 0) → (∀ i, st.inputBuffer i = 0) →
    (∀ y ∈ (nsRun sr st input).2, y = 0) ∧
    (∀ i, (nsRun sr st input).1.inputBuffer i = 0) := by
  intro input
  induction input with
  | nil =>
    intro st _ hst
    exact ⟨fun y hy => absurd hy (List.not_mem_nil y), hst⟩
  | cons x xs ih =>
    intro st hin hst
    have hx : x = 0 := hin x (List.mem_cons_self x xs)
    subst hx
    obtain ⟨h1, h2⟩ := nsSample_zero sr st hst
    obtain ⟨ih1, ih2⟩ := ih (nsSample sr st 0).1
      (fun y hy => hin y (List.mem_cons_of_mem 0 hy)) h2
    constructor
    · intro y hy
      simp only [nsRun] at hy
      rcases List.mem_cons.mp hy with rfl | hy
      · exact h1
      · exact ih1 y hy
    · intro i
      simp only [nsRun]
      exact ih2 i
/-- C8: silence in, silence out.  On an all-zero window the normalization
clamp makes every `d'(t) = 1`, so the first variant's estimator returns 0
on every all-zero window, and the second variant's does on every all-zero
window of at least 4 samples (its scan then exhausts to `halfSize` and is
rejected).  Both worklets map all-zero blocks to all-zero blocks from
all-zero buffer states. -/
theorem c8_silence (buf : List ℚ) (sr : ℚ) (t : ℕ)
    (hz : ∀ x ∈ buf, x = 0) (h4 : 4 ≤ buf.length)
    (st : PitchShifterState) (hst : ∀ i, st.buffer i = 0)
    (input : List ℚ) (hin : ∀ x ∈ input, x = 0)
    (stN : NaturalShifterState) (hstN : ∀ i, stN.inputBuffer i = 0)
    (inputR : List ℝ) (hinR : ∀ x ∈ inputR, x = 0) (srR : ℝ) :
    yinVal buf t = 1 ∧
    detectPitchYIN buf sr = 0 ∧
    detectPitch buf sr = 0 ∧
    (∀ y ∈ (psProcess st input).2, y = 0) ∧
    (∀ y ∈ (nsProcess srR stN inputR).2, y = 0) := by
  refine ⟨yinVal_zero buf hz t, ?_, ?_, (psProcess_zero input st hin hst).1, ?_⟩
  · rw [detectPitchYIN, scanTau_zero buf hz (buf.length / 2) 2 (by omega)]
  · have hs2 : scanTau2 buf 2 = buf.length / 2 := by
      rw [scanTau2_zero buf hz (buf.length / 2) 2 (by omega)]
      rcases eq_or_lt_of_le (show 2 ≤ buf.length / 2 by omega) with he | hl
      · rw [if_neg (by omega)]
        omega
      · rw [if_pos hl]
    simp only [detectPitch]
    rw [hs2, if_pos (show rejectTau2 buf (buf.length / 2) from Or.inl rfl)]
  · simp only [nsProcess]
    refine (nsRun_zero srR inputR _ ?_ ?_).1
    · exact hinR
    · intro i
      exact hstN i

/-- The C8 theorem applies to the 4-sample zero window and one-sample zero
blocks through both worklets from their initial states. -/
theorem c8_silence_witness :
    (∀ x ∈ ([0, 0, 0, 0] : List ℚ), x = 0) ∧
    4 ≤ ([0, 0, 0, 0] : List ℚ).length ∧
    detectPitchYIN [0, 0, 0, 0] 48000 = 0 ∧
    detectPitch [0, 0, 0, 0] 48000 = 0 :=
  have hz : ∀ x ∈ ([0, 0, 0, 0] : List ℚ), x = 0 := by decide
  have hr : ∀ x ∈ ([0] : List ℝ), x = 0 := by
    intro x hx
    simpa using hx
  have hmain := c8_silence [0, 0, 0, 0] 48000 1 hz (by decide) psInit
    (fun _ => rfl) [0] (by decide) nsInit (fun _ => rfl) [0] hr 48000
  ⟨hz, by decide, hmain.2.1, hmain.2.2.1⟩

/-- C8 counterexample: on the all-zero 2-sample window the second
variant's scan leaves `tau = 2`, the rejection test reads out of bounds
(`yinBuffer[2]` is `undefined`, and `NaN >= 0.1` is false), and the
detector returns `sampleRate / 2 = 24000`, not 0. -/
theorem c8_counterexample :
    (∀ x ∈ ([0, 0] : List ℚ), x = 0) ∧
    detectPitch [0, 0] 48000 = 24000 ∧ (24000 : ℚ) ≠ 0 := by
  refine ⟨by decide, ?_, by norm_num⟩
  have hs2 : scanTau2 [(0 : ℚ), 0] 2 = 2 := by
    rw [scanTau2, if_neg (by decide)]
  simp only [detectPitch]
  rw [hs2, if_neg (by decide), refineTau, if_neg (by decide)]
  norm_num
/-- `indexOf` returns -1 exactly when the key is absent. -/
theorem indexOfJS_not_mem : ∀ (l : List String) (s : String), s ∉ l →
    indexOfJS l s = -1 := by
  intro l
  induction l with
  | nil => intro s _; rfl
  | cons a l ih =>
    intro s hs
    rw [indexOfJS,
      if_neg (fun hc => hs (by rw [← hc]; exact List.mem_cons_self a l)),
      ih s (fun hc => hs (List.mem_cons_of_mem a hc)), if_pos rfl]

/-- Every scale pattern (and the chromatic default) contains the root
offset 0. -/
theorem pattern_has_zero (scale : String) :
    0 ∈ (SCALE_PATTERNS.lookup scale).getD
      [0, 1, 2, 3, 4, 5, 6, 7, 8, 9, 10, 11] := by
  rcases hp : SCALE_PATTERNS.lookup scale with _ | p
  · decide
  · have hmem := lookup_mem_values SCALE_PATTERNS scale p hp
    have hall : ∀ q ∈ SCALE_PATTERNS.map Prod.snd, 0 ∈ q := by decide
    simpa using hall p hmem

/-- Every scale pattern (and the chromatic default) contains an offset
between 1 and 11. -/
theorem pattern_has_mid (scale : String) :
    ∃ s ∈ (SCALE_PATTERNS.lookup scale).getD
      [0, 1, 2, 3, 4, 5, 6, 7, 8, 9, 10, 11], 1 ≤ s ∧ s ≤ 11 := by
  rcases hp : SCALE_PATTERNS.lookup scale with _ | p
  · exact ⟨1, by decide, by decide, by decide⟩
  · have hmem := lookup_mem_values SCALE_PATTERNS scale p hp
    have hall : ∀ q ∈ SCALE_PATTERNS.map Prod.snd,
        ∃ s ∈ q, 1 ≤ s ∧ s ≤ 11 := by decide
    simpa using hall p hmem

/-- A defined `NOTES[i]` read is a note name. -/
theorem jsGetNote_mem (i : ℤ) (name : String)
    (h : jsGetNote NOTES i = some name) : name ∈ NOTES := by
  rw [jsGetNote] at h
  by_cases hi : i < 0
  · rw [if_pos hi] at h
    exact absurd h (by simp)
  · rw [if_neg hi] at h
    exact List.get?_mem h

/-- For any key, valid or not, every *defined* frequency of the unsorted
table is positive. -/
theorem buildScaleFrequencies_pos (key scale : String) :
    ∀ e ∈ buildScaleFrequencies key scale, ∀ g, e.freq = some g → 0 < g := by
  intro e he g hgfreq
  rw [buildScaleFrequencies, List.mem_flatMap] at he
  obtain ⟨oct, _, he⟩ := he
  rw [List.mem_map] at he
  obtain ⟨n, hn, rfl⟩ := he
  rw [getScaleNotes, List.mem_map] at hn
  obtain ⟨s, _, rfl⟩ := hn
  rcases hj : jsGetNote NOTES ((indexOfJS NOTES key + (s : ℤ)).tmod 12) with
    _ | name
  · rw [hj] at hgfreq
    simp [Option.bind] at hgfreq
  · rw [hj] at hgfreq
    obtain ⟨q, hq, hqpos⟩ := lookup_note_pos name (jsGetNote_mem _ _ hj)
    simp only [Option.bind, hq, Option.map_some] at hgfreq
    have h2 : (0 : ℚ) < (2 : ℚ) ^ ((oct : ℤ) - 4) := zpow_pos (by norm_num) _
    rw [← Option.some.inj hgfreq]
    positivity

/-- For any key, every defined frequency of the sorted table is
positive. -/
theorem getScaleFrequencies_pos (key scale : String) :
    ∀ e ∈ getScaleFrequencies key scale, ∀ g, e.freq = some g → 0 < g := by
  intro e he
  have hperm := List.perm_insertionSort entLE (buildScaleFrequencies key scale)
  exact buildScaleFrequencies_pos key scale e (hperm.mem_iff.mp he)

/-- Even for an invalid key the table keeps at least one entry with a
defined frequency (the pattern offsets 1..11 survive `NOTES[keyIdx+s]`). -/
theorem getScaleFrequencies_has_valid_invalid {key : String}
    (hkey : key ∉ NOTES) (scale : String) :
    ∃ e ∈ getScaleFrequencies key scale, e.freq.isSome := by
  obtain ⟨s, hs, hs1, _⟩ := pattern_has_mid scale
  have hidx : indexOfJS NOTES key = -1 := indexOfJS_not_mem NOTES key hkey
  obtain ⟨name, hname, hmem⟩ := jsGetNote_valid (indexOfJS NOTES key + (s : ℤ))
    (by rw [hidx]; omega)
  obtain ⟨q, hq, _⟩ := lookup_note_pos name hmem
  have hn : jsGetNote NOTES ((indexOfJS NOTES key + (s : ℤ)).tmod 12) ∈
      getScaleNotes key scale := by
    rw [getScaleNotes]
    exact List.mem_map.mpr ⟨s, hs, rfl⟩
  have hbuild : ∃ e ∈ buildScaleFrequencies key scale, e.freq.isSome := by
    refine ⟨{ note := jsGetNote NOTES ((indexOfJS NOTES key + (s : ℤ)).tmod 12)
              freq := ((jsGetNote NOTES
                  ((indexOfJS NOTES key + (s : ℤ)).tmod 12)).bind
                (NOTE_FREQUENCIES.lookup ·)).map
                (· * (2 : ℚ) ^ (((1 : ℕ) : ℤ) - 4))
              octave := 1 }, ?_, ?_⟩
    · rw [buildScaleFrequencies]
      exact List.mem_flatMap.mpr ⟨1, by decide, List.mem_map.mpr ⟨_, hn, rfl⟩⟩
    · rw [hname]
      simp [Option.bind, hq]
  obtain ⟨e, he, hv⟩ := hbuild
  have hperm := List.perm_insertionSort entLE (buildScaleFrequencies key scale)
  exact ⟨e, hperm.mem_iff.mpr he, hv⟩

/-- C9: configuration fallbacks.  An unknown scale name falls back to the
chromatic pattern.  An invalid key does *not* fall back: the root offset
lands on `NOTES[-1]`, an undefined note, so the note set keeps the
selected pattern's length with an undefined hole - yet the block still
completes: the undefined entries are skipped (their `NaN` comparisons are
false) and the quantizer returns a defined positive in-scale frequency. -/
theorem c9_fallback (key scale : String) (f : ℚ)
    (hscale : SCALE_PATTERNS.lookup scale = none)
    (hkey : key ∉ NOTES) (h60 : 60 ≤ f) (h1500 : f ≤ 1500) :
    getScaleNotes key scale = getScaleNotes key "Chromatic" ∧
    none ∈ getScaleNotes key scale ∧
    (findNearestNote key scale f).freq ∈ scaleFreqs key scale ∧
    0 < (findNearestNote key scale f).freq := by
  have hchrom : SCALE_PATTERNS.lookup "Chromatic" =
      some [0, 1, 2, 3, 4, 5, 6, 7, 8, 9, 10, 11] := rfl
  have hidx : indexOfJS NOTES key = -1 := indexOfJS_not_mem NOTES key hkey
  refine ⟨?_, ?_, ?_⟩
  · rw [getScaleNotes, getScaleNotes, hscale, hchrom]
    rfl
  · rw [getScaleNotes]
    refine List.mem_map.mpr ⟨0, pattern_has_zero scale, ?_⟩
    rw [hidx]
    decide
  · have hguard : ¬(f ≤ 0 ∨ f < 60 ∨ f > 1500) := by
      push_neg
      exact ⟨by linarith, h60, h1500⟩
    set l := getScaleFrequencies key scale with hl
    have hvalid := getScaleFrequencies_has_valid_invalid hkey scale
    have hsome : (l.foldl (stepNearest f) ⟨none, 0, none, 0⟩).cents.isSome :=
      foldl2_isSome_of_valid f l _ (Or.inl hvalid)
    set st := l.foldl (stepNearest f) ⟨none, 0, none, 0⟩ with hst
    have hres : findNearestNote key scale f =
        ⟨st.note, st.freq, st.cents.getD 0, st.octave, st.freq / f⟩ := by
      rw [findNearestNote, if_neg hguard]
    rcases foldl2_cases f l ⟨none, 0, none, 0⟩ with hcase | ⟨e, he, g, hg, hcase⟩
    · rw [← hst] at hcase
      rw [hcase] at hsome
      exact absurd hsome (by simp)
    · rw [← hst] at hcase
      have hfreq : (findNearestNote key scale f).freq = g := by
        rw [hres, hcase]
      rw [hfreq]
      exact ⟨List.mem_filterMap.mpr ⟨e, he, hg⟩,
        getScaleFrequencies_pos key scale e he g hg⟩

/-- The C9 theorem applies to the unknown scale "Foo" and the invalid key
"X" at 440 Hz. -/
theorem c9_fallback_witness :
    SCALE_PATTERNS.lookup "Foo" = none ∧ "X" ∉ NOTES ∧
    (60 : ℚ) ≤ 440 ∧ (440 : ℚ) ≤ 1500 ∧
    getScaleNotes "X" "Foo" = getScaleNotes "X" "Chromatic" ∧
    0 < (findNearestNote "X" "Foo" 440).freq :=
  have h := c9_fallback "X" "Foo" 440 (by decide) (by decide) (by norm_num)
    (by norm_num)
  ⟨by decide, by decide, by norm_num, by norm_num, h.1, h.2.2.2⟩

/-- C9 counterexample: with the invalid key "X" and the known scale
"Major" the note set is built from the *Major* pattern (7 notes, the root
undefined), not from the chromatic fallback: no chromatic 12-note set is
used for an invalid key. -/
theorem c9_counterexample :
    getScaleNotes "X" "Major" =
      [none, some "C#", some "D#", some "E", some "F#", some "G#",
        some "A#"] ∧
    (getScaleNotes "X" "Major").length ≠
      (getScaleNotes "X" "Chromatic").length := by
  constructor
  · decide
  · decide
/-- The descend loop never increases the normalized value. -/
theorem descendMin_le (buf : List ℚ) : ∀ k t, buf.length / 2 - t ≤ k →
    yinVal buf (descendMin buf t) ≤ yinVal buf t := by
  intro k
  induction k with
  | zero =>
    intro t ht
    rw [descendMin, if_neg (fun hcon => absurd hcon.1 (by omega))]
  | succ k ih =>
    intro t ht
    by_cases hc : t + 1 < buf.length / 2 ∧ yinVal buf (t + 1) < yinVal buf t
    · rw [descendMin, if_pos hc]
      exact le_trans (ih (t + 1) (by omega)) (le_of_lt hc.2)
    · rw [descendMin, if_neg hc]

/-- The descend loop stays inside the scanned range. -/
theorem descendMin_lt (buf : List ℚ) : ∀ k t, buf.length / 2 - t ≤ k →
    t < buf.length / 2 → descendMin buf t < buf.length / 2 := by
  intro k
  induction k with
  | zero =>
    intro t ht hlt
    exact absurd hlt (by omega)
  | succ k ih =>
    intro t ht hlt
    by_cases hc : t + 1 < buf.length / 2 ∧ yinVal buf (t + 1) < yinVal buf t
    · rw [descendMin, if_pos hc]
      exact ih (t + 1) (by omega) hc.1
    · rw [descendMin, if_neg hc]
      exact hlt

/-- The two threshold scans agree: when the first variant's scan finds no
sub-threshold lag, the second's exhausts to the end of its range; when it
finds one, both descend to the same lag, which is in range and still below
the threshold. -/
theorem scan_agree (buf : List ℚ) : ∀ k t, buf.length / 2 - t ≤ k →
    (scanTau buf t = none →
      scanTau2 buf t = if t < buf.length / 2 then buf.length / 2 else t) ∧
    (∀ tau, scanTau buf t = some tau →
      scanTau2 buf t = tau ∧ tau < buf.length / 2 ∧
        yinVal buf tau < 1 / 10) := by
  intro k
  induction k with
  | zero =>
    intro t ht
    constructor
    · intro _
      rw [scanTau2, if_neg (by omega), if_neg (by omega)]
    · intro tau htau
      rw [scanTau, if_neg (by omega)] at htau
      exact absurd htau (by simp)
  | succ k ih =>
    intro t ht
    by_cases hlt : t < buf.length / 2
    · by_cases hval : yinVal buf t < 1 / 10
      · constructor
        · intro hnone
          rw [scanTau, if_pos hlt, if_pos hval] at hnone
          exact absurd hnone (by simp)
        · intro tau htau
          rw [scanTau, if_pos hlt, if_pos hval] at htau
          have htau' : descendMin buf t = tau := Option.some.inj htau
          rw [scanTau2, if_pos hlt, if_pos hval, htau']
          refine ⟨rfl, ?_, ?_⟩
          · rw [← htau']
            exact descendMin_lt buf (buf.length / 2) t (by omega) hlt
          · rw [← htau']
            exact lt_of_le_of_lt
              (descendMin_le buf (buf.length / 2) t (by omega)) hval
      · have hrec := ih (t + 1) (by omega)
        constructor
        · intro hnone
          rw [scanTau, if_pos hlt, if_neg hval] at hnone
          rw [scanTau2, if_pos hlt, if_neg hval, hrec.1 hnone]
          by_cases h1 : t + 1 < buf.length / 2
          · rw [if_pos h1, if_pos hlt]
          · rw [if_neg h1, if_pos hlt]
            omega
        · intro tau htau
          rw [scanTau, if_pos hlt, if_neg hval] at htau
          rw [scanTau2, if_pos hlt, if_neg hval]
          exact hrec.2 tau htau
    · constructor
      · intro _
        rw [scanTau2, if_neg hlt, if_neg hlt]
      · intro tau htau
        rw [scanTau, if_neg hlt] at htau
        exact absurd htau (by simp)

/-- C10: the two YIN detectors agree on every window of at least 4
samples.  A found lag is below the 0.1 threshold after the shared descend
loop, so the first variant's probability check (`1 - d'(tau) < 0.7`, i.e.
`d'(tau) > 0.3`) never fires and is vacuous; on no find, the first returns
0 through its `tau = -1` sentinel and the second through the
`tau === halfSize` rejection. -/
theorem c10_detectors_agree (buf : List ℚ) (sr : ℚ) (h4 : 4 ≤ buf.length) :
    detectPitchYIN buf sr = detectPitch buf sr := by
  have hh : 2 ≤ buf.length / 2 := by omega
  have hagree := scan_agree buf (buf.length / 2) 2 (by omega)
  rcases hscan : scanTau buf 2 with _ | tau
  · have hs2 : scanTau2 buf 2 = buf.length / 2 := by
      rw [hagree.1 hscan]
      rcases eq_or_lt_of_le hh with he | hl
      · rw [if_neg (by omega)]
        omega
      · rw [if_pos hl]
    simp only [detectPitchYIN, hscan]
    simp only [detectPitch]
    rw [hs2, if_pos (show rejectTau2 buf (buf.length / 2) from Or.inl rfl)]
  · obtain ⟨ha, hb, hc⟩ := hagree.2 tau hscan
    have hrej : ¬rejectTau2 buf tau := by
      intro hcon
      rcases hcon with h | ⟨_, h2⟩
      · omega
      · linarith
    have hprob : ¬(1 - yinVal buf tau < 7 / 10) := by
      rw [not_lt]
      linarith
    simp only [detectPitchYIN, hscan]
    rw [if_neg hprob]
    simp only [detectPitch]
    rw [ha, if_neg hrej]

/-- The C10 theorem applies to the 4-sample window `[1, 0, 0, 0]`. -/
theorem c10_detectors_agree_witness :
    4 ≤ ([1, 0, 0, 0] : List ℚ).length ∧
    detectPitchYIN [1, 0, 0, 0] 48000 = detectPitch [1, 0, 0, 0] 48000 :=
  ⟨by decide, c10_detectors_agree [1, 0, 0, 0] 48000 (by decide)⟩

/-- C10 counterexample: on the 2-sample window `[1, 0]` the first
variant's scan never starts (`halfSize = 1`), so it returns 0; the second
variant's `tau` stays 2, the rejection test's out-of-bounds `NaN`
comparison is false, and it returns `48000 / 2 = 24000`. -/
theorem c10_counterexample :
    detectPitchYIN [1, 0] 48000 = 0 ∧
    detectPitch [1, 0] 48000 = 24000 ∧ (0 : ℚ) ≠ 24000 := by
  refine ⟨?_, ?_, by norm_num⟩
  · have hscan : scanTau [(1 : ℚ), 0] 2 = none := by
      rw [scanTau, if_neg (by decide)]
    simp only [detectPitchYIN, hscan]
  · have hs2 : scanTau2 [(1 : ℚ), 0] 2 = 2 := by
      rw [scanTau2, if_neg (by decide)]
    simp only [detectPitch]
    rw [hs2, if_neg (by decide), refineTau, if_neg (by decide)]
    norm_num
end TonalSync
